import Mathlib

/-!
Certificate status check flow (`src/status/flow.js`)

A shallow embedding of the session client, the form extractor, the field
mappers, the orchestrator `performStatusCheck` and its result classifier.

Modelling conventions.

* A JavaScript string is a list of characters (`Str`).  A missing, `undefined`
  or `null` value is `none`.
* The libraries and the runtime the source calls are not part of the program
  and are taken as they are used: `cheerio.load` is the field `load` of the
  environment and gives the parsed view (`Page`) of a document, `new URL(rel,
  base)` is the field `resolveUrl`, the remote server reached through `fetch`
  is the field `fetch`, a function of the whole history of requests of the
  call, and `String.prototype.toUpperCase` applied to data is the field
  `upperCase`.
* A selector that the source builds from data, `label[for="<id>"]`, is
  evaluated by the selector engine of the parser: the field `labelText` of a
  page gives, for the raw id, the text of the labels the engine selects, or
  the error it throws.
* A plain object keeps its own properties in the order of enumeration: the
  array indices in ascending order, then the other keys in the order of their
  creation.  An assignment `o[k] = v` of a string to the key `__proto__` sets
  nothing.
* A rejected promise (a thrown `Error`) is `Except.error` carrying the message.
* The regular expressions of the source are values of `Re`, run by a
  backtracking matcher with the priorities of ECMAScript (leftmost start,
  greedy quantifiers, left alternative first).
-/

set_option autoImplicit false

namespace DbsCheck

/-- A JavaScript string. -/
abbrev Str := List Char

/-! ## String primitives -/

/-- The characters matched by `\s` and removed by `String.prototype.trim`:
ECMAScript WhiteSpace and LineTerminator. -/
def isWhiteSpace (c : Char) : Bool :=
  let n := c.toNat
  n == 0x09 || n == 0x0A || n == 0x0B || n == 0x0C || n == 0x0D || n == 0x20 ||
  n == 0xA0 || n == 0x1680 || (0x2000 ≤ n && n ≤ 0x200A) || n == 0x2028 ||
  n == 0x2029 || n == 0x202F || n == 0x205F || n == 0x3000 || n == 0xFEFF

/-- The characters matched by `\d`. -/
def isDigit (c : Char) : Bool := 0x30 ≤ c.toNat && c.toNat ≤ 0x39

/-- The characters matched by `\D`. -/
def isNonDigit (c : Char) : Bool := !isDigit c

/-- Upper-casing of one character, on the ASCII letters; other characters are
left as they are. -/
def upperChar (c : Char) : Char :=
  if 0x61 ≤ c.toNat ∧ c.toNat ≤ 0x7A then Char.ofNat (c.toNat - 0x20) else c

/-- Lower-casing of one character, on the ASCII letters and on the Kelvin
sign, whose lower case is the letter `k`; other characters are left as they
are. -/
def lowerChar (c : Char) : Char :=
  if 0x41 ≤ c.toNat ∧ c.toNat ≤ 0x5A then Char.ofNat (c.toNat + 0x20)
  else if c.toNat = 0x212A then 'k'
  else c

/-- Upper-casing of the ASCII letters of a string.  It stands for
`String.prototype.toUpperCase` where the source compares the result with the
literal `GET`, on which comparison the two agree, and it is the
canonicalisation of the `i` flag for the ASCII patterns of the source.  The
upper-casing of data is the field `upperCase` of the environment. -/
def toUpperCase (s : Str) : Str := s.map upperChar

/-- `String.prototype.toLowerCase`, as far as the source can tell: it compares
the result with ASCII words (`checkbox`, `radio`, `submit`) and searches it for
ASCII keywords only.  The characters whose lower case holds an ASCII letter
are the ASCII capitals, the Kelvin sign, and the capital I with a dot, whose
lower case is `i` followed by a combining dot; no word of the source ends in
`i`, so that this last character can complete none of them, lower-cased or
not. -/
def toLowerCase (s : Str) : Str := s.map lowerChar

/-- `String.prototype.trimStart`. -/
def trimStart (s : Str) : Str := s.dropWhile isWhiteSpace

/-- `String.prototype.trimEnd`. -/
def trimEnd (s : Str) : Str := (s.reverse.dropWhile isWhiteSpace).reverse

/-- `String.prototype.trim`. -/
def trim (s : Str) : Str := trimEnd (trimStart s)

/-- `String.prototype.includes`: `pat` occurs in `s`, compared exactly. -/
def includes (s pat : Str) : Bool :=
  match s with
  | [] => pat.isEmpty
  | c :: t => pat.isPrefixOf (c :: t) || includes t pat

/-- Occurrence of a piece of text in `s` without regard to the case of ASCII
letters: what a literal pattern with the `i` flag tests. -/
def includesCI (s : Str) (pat : String) : Bool :=
  includes (toUpperCase s) (toUpperCase pat.toList)

/-- `s.replace(/C+/g, by)` for a character class `C`: every maximal run of
characters of the class is replaced by `by`.  The flag `inRun` says that the
previous character belonged to a run that has already been replaced. -/
def replaceRunsAux (p : Char → Bool) (by_ : Str) : Bool → Str → Str
  | _, [] => []
  | inRun, c :: t =>
    if p c then
      (if inRun then [] else by_) ++ replaceRunsAux p by_ true t
    else c :: replaceRunsAux p by_ false t

/-- `s.replace(/C+/g, by)` for a character class `C`. -/
def replaceRuns (p : Char → Bool) (by_ : Str) (s : Str) : Str :=
  replaceRunsAux p by_ false s

/-- The number of UTF-16 code units of a string (`String.prototype.length`). -/
def jsLength (s : Str) : Nat :=
  (s.map fun c => if c.toNat < 0x10000 then 1 else 2).sum

/-- `s.padStart(n, '0')`. -/
def padStart0 (n : Nat) (s : Str) : Str :=
  List.replicate (n - jsLength s) '0' ++ s

/-- `a || b` on strings: `a` unless it is empty. -/
def orElse (a b : Str) : Str := if a.isEmpty then b else a

/-- `x || ''` on a possibly missing string. -/
def orEmpty (x : Option Str) : Str := x.getD []

/-- Truthiness of a possibly missing string. -/
def truthy (x : Option Str) : Bool :=
  match x with
  | some s => !s.isEmpty
  | none => false

/-! ## Regular expressions -/

/-- The fragment of ECMAScript regular expressions the source uses. -/
inductive Re where
  | eps : Re
  | chr (c : Char) : Re
  | cls (p : Char → Bool) : Re
  | star (p : Char → Bool) : Re
  | seq (a b : Re) : Re
  | alt (a b : Re) : Re
  | grp (a : Re) : Re

namespace Re

/-- A literal piece of pattern text. -/
def lit (s : String) : Re := s.toList.foldr (fun c r => seq (chr c) r) eps

/-- One or more characters of a class, greedy: `C+`. -/
def plus (p : Char → Bool) : Re := seq (cls p) (star p)

/-- Exactly `n` characters of a class: `C{n}`. -/
def times (p : Char → Bool) : Nat → Re
  | 0 => eps
  | n + 1 => seq (cls p) (times p n)

/-- Canonicalisation of a character for the `i` flag.  The patterns of the
source contain ASCII characters only, and without the `u` flag a non-ASCII
character never canonicalises to an ASCII one, so only ASCII letters matter. -/
def canon (ci : Bool) (c : Char) : Char := if ci then upperChar c else c

/-- The remainders a greedy `C*` can leave, longest match first. -/
def starRun (p : Char → Bool) : Str → List Str
  | [] => [[]]
  | c :: t => if p c then starRun p t ++ [c :: t] else [c :: t]

/-- All the ways the pattern matches a prefix of the input, in the order the
backtracking matcher tries them: the remaining input and the captured groups. -/
def run (ci : Bool) : Re → Str → List (Str × List Str)
  | eps, s => [(s, [])]
  | chr c, s =>
    match s with
    | d :: t => if canon ci d = canon ci c then [(t, [])] else []
    | [] => []
  | cls p, s =>
    match s with
    | d :: t => if p d then [(t, [])] else []
    | [] => []
  | star p, s => (starRun p s).map fun t => (t, [])
  | seq a b, s =>
    (run ci a s).flatMap fun x => (run ci b x.1).map fun y => (y.1, x.2 ++ y.2)
  | alt a b, s => run ci a s ++ run ci b s
  | grp a, s =>
    (run ci a s).map fun x => (x.1, s.take (s.length - x.1.length) :: x.2)

/-- The match of the pattern that starts at the head of the input, if any:
the matched text and the captured groups. -/
def matchHere (ci : Bool) (r : Re) (s : Str) : Option (Str × List Str) :=
  match run ci r s with
  | x :: _ => some (s.take (s.length - x.1.length), x.2)
  | [] => none

/-- `s.match(r)` without the `g` flag: the leftmost match, as the matched text
(index 0) and the captured groups (index 1, 2, ...). -/
def exec (ci : Bool) (r : Re) : Str → Option (Str × List Str)
  | [] => matchHere ci r []
  | c :: t =>
    match matchHere ci r (c :: t) with
    | some m => some m
    | none => exec ci r t

/-- `r.test(s)`. -/
def test (ci : Bool) (r : Re) (s : Str) : Bool := (exec ci r s).isSome

end Re

/-- The capture group `i` (counted from 1) of a match. -/
def group (m : Str × List Str) (i : Nat) : Str := m.2.getD (i - 1) []

/-! ## Objects, maps and the cookie jar -/

/-- A `Map` of strings, with its entries in insertion order, or a plain
object with string values, with its own properties in the order of
enumeration; each key once. -/
abbrev Obj := List (Str × Str)

/-- `map.set(k, v)`: an existing key keeps its place, a new key goes to the
end. -/
def objSet : Obj → Str → Str → Obj
  | [], k, v => [(k, v)]
  | (k', v') :: t, k, v => if k' = k then (k', v) :: t else (k', v') :: objSet t k v

/-- `k in o`. -/
def objHas (o : Obj) (k : Str) : Bool := o.any fun e => e.1 == k

/-- `o[k]`. -/
def objGet (o : Obj) (k : Str) : Option Str := (o.find? fun e => e.1 == k).map Prod.snd

/-- The entries of `b` set one after the other in the map `a`. -/
def spread (a b : Obj) : Obj := b.foldl (fun o e => objSet o e.1 e.2) a

/-- The array index that a property key denotes, if it denotes one: the key is
the decimal form, without a leading zero, of an integer below `2^32 - 1`. -/
def arrayIndex (k : Str) : Option Nat :=
  if k.all isDigit && (k.length == 1 || (k.length != 0 && k.head? != some '0')) then
    let n := k.foldl (fun a c => 10 * a + (c.toNat - 0x30)) 0
    if n < 4294967295 then some n else none
  else none

/-- Whether a property is enumerated before a new array index `n`: it is an
array index below `n`. -/
def precedesIndex (n : Nat) (e : Str × Str) : Bool :=
  match arrayIndex e.1 with
  | some m => m < n
  | none => false

/-- A new own property of a plain object: an array index takes its place
among the array indices, which are enumerated first and in ascending order;
any other key goes to the end. -/
def insertProp (o : Obj) (k v : Str) : Obj :=
  match arrayIndex k with
  | some n => o.takeWhile (precedesIndex n) ++ (k, v) :: o.dropWhile (precedesIndex n)
  | none => o ++ [(k, v)]

/-- The own property `k` of a plain object defined as `v`: an existing
property keeps its place. -/
def defineProp (o : Obj) (k v : Str) : Obj :=
  if objHas o k then objSet o k v else insertProp o k v

/-- `o[k] = v` on a plain object, for a string `v`: the key `__proto__` is the
accessor of the prototype, which ignores a string, so that nothing is set. -/
def propSet (o : Obj) (k v : Str) : Obj :=
  if k = "__proto__".toList then o else defineProp o k v

/-- `{ ...a, ...b }` for the plain objects `a` and `b`. -/
def spreadProps (a b : Obj) : Obj := b.foldl (fun o e => defineProp o e.1 e.2) a

/-- `s.indexOf(c)`, `none` standing for `-1`. -/
def indexOf : Str → Char → Option Nat
  | [], _ => none
  | d :: t, c => if d = c then some 0 else (indexOf t c).map (· + 1)

/-- The function `parseSetCookieHeaders`. -/
def parseSetCookieHeaders (setCookieHeaders : List Str) : Obj :=
  setCookieHeaders.foldl (fun cookieMap header =>
    let nameValue := header.takeWhile (· != ';')
    match indexOf nameValue '=' with
    | some idx =>
      if 0 < idx then
        objSet cookieMap (trim (nameValue.take idx)) (trim (nameValue.drop (idx + 1)))
      else cookieMap
    | none => cookieMap) []

/-- The function `mergeCookies`. -/
def mergeCookies (jar newOnes : Obj) : Obj := spread jar newOnes

/-- `pairs.join(sep)`. -/
def join (sep : Str) : List Str → Str
  | [] => []
  | [a] => a
  | a :: b :: t => a ++ sep ++ join sep (b :: t)

/-- The function `cookieHeaderFromJar`. -/
def cookieHeaderFromJar (jar : Obj) : Str :=
  join "; ".toList (jar.map fun e => e.1 ++ '=' :: e.2)

/-! ## The session client -/

/-- The `options` argument of `fetchWithCookies`.  The body is the list of
form fields that `urlEncodeForm` serialises. -/
structure Options where
  method : Option Str
  headers : Obj
  body : Option Obj
  referer : Option Str

/-- One call of `fetch`. -/
structure Request where
  url : Str
  method : Option Str
  headers : Obj
  body : Option Obj
deriving DecidableEq

/-- What the client reads of a response. -/
structure Response where
  status : Nat
  url : Str
  setCookie : List Str
  location : Option Str
  contentType : Option Str
  body : Str
deriving DecidableEq

/-- A control of a form, as the selectors and accessors of the source see it. -/
structure Control where
  tag : Str
  name : Option Str
  id : Option Str
  typeAttr : Option Str
  val : Option Str
  checked : Bool

/-- A `form` element with its `input`, `select`, `textarea` and `button`
descendants in document order. -/
structure Form where
  action : Option Str
  method : Option Str
  controls : List Control

/-- The parsed view of a document that `cheerio.load` gives: the forms in
document order, the texts of `title`, of the first `h1, h2`, of `main` and of
`body`, and the answer of the selector engine to the selector that the source
builds from an id attribute: `labelText id` is what
`$('label[for="' + id + '"]').text()` evaluates to for the raw text `id`, the
texts of the selected labels one after the other, or the message of the error
that the engine throws on that selector. -/
structure Page where
  forms : List Form
  labelText : Str → Except Str Str
  title : Str
  heading : Str
  main : Str
  body : Str

/-- What lies outside the program: the configured user agent,
`String.prototype.toUpperCase` of the runtime, the HTML parser, URL resolution
(`none` when `new URL` throws) and the remote server, which answers a request
knowing all the requests of the call so far (the last element of the list is
the request being answered) or fails in transport. -/
structure Env where
  userAgent : Str
  upperCase : Str → Str
  load : Str → Page
  resolveUrl : Str → Str → Option Str
  fetch : List Request → Except Str Response

/-- The constant `config.targets.e2s1`. -/
def e2s1 : Str := "https://secure.crbonline.gov.uk/crsc/check?execution=e2s1".toList

/-- The function `absoluteUrl`. -/
def absoluteUrl (env : Env) (base maybeRelative : Str) : Str :=
  (env.resolveUrl maybeRelative base).getD maybeRelative

/-- The mutable state of one invocation that the client touches: the cookie
jar, and the requests issued so far. -/
structure Net where
  jar : Obj
  log : List Request

/-- The value `fetchWithCookies` resolves to (the jar is in `Net`). -/
structure Fetched where
  response : Response
  body : Str
  contentType : Str

/-- The headers of one request of `fetchWithCookies`. -/
def requestHeaders (env : Env) (options : Options) (jar : Obj) (referer : Option Str) : Obj :=
  let h0 := options.headers
  let h1 := if 0 < jar.length then objSet h0 "Cookie".toList (cookieHeaderFromJar jar) else h0
  let h2 := objSet h1 "User-Agent".toList env.userAgent
  let h3 := objSet h2 "Accept".toList
    "text/html,application/xhtml+xml,application/xml;q=0.9,*/*;q=0.8".toList
  let h4 := objSet h3 "Accept-Language".toList "en-GB,en;q=0.9".toList
  let h5 := objSet h4 "Cache-Control".toList "no-cache".toList
  let h6 := objSet h5 "Pragma".toList "no-cache".toList
  if truthy referer then objSet h6 "Referer".toList (orEmpty referer) else h6

/-- `[301, 302, 303, 307, 308].includes(status)`. -/
def isRedirectStatus (status : Nat) : Bool :=
  status == 301 || status == 302 || status == 303 || status == 307 || status == 308

/-- The loop of `fetchWithCookies`.  The first argument is
`maxRedirects - redirectCount`, so that `redirectCount++ >= maxRedirects` is
the case `0`. -/
def fetchLoop (env : Env) :
    Nat → Str → Options → Option Str → Net → Net × Except Str Fetched
  | remaining, url, options, referer, net =>
    let request : Request :=
      { url := url, method := options.method,
        headers := requestHeaders env options net.jar referer, body := options.body }
    let log := net.log ++ [request]
    match env.fetch log with
    | .error e => ({ jar := net.jar, log := log }, .error e)
    | .ok response =>
      let jar :=
        if 0 < response.setCookie.length then
          mergeCookies net.jar (parseSetCookieHeaders response.setCookie)
        else net.jar
      if isRedirectStatus response.status then
        match remaining with
        | 0 => ({ jar := jar, log := log }, .error "redirect count exceeded".toList)
        | r + 1 =>
          if truthy response.location then
            let location := orEmpty response.location
            let options' : Options :=
              if response.status == 303 ||
                  (response.status == 302 &&
                    toUpperCase (orElse (orEmpty options.method) "GET".toList) != "GET".toList)
              then { method := some "GET".toList, headers := [], body := none, referer := none }
              else options
            fetchLoop env r (absoluteUrl env url location) options' (some url)
              { jar := jar, log := log }
          else ({ jar := jar, log := log }, .error "redirect with no location header".toList)
      else
        ({ jar := jar, log := log },
          .ok { response := response, body := response.body,
                contentType := orEmpty response.contentType })

/-- The function `fetchWithCookies`. -/
def fetchWithCookies (env : Env) (initialUrl : Str) (options : Options) (net : Net)
    (maxRedirects : Nat) : Net × Except Str Fetched :=
  fetchLoop env maxRedirects initialUrl options options.referer net

/-! ## The form extractor and the field mappers -/

/-- The value `extractForm` returns (its handle `$` is the page itself). -/
structure ExtractedForm where
  action : Str
  method : Str
  inputs : Obj

/-- One step of the `each` loop of `extractForm`. -/
def seedControl (inputs : Obj) (el : Control) : Obj :=
  if !truthy el.name then inputs
  else
    let name := orEmpty el.name
    let type := toLowerCase (orEmpty el.typeAttr)
    if type == "checkbox".toList || type == "radio".toList then
      if el.checked then propSet inputs name (el.val.getD "on".toList) else inputs
    else if el.tag == "button".toList || type == "submit".toList then
      if includes name "eventId".toList || name == "_eventId_submit".toList then
        propSet inputs name (el.val.getD "Continue".toList)
      else inputs
    else propSet inputs name (el.val.getD [])

/-- The function `extractForm`, on the parsed document. -/
def extractForm (env : Env) (page : Page) : Option ExtractedForm :=
  match page.forms with
  | [] => none
  | form :: _ =>
    some { action := orEmpty form.action
           method := env.upperCase (orElse (orEmpty form.method) "GET".toList)
           inputs := form.controls.foldl seedControl [] }

/-- The function `urlEncodeForm`: the fields that are serialised.  Every value
of the model is a string, none is `undefined` or `null`. -/
def urlEncodeForm (fields : Obj) : Obj := fields

/-- The expression `id ? $('label[for="' + id + '"]').text().toLowerCase() : ''`:
the text of the labels that the selector built from the id selects,
lower-cased, or the error of the selector engine; `''` without an id. -/
def labelTextOf (page : Page) (id : Option Str) : Except Str Str :=
  if truthy id then
    match page.labelText (orEmpty id) with
    | .ok text => .ok (toLowerCase text)
    | .error e => .error e
  else .ok []

/-- A loop `.each` over elements with a callback that may throw: the object
built so far is handed from one element to the next, and the first error ends
the loop. -/
def eachM {α : Type} (f : Obj → α → Except Str Obj) : Obj → List α → Except Str Obj
  | o, [] => .ok o
  | o, a :: t =>
    match f o a with
    | .ok o' => eachM f o' t
    | .error e => .error e

/-- A filter `.filter` with a callback that may throw: the callback is run on
every element in order, and the first error ends the filter. -/
def filterEach {α : Type} (p : α → Except Str Bool) : List α → Except Str (List α)
  | [] => .ok []
  | a :: t =>
    match p a with
    | .error e => .error e
    | .ok keep =>
      match filterEach p t with
      | .error e => .error e
      | .ok rest => .ok (if keep then a :: rest else rest)

/-- The logical fields given to `populateOrganisationFields`. -/
structure OrgFields where
  organisationName : Str
  forename : Str
  surname : Str

/-- The function `populateOrganisationFields`. -/
def populateOrganisationFields (page : Page) (fields : OrgFields) : Except Str Obj :=
  eachM (fun result el =>
      if !truthy el.name then .ok result
      else
        let name := orEmpty el.name
        match labelTextOf page el.id with
        | .error e => .error e
        | .ok labelText =>
          let lowerName := toLowerCase name
          .ok (
            if name == "organisationName".toList then propSet result name fields.organisationName
            else if name == "forename".toList then propSet result name fields.forename
            else if name == "surname".toList then propSet result name fields.surname
            else if includes labelText "organisation".toList ||
                includes lowerName "organisation".toList
              then propSet result name fields.organisationName
            else if includes labelText "forename".toList || includes lowerName "forename".toList
              then propSet result name fields.forename
            else if includes labelText "surname".toList || includes lowerName "surname".toList
              then propSet result name fields.surname
            else result)) []
    ((page.forms.map Form.controls).flatten.filter fun el => el.tag == "input".toList)

/-- The normalised date of birth. -/
structure NormDob where
  day : Str
  month : Str
  year : Str

/-- The logical fields given to `populateCertificateFields`. -/
structure CertFields where
  certificateNumber : Str
  applicantSurname : Str
  dob : NormDob

/-- The function `populateCertificateFields`. -/
def populateCertificateFields (page : Page) (fields : CertFields) : Except Str Obj :=
  eachM (fun result el =>
      if !truthy el.name then .ok result
      else
        let name := orEmpty el.name
        match labelTextOf page el.id with
        | .error e => .error e
        | .ok labelText =>
          let lowerName := toLowerCase name
          .ok (
            if name == "certificateNumber".toList
              then propSet result name fields.certificateNumber
            else if name == "surname".toList then propSet result name fields.applicantSurname
            else if name == "dayOfBirth".toList then propSet result name fields.dob.day
            else if name == "monthOfBirth".toList then propSet result name fields.dob.month
            else if name == "yearOfBirth".toList then propSet result name fields.dob.year
            else if includes labelText "certificate".toList ||
                includes lowerName "certificate".toList
              then propSet result name fields.certificateNumber
            else if includes labelText "surname".toList || includes lowerName "surname".toList
              then propSet result name fields.applicantSurname
            else if includes labelText "day".toList || includes lowerName "day".toList
              then propSet result name fields.dob.day
            else if includes labelText "month".toList || includes lowerName "month".toList
              then propSet result name fields.dob.month
            else if includes labelText "year".toList || includes lowerName "year".toList
              then propSet result name fields.dob.year
            else result)) []
    ((page.forms.map Form.controls).flatten.filter fun el =>
      el.tag == "input".toList || el.tag == "select".toList)

/-- The callback of the filter of `agreeLegalDeclaration`: whether the label
of a checkbox speaks of agreeing or of the legal declaration. -/
def declarationLabel (page : Page) (el : Control) : Except Str Bool :=
  match labelTextOf page el.id with
  | .error e => .error e
  | .ok label => .ok (includes label "agree".toList || includes label "legal".toList)

/-- The function `agreeLegalDeclaration`.  The selector
`form input[type="checkbox"]` compares the `type` attribute without regard to
case, as the selector engine does for HTML documents. -/
def agreeLegalDeclaration (page : Page) : Except Str Obj :=
  match filterEach (declarationLabel page)
    ((page.forms.map Form.controls).flatten.filter fun el =>
      el.tag == "input".toList &&
      (el.typeAttr.map toLowerCase == some "checkbox".toList)) with
  | .error e => .error e
  | .ok [] => .ok []
  | .ok (checkbox :: _) =>
    .ok (
      if truthy checkbox.name then
        propSet [] (orEmpty checkbox.name) (checkbox.val.getD "on".toList)
      else [])

/-! ## The orchestrator and the classifier -/

/-- The `dob` member of the input. -/
structure Dob where
  day : Option Str
  month : Option Str
  year : Option Str

/-- A member of the input that the source reads as `(x || '').trim()`,
without converting it to a string: missing (or falsy), a string, or a truthy
value of another type, such as the number `5`, which has no method `trim`;
`message` is the message of the `TypeError` that the runtime raises for it. -/
inductive NameValue where
  | missing : NameValue
  | text (s : Str) : NameValue
  | other (message : Str) : NameValue

/-- The input `details`, an object.  The three names are read without
conversion; the other members, which the source converts with `String(...)`,
are given as the strings they convert to, and one that is missing or falsy is
`none`. -/
structure ApplicantDetails where
  organisationName : NameValue
  requesterForename : NameValue
  requesterSurname : NameValue
  certificateNumber : Option Str
  applicantSurname : Option Str
  dob : Option Dob

/-- The object `norm`. -/
structure Norm where
  organisationName : Str
  requesterForename : Str
  requesterSurname : Str
  certificateNumber : Str
  applicantSurname : Str
  dob : NormDob

/-- The expression `(x || '').trim()` on one of the three names: a value that
is no string throws. -/
def trimName (x : NameValue) : Except Str Str :=
  match x with
  | .missing => .ok (trim [])
  | .text s => .ok (trim s)
  | .other message => .error message

/-- The normalisation of the input at the head of `performStatusCheck`: the
members of `norm` are evaluated in their order, and the first one that throws
ends the call. -/
def normalize (env : Env) (details : ApplicantDetails) : Except Str Norm :=
  match trimName details.organisationName with
  | .error e => .error e
  | .ok organisationName =>
    match trimName details.requesterForename with
    | .error e => .error e
    | .ok requesterForename =>
      match trimName details.requesterSurname with
      | .error e => .error e
      | .ok requesterSurname =>
        .ok { organisationName := organisationName
              requesterForename := requesterForename
              requesterSurname := requesterSurname
              certificateNumber :=
                trim (replaceRuns isNonDigit [] (orEmpty details.certificateNumber))
              applicantSurname := env.upperCase (trim (orEmpty details.applicantSurname))
              dob :=
                { day := padStart0 2 (trim (orEmpty (details.dob.bind Dob.day)))
                  month := padStart0 2 (trim (orEmpty (details.dob.bind Dob.month)))
                  year := trim (orEmpty (details.dob.bind Dob.year)) } }

/-- One entry of `steps`. -/
structure FlowStep where
  url : Str
  status : Nat
deriving DecidableEq

/-- The object `structured`. -/
structure Structured where
  personName : Option Str
  dateOfBirth : Option Str
  certificateNumber : Option Str
  certificatePrintDate : Option Str
  outcomeText : Option Str
  outcome : Option Str
deriving DecidableEq

/-- The value `performStatusCheck` resolves to; a key that is absent is `none`
(`resultText` is present with value `null` as `some none`). -/
structure FlowResult where
  ok : Bool
  error : Option Str
  steps : List FlowStep
  title : Option Str
  summary : Option Str
  resultText : Option (Option Str)
  resultHtml : Option Str
  finalUrl : Option Str
  structured : Option Structured
deriving DecidableEq

/-- The pattern `/your certificate number is invalid/i`. -/
def reInvalid : Re := Re.lit "your certificate number is invalid"

/-- The pattern `/please fix the following errors/i`. -/
def reFixErrors : Re := Re.lit "please fix the following errors"

/-- The pattern `/details entered do not match|do not match those held/i`. -/
def reNoMatch : Re :=
  Re.alt (Re.lit "details entered do not match") (Re.lit "do not match those held")

/-- The pattern `/details entered do not match[^.]*\./i`. -/
def reNoMatchSentence : Re :=
  Re.seq (Re.lit "details entered do not match")
    (Re.seq (Re.star fun c => c != '.') (Re.chr '.'))

/-- The pattern `/Certificate for\s+([^,]+),/i`. -/
def reName : Re :=
  Re.seq (Re.lit "Certificate for")
    (Re.seq (Re.plus isWhiteSpace) (Re.seq (Re.grp (Re.plus fun c => c != ',')) (Re.chr ',')))

/-- The pattern `(\d{2})\/(\d{2})\/(\d{4})`. -/
def reDate : Re :=
  Re.seq (Re.grp (Re.times isDigit 2))
    (Re.seq (Re.chr '/')
      (Re.seq (Re.grp (Re.times isDigit 2)) (Re.seq (Re.chr '/') (Re.grp (Re.times isDigit 4)))))

/-- The pattern `/Date of Birth:\s*(\d{2})\/(\d{2})\/(\d{4})/i`. -/
def reDob : Re := Re.seq (Re.lit "Date of Birth:") (Re.seq (Re.star isWhiteSpace) reDate)

/-- The pattern `/Certificate Number\s*(\d{12})/i`. -/
def reNumber : Re :=
  Re.seq (Re.lit "Certificate Number")
    (Re.seq (Re.star isWhiteSpace) (Re.grp (Re.times isDigit 12)))

/-- The pattern `/Certificate Print Date:\s*(\d{2})\/(\d{2})\/(\d{4})/i`. -/
def rePrintDate : Re :=
  Re.seq (Re.lit "Certificate Print Date:") (Re.seq (Re.star isWhiteSpace) reDate)

/-- The pattern `/Certificate check results/i`. -/
def reResults : Re := Re.lit "Certificate check results"

/-- The first element of `outcomeSentences`. -/
def sentenceClear : Str :=
  "This Certificate did not reveal any information and remains current as no further information has been identified since its issue.".toList

/-- The second element of `outcomeSentences`. -/
def sentenceCurrent : Str :=
  "This Certificate remains current as no further information has been identified since its issue.".toList

/-- The third element of `outcomeSentences`. -/
def sentenceNotCurrent : Str :=
  "This Certificate is no longer current. Please apply for a new DBS check to get the most up to date information.".toList

/-- The array `outcomeSentences`. -/
def outcomeSentences : List Str := [sentenceClear, sentenceCurrent, sentenceNotCurrent]

/-- The search string `combined` of the final page. -/
def combinedText (page : Page) : Str :=
  let bodyText := trim (replaceRuns isWhiteSpace [' '] page.body)
  let headerText := trim (replaceRuns isWhiteSpace [' '] page.main)
  headerText ++ ' ' :: bodyText

/-- The value `resultText` of the final page. -/
def resultTextOf (page : Page) : Option Str :=
  let t := orElse (trim page.main) (trim page.body)
  if t.isEmpty then none else some t

/-- The loop over `outcomeSentences`: the first sentence that `combined`
includes, or `''`. -/
def outcomeTextOf (combined : Str) : Str :=
  orEmpty (outcomeSentences.find? fun sentence => includes combined sentence)

/-- The value `outcome` computed from `outcomeText`. -/
def outcomeOf (outcomeText : Str) : Option Str :=
  if Re.test true (Re.lit "no longer current") outcomeText then some "not_current".toList
  else if Re.test true (Re.lit "did not reveal any information") outcomeText then
    some "clear_and_current".toList
  else if Re.test true (Re.lit "remains current") outcomeText then some "current".toList
  else none

/-- A date match written back as `DD/MM/YYYY`. -/
def dateOfMatch (m : Str × List Str) : Str :=
  group m 1 ++ '/' :: group m 2 ++ '/' :: group m 3

/-- The object `structured` built from `combined`. -/
def structuredOf (combined : Str) : Structured :=
  let nameMatch := Re.exec true reName combined
  let dobMatch := Re.exec true reDob combined
  let numberMatch := Re.exec true reNumber combined
  let printDateMatch := Re.exec true rePrintDate combined
  let outcomeText := outcomeTextOf combined
  { personName := nameMatch.map fun m => trim (group m 1)
    dateOfBirth := dobMatch.map dateOfMatch
    certificateNumber := numberMatch.map fun m => group m 1
    certificatePrintDate := printDateMatch.map dateOfMatch
    outcomeText := if outcomeText.isEmpty then none else some outcomeText
    outcome := outcomeOf outcomeText }

/-- The flag `hasAllCoreFields`. -/
def hasAllCoreFields (structured : Structured) : Bool :=
  truthy structured.personName && truthy structured.dateOfBirth &&
  truthy structured.certificateNumber && truthy structured.certificatePrintDate &&
  truthy structured.outcome

/-- The flag `looksLikeSuccessPage`. -/
def looksLikeSuccessPage (page : Page) : Bool :=
  Re.test true reResults (trim page.heading) || Re.test true reResults (trim page.title)

/-- The flag `matchesInputCert`. -/
def matchesInputCert (details : ApplicantDetails) (structured : Structured) : Bool :=
  if truthy details.certificateNumber then
    structured.certificateNumber == some (orEmpty details.certificateNumber)
  else true

/-- The generic message used when no sentence can be taken from the page. -/
def noMatchFallback : Str :=
  "The details entered do not match those held on our system. Please check and try again.".toList

/-- A failure result of the classifier, without `structured`. -/
def siteError (error : Str) (steps : List FlowStep) (page : Page) (finalHtml finalUrl : Str) :
    FlowResult :=
  { ok := false, error := some error, steps := steps, title := none, summary := none
    resultText := some (resultTextOf page), resultHtml := some finalHtml
    finalUrl := some finalUrl, structured := none }

/-- The part of `performStatusCheck` after the third submission: the
classification of the final page `page = cheerio.load(finalHtml)`. -/
def classify (details : ApplicantDetails) (steps : List FlowStep) (finalHtml finalUrl : Str)
    (page : Page) : FlowResult :=
  let title := trim page.title
  let summary := trim page.heading
  let combined := combinedText page
  if Re.test true reInvalid combined then
    siteError "Your Certificate number is invalid".toList steps page finalHtml finalUrl
  else if Re.test true reFixErrors combined then
    siteError "Website validation failed: Please fix the following errors".toList
      steps page finalHtml finalUrl
  else if Re.test true reNoMatch combined then
    let errorMatch := Re.exec true reNoMatchSentence combined
    siteError
      (match errorMatch with
       | some m => trim m.1
       | none => noMatchFallback)
      steps page finalHtml finalUrl
  else
    let structured := structuredOf combined
    if !looksLikeSuccessPage page || !hasAllCoreFields structured ||
        !matchesInputCert details structured then
      { ok := false
        error := some
          (if !looksLikeSuccessPage page then "Unexpected page content".toList
           else if !hasAllCoreFields structured then "Incomplete result from website".toList
           else "Certificate number mismatch".toList)
        steps := steps, title := none, summary := none
        resultText := some (resultTextOf page), resultHtml := some finalHtml
        finalUrl := some finalUrl, structured := some structured }
    else
      { ok := true, error := none, steps := steps, title := some title, summary := some summary
        resultText := some (resultTextOf page), resultHtml := some finalHtml
        finalUrl := some finalUrl, structured := some structured }

/-- The result of the last line of `performStatusCheck`. -/
def navigationFailure (steps : List FlowStep) : FlowResult :=
  { ok := false, error := some "Unable to navigate the status check flow".toList, steps := steps
    title := none, summary := none, resultText := none, resultHtml := none
    finalUrl := none, structured := none }

/-- The options of a form submission. -/
def submitOptions (form : ExtractedForm) (payload : Obj) : Options :=
  { method := some (orElse form.method "POST".toList)
    headers := [("Content-Type".toList, "application/x-www-form-urlencoded".toList)]
    body := some (urlEncodeForm payload), referer := none }

/-- The form inputs after `if (!('_eventId_submit' in form.inputs)) ...`. -/
def withSubmitEvent (inputs : Obj) : Obj :=
  if !objHas inputs "_eventId_submit".toList then
    objSet inputs "_eventId_submit".toList "Continue".toList
  else inputs

/-- The options of the initial request. -/
def getOptions : Options :=
  { method := some "GET".toList, headers := [], body := none, referer := none }

/-- The organisation fields of a normalised input. -/
def orgFieldsOf (norm : Norm) : OrgFields :=
  { organisationName := norm.organisationName, forename := norm.requesterForename
    surname := norm.requesterSurname }

/-- The certificate fields of a normalised input. -/
def certFieldsOf (norm : Norm) : CertFields :=
  { certificateNumber := norm.certificateNumber, applicantSurname := norm.applicantSurname
    dob := norm.dob }

/-- Step 1: the URL and the options of the submission of the organisation
form `form1` found on the page of `step1`, with the overrides `orgFields` of
the organisation mapper. -/
def submission1 (env : Env) (step1 : Fetched) (form1 : ExtractedForm) (orgFields : Obj) :
    Str × Options :=
  let payload := spreadProps (withSubmitEvent form1.inputs) orgFields
  let actionUrl := absoluteUrl env step1.response.url (orElse form1.action e2s1)
  (actionUrl, submitOptions form1 payload)

/-- Step 2: the URL and the options of the submission of the certificate form
`form2` found on the page of `step1Submit`, with the overrides `certFields` of
the certificate mapper. -/
def submission2 (env : Env) (step1Submit : Fetched) (form2 : ExtractedForm)
    (certFields : Obj) : Str × Options :=
  let payload2 := spreadProps (withSubmitEvent form2.inputs) certFields
  let actionUrl2 := absoluteUrl env step1Submit.response.url form2.action
  (actionUrl2, submitOptions form2 payload2)

/-- Step 3: the URL and the options of the submission of the declaration form
`form3` found on the page of `step2Submit`, with the override `agree` of the
declaration. -/
def submission3 (env : Env) (step2Submit : Fetched) (form3 : ExtractedForm) (agree : Obj) :
    Str × Options :=
  let payload3 := spreadProps (withSubmitEvent form3.inputs) agree
  let actionUrl3 := absoluteUrl env step2Submit.response.url form3.action
  (actionUrl3, submitOptions form3 payload3)

/-- The entry of `steps` for a request to `url` answered by `fetched`. -/
def stepOf (url : Str) (fetched : Fetched) : FlowStep :=
  { url := url, status := fetched.response.status }

/-- The function `performStatusCheck`: the state of the network after the
call, and the value the promise resolves to or the message it rejects with.
Nothing is caught: an error thrown while the input is read, by a hop or by a
field mapper ends the call. -/
def performStatusCheck (env : Env) (details : ApplicantDetails) :
    Net × Except Str FlowResult :=
  match normalize env details with
  | .error e => ({ jar := [], log := [] }, .error e)
  | .ok norm =>
    match fetchWithCookies env e2s1 getOptions { jar := [], log := [] } 10 with
    | (net1, .error e) => (net1, .error e)
    | (net1, .ok step1) =>
      let steps1 := [stepOf e2s1 step1]
      match extractForm env (env.load step1.body) with
      | none => (net1, .ok (navigationFailure steps1))
      | some form1 =>
        match populateOrganisationFields (env.load step1.body) (orgFieldsOf norm) with
        | .error e => (net1, .error e)
        | .ok orgFields =>
          let sub1 := submission1 env step1 form1 orgFields
          match fetchWithCookies env sub1.1 sub1.2 net1 10 with
          | (net2, .error e) => (net2, .error e)
          | (net2, .ok step1Submit) =>
            let steps2 := steps1 ++ [stepOf sub1.1 step1Submit]
            match extractForm env (env.load step1Submit.body) with
            | none => (net2, .ok (navigationFailure steps2))
            | some form2 =>
              match populateCertificateFields (env.load step1Submit.body)
                  (certFieldsOf norm) with
              | .error e => (net2, .error e)
              | .ok certFields =>
                let sub2 := submission2 env step1Submit form2 certFields
                match fetchWithCookies env sub2.1 sub2.2 net2 10 with
                | (net3, .error e) => (net3, .error e)
                | (net3, .ok step2Submit) =>
                  let steps3 := steps2 ++ [stepOf sub2.1 step2Submit]
                  match extractForm env (env.load step2Submit.body) with
                  | none => (net3, .ok (navigationFailure steps3))
                  | some form3 =>
                    match agreeLegalDeclaration (env.load step2Submit.body) with
                    | .error e => (net3, .error e)
                    | .ok agree =>
                      let sub3 := submission3 env step2Submit form3 agree
                      match fetchWithCookies env sub3.1 sub3.2 net3 10 with
                      | (net4, .error e) => (net4, .error e)
                      | (net4, .ok step3Submit) =>
                        let steps4 := steps3 ++ [stepOf sub3.1 step3Submit]
                        let finalHtml := step3Submit.body
                        (net4, .ok (classify details steps4 finalHtml
                          step3Submit.response.url (env.load finalHtml)))

/-! ## A sample session

A server that answers the four requests of a call with the organisation page,
the certificate page, the declaration page and a result page, and sample
inputs.  They serve as concrete inputs of the statements below. -/

/-- The double quote. -/
def doubleQuote : Char := Char.ofNat 0x22

/-- The backslash. -/
def backslash : Char := Char.ofNat 0x5C

/-- A selector engine for the sample pages, given the labels of a page as
pairs of their `for` attribute and their text: it refuses an id with a double
quote or a backslash, and otherwise selects the labels whose `for` attribute
is the id. -/
def labelsOf (labels : List (Str × Str)) (id : Str) : Except Str Str :=
  if id.any (fun c => c == doubleQuote || c == backslash) then
    .error ("Unmatched selector: ".toList ++ id)
  else .ok ((labels.filter fun l => l.1 == id).map Prod.snd).flatten

/-- The upper-casing of one character in the sample runtime, which knows the
ASCII letters, the letters `à` to `þ` of Latin-1, and `ß`, whose upper case is
`SS`. -/
def sampleUpperChar (c : Char) : Str :=
  if c.toNat = 0xDF then ['S', 'S']
  else if 0xE0 ≤ c.toNat ∧ c.toNat ≤ 0xFE ∧ c.toNat ≠ 0xF7 then [Char.ofNat (c.toNat - 0x20)]
  else [upperChar c]

/-- The upper-casing of the sample runtime. -/
def sampleUpperCase (s : Str) : Str := s.flatMap sampleUpperChar

/-- A text control of a sample form. -/
def textInput (name : String) : Control :=
  { tag := "input".toList, name := some name.toList, id := none
    typeAttr := some "text".toList, val := none, checked := false }

/-- The page of step 1: the organisation form. -/
def orgPage : Page :=
  { forms := [{ action := some "check?execution=e2s1".toList, method := some "post".toList
                controls := [textInput "organisationName", textInput "forename",
                             textInput "surname"] }]
    labelText := labelsOf [], title := "Enter organisation".toList, heading := [], main := [], body := [] }

/-- The page of step 2: the certificate form. -/
def certPage : Page :=
  { forms := [{ action := some "check?execution=e2s2".toList, method := some "post".toList
                controls := [textInput "certificateNumber", textInput "surname",
                             textInput "dayOfBirth", textInput "monthOfBirth",
                             textInput "yearOfBirth"] }]
    labelText := labelsOf [], title := "Enter certificate".toList, heading := [], main := [], body := [] }

/-- The page of step 3: the legal declaration. -/
def declarationPage : Page :=
  { forms := [{ action := some "check?execution=e2s3".toList, method := some "post".toList
                controls := [{ tag := "input".toList, name := some "hasAgreedTermsAndConditions".toList
                               id := some "agree".toList, typeAttr := some "checkbox".toList
                               val := some "true".toList, checked := false }] }]
    labelText := labelsOf [("agree".toList, "I agree to the legal declaration".toList)]
    title := "Legal declaration".toList, heading := [], main := [], body := [] }

/-- The text of a result page for certificate number `001913551408`. -/
def resultBody : Str :=
  "Certificate check results\n  Certificate for JANE DOE, Date of Birth: 01/02/1990\n  Certificate Number 001913551408 Certificate Print Date: 03/04/2020\n  This Certificate remains current as no further information has been identified since its issue.".toList

/-- A result page. -/
def resultPage : Page :=
  { forms := [], labelText := labelsOf [], title := "Certificate check results".toList
    heading := "Certificate check results".toList, main := [], body := resultBody }

/-- A complete result page that also carries the three error sentinels. -/
def sentinelPage : Page :=
  { forms := [], labelText := labelsOf [], title := "Certificate check results".toList
    heading := "Certificate check results".toList, main := []
    body := resultBody ++
      " Your Certificate Number is INVALID. Please fix the following errors. The details entered do not match those held on our system.".toList }

/-- A page on which the site refuses the details in words of its own. -/
def refusalPage : Page :=
  { forms := [], labelText := labelsOf [], title := "Check a certificate".toList, heading := [], main := []
    body := "Sorry, the answers given do not match those held on our records.".toList }

/-- A page on which the site refuses the details with the usual sentence. -/
def usualRefusalPage : Page :=
  { forms := [], labelText := labelsOf [], title := "Check a certificate".toList, heading := [], main := []
    body := "Error:\n The Details Entered do not match those held on our system. Please check and try again.".toList }

/-- A document without any form and without text. -/
def blankPage : Page :=
  { forms := [], labelText := labelsOf [], title := [], heading := [], main := [], body := [] }

/-- A parser that knows the four sample documents by name. -/
def sampleLoad (html : Str) : Page :=
  if html == "org".toList then orgPage
  else if html == "cert".toList then certPage
  else if html == "declaration".toList then declarationPage
  else if html == "result".toList then resultPage
  else blankPage

/-- A response with status 200 and the given body. -/
def okResponse (url body : String) : Response :=
  { status := 200, url := url.toList, setCookie := [], location := none
    contentType := some "text/html".toList, body := body.toList }

/-- A server that answers the requests of a call, in order, with the four
sample documents. -/
def sampleFetch (log : List Request) : Except Str Response :=
  match log.length with
  | 1 => .ok (okResponse "https://site/check?execution=e2s1" "org")
  | 2 => .ok (okResponse "https://site/check?execution=e2s2" "cert")
  | 3 => .ok (okResponse "https://site/check?execution=e2s3" "declaration")
  | 4 => .ok (okResponse "https://site/check?execution=e2s4" "result")
  | _ => .error "fetch failed".toList

/-- The sample environment. -/
def sampleEnv : Env :=
  { userAgent := "perform-check/1.0".toList, upperCase := sampleUpperCase
    load := sampleLoad
    resolveUrl := fun rel _ => some ("https://site/".toList ++ rel), fetch := sampleFetch }

/-- An environment whose network is down. -/
def downEnv : Env :=
  { userAgent := "perform-check/1.0".toList, upperCase := sampleUpperCase
    load := sampleLoad
    resolveUrl := fun rel _ => some rel, fetch := fun _ => .error "fetch failed".toList }

/-- Sample input with the given certificate number. -/
def sampleDetails (certificateNumber : Option Str) : ApplicantDetails :=
  { organisationName := .text "Acme Care".toList, requesterForename := .text "Sam".toList
    requesterSurname := .text "Lee".toList, certificateNumber := certificateNumber
    applicantSurname := some "Doe".toList
    dob := some { day := some "1".toList, month := some "2".toList, year := some "1990".toList } }

/-- The value a call resolves to; for a call that rejects, the navigation
failure without steps stands in. -/
def resolved (x : Net × Except Str FlowResult) : FlowResult :=
  match x.2 with
  | .ok r => r
  | .error _ => navigationFailure []

/-- The message a call rejects with, if it rejects. -/
def rejection (x : Net × Except Str FlowResult) : Option Str :=
  match x.2 with
  | .ok _ => none
  | .error e => some e

/-- The value a hop resolves to; for a hop that fails, an empty response
stands in. -/
def fetched (x : Net × Except Str Fetched) : Fetched :=
  match x.2 with
  | .ok f => f
  | .error _ =>
    { response := { status := 0, url := [], setCookie := [], location := none
                    contentType := none, body := [] }
      body := [], contentType := [] }

/-- A server that answers the first `k - 1` requests like the sample server
and every later request with a document without form. -/
def truncatedFetch (k : Nat) (log : List Request) : Except Str Response :=
  if log.length < k then sampleFetch log
  else .ok (okResponse "https://site/check?execution=end" "blank")

/-- The sample environment with the server cut short at request `k`. -/
def truncatedEnv (k : Nat) : Env :=
  { userAgent := "perform-check/1.0".toList, upperCase := sampleUpperCase
    load := sampleLoad
    resolveUrl := fun rel _ => some ("https://site/".toList ++ rel), fetch := truncatedFetch k }

/-- An environment whose server answers every request with a redirect to
the same place. -/
def loopEnv : Env :=
  { userAgent := "perform-check/1.0".toList, upperCase := sampleUpperCase
    load := sampleLoad
    resolveUrl := fun rel _ => some rel
    fetch := fun _ => .ok { status := 302, url := "https://site/a".toList, setCookie := []
                            location := some "https://site/a".toList, contentType := none
                            body := [] } }

/-- An environment whose server answers with a redirect that has no
`Location` header. -/
def noLocationEnv : Env :=
  { userAgent := "perform-check/1.0".toList, upperCase := sampleUpperCase
    load := sampleLoad
    resolveUrl := fun rel _ => some rel
    fetch := fun _ => .ok { status := 301, url := "https://site/a".toList, setCookie := []
                            location := none, contentType := none, body := [] } }

/-- The first request of every call. -/
def firstRequest (env : Env) : Request :=
  { url := e2s1, method := some "GET".toList
    headers := requestHeaders env getOptions [] none, body := none }

/-! ## The rounds of the session client -/

/-- The request that one round of the loop of `fetchWithCookies` issues. -/
def requestOf (env : Env) (url : Str) (options : Options) (referer : Option Str) (jar : Obj) :
    Request :=
  { url := url, method := options.method
    headers := requestHeaders env options jar referer, body := options.body }

/-- The jar after the cookies of a response have been collected. -/
def collectCookies (jar : Obj) (response : Response) : Obj :=
  if 0 < response.setCookie.length then
    mergeCookies jar (parseSetCookieHeaders response.setCookie)
  else jar

/-- The test `status === 303 || (status === 302 && method !== 'GET')` on the
options of the request that was answered. -/
def switchesToGet (status : Nat) (options : Options) : Bool :=
  status == 303 ||
    (status == 302 && toUpperCase (orElse (orEmpty options.method) "GET".toList) != "GET".toList)

/-- The options of the request that follows a redirect. -/
def optionsAfterRedirect (status : Nat) (options : Options) : Options :=
  if switchesToGet status options then getOptions else options

/-- A submission with method POST and one field. -/
def postOptions : Options :=
  { method := some "POST".toList
    headers := [("Content-Type".toList, "application/x-www-form-urlencoded".toList)]
    body := some [("certificateNumber".toList, "001913551408".toList)], referer := none }

/-- An environment whose server answers the first request with a redirect of
the given status to `https://site/next` and every later request with the
result page. -/
def redirectOnceEnv (status : Nat) : Env :=
  { userAgent := "perform-check/1.0".toList, upperCase := sampleUpperCase
    load := sampleLoad
    resolveUrl := fun rel _ => some rel
    fetch := fun log =>
      if log.length == 1 then
        .ok { status := status, url := "https://site/start".toList, setCookie := []
              location := some "https://site/next".toList, contentType := none, body := [] }
      else .ok (okResponse "https://site/next" "result") }

/-! ## The cookie jar as a function of the history -/

/-- The jar after one more answer of the server: the cookies it sets are
added, a name that is set again takes the new value; a failed request leaves
the jar as it is. -/
def jarAfterAnswer (jar : Obj) (answer : Except Str Response) : Obj :=
  match answer with
  | .ok response => spread jar (parseSetCookieHeaders response.setCookie)
  | .error _ => jar

/-- The replay of a log: `done` are the requests already replayed, `jar` the
jar they left. -/
def jarOfHistoryAux (env : Env) : List Request → List Request → Obj → Obj
  | _, [], jar => jar
  | done, r :: todo, jar =>
    jarOfHistoryAux env (done ++ [r]) todo (jarAfterAnswer jar (env.fetch (done ++ [r])))

/-- The jar that the answers to the requests of `log` leave, starting empty:
for every cookie name set by one of these answers, the value set last. -/
def jarOfHistory (env : Env) (log : List Request) : Obj :=
  jarOfHistoryAux env [] log []

/-- The `Cookie` header that goes with a jar: none for the empty jar, else the
pairs `name=value` joined with `; `. -/
def cookieHeaderOf (jar : Obj) : Option Str :=
  if 0 < jar.length then some (cookieHeaderFromJar jar) else none

/-- A response with status 200, the given body and the given `Set-Cookie`
headers. -/
def cookieResponse (url body : String) (setCookie : List String) : Response :=
  { status := 200, url := url.toList, setCookie := setCookie.map String.toList
    location := none, contentType := some "text/html".toList, body := body.toList }

/-- The sample session with a server that sets the cookie `A=1` in its first
answer and `B=2` in its second. -/
def cookieEnv : Env :=
  { userAgent := "perform-check/1.0".toList, upperCase := sampleUpperCase
    load := sampleLoad
    resolveUrl := fun rel _ => some ("https://site/".toList ++ rel)
    fetch := fun log =>
      match log.length with
      | 1 => .ok (cookieResponse "https://site/check?execution=e2s1" "org" ["A=1; Path=/"])
      | 2 => .ok (cookieResponse "https://site/check?execution=e2s2" "cert"
                    ["B=2; HttpOnly"])
      | 3 => .ok (okResponse "https://site/check?execution=e2s3" "declaration")
      | 4 => .ok (okResponse "https://site/check?execution=e2s4" "result")
      | _ => .error "fetch failed".toList }

/-- A request without content, standing in where a log has no entry. -/
def emptyRequest : Request := { url := [], method := none, headers := [], body := none }

/-- Every request of the log carries the `Cookie` header that goes with the
jar left by the answers to the requests before it. -/
def HeadersFollowJar (env : Env) (log : List Request) : Prop :=
  ∀ pre req post, log = pre ++ req :: post →
    objGet req.headers "Cookie".toList = cookieHeaderOf (jarOfHistory env pre)

/-- The state of the network agrees with the history: the jar is the jar of
the history, and every request carried the cookies of the jar of its time. -/
def CookieInv (env : Env) (net : Net) : Prop :=
  net.jar = jarOfHistory env net.log ∧ HeadersFollowJar env net.log

/-! ## Cookies and normalisation in the words of the specification -/

/-- The cookie that one `Set-Cookie` header gives: only the text before the
first `;` counts; without `=` in it, or with `=` at its head, there is no
cookie; else the name is the trimmed text before the first `=` and the value
the trimmed text after it. -/
def cookieOfHeader (header : Str) : Option (Str × Str) :=
  let first := header.takeWhile (· != ';')
  if '=' ∈ first ∧ first.head? ≠ some '=' then
    some (trim (first.takeWhile (· != '=')), trim ((first.dropWhile (· != '=')).drop 1))
  else none

/-- The text `t` is `s` with its leading and trailing whitespace removed. -/
def Trimmed (s t : Str) : Prop :=
  ∃ pre post, s = pre ++ t ++ post ∧
    (∀ c ∈ pre, isWhiteSpace c = true) ∧ (∀ c ∈ post, isWhiteSpace c = true) ∧
    (∀ a, t.head? = some a → isWhiteSpace a = false) ∧
    (∀ z, t.getLast? = some z → isWhiteSpace z = false)

/-- The normalised value read again as an input. -/
def Norm.toDetails (norm : Norm) : ApplicantDetails :=
  { organisationName := .text norm.organisationName
    requesterForename := .text norm.requesterForename
    requesterSurname := .text norm.requesterSurname
    certificateNumber := some norm.certificateNumber
    applicantSurname := some norm.applicantSurname
    dob := some { day := some norm.dob.day, month := some norm.dob.month
                  year := some norm.dob.year } }

/-- An input made of strings only. -/
def stringDetails (organisationName requesterForename requesterSurname certificateNumber
    applicantSurname day month year : Str) : ApplicantDetails :=
  { organisationName := .text organisationName, requesterForename := .text requesterForename
    requesterSurname := .text requesterSurname, certificateNumber := some certificateNumber
    applicantSurname := some applicantSurname
    dob := some { day := some day, month := some month, year := some year } }

/-! ## A session that starts with a redirect -/

/-- A page whose only form has neither `method` nor `action`. -/
def plainFormPage : Page :=
  { forms := [{ action := none, method := none, controls := [textInput "organisationName"] }]
    labelText := labelsOf [], title := "Enter organisation".toList, heading := [], main := [], body := [] }

/-- A parser that knows the document `plain` besides the sample documents. -/
def landingLoad (html : Str) : Page :=
  if html == "plain".toList then plainFormPage else sampleLoad html

/-- URL resolution on the few shapes the sample needs: the empty reference
gives the base, an absolute URL gives itself, any other reference is put
under `https://site/`. -/
def landingResolve (rel base : Str) : Option Str :=
  if rel.isEmpty then some base
  else if "http".toList.isPrefixOf rel then some rel
  else some ("https://site/".toList ++ rel)

/-- An environment whose server redirects the first request to
`https://site/landing`, answers there with the document `plain`, and answers
every later request with a document without form. -/
def landingEnv : Env :=
  { userAgent := "perform-check/1.0".toList, upperCase := sampleUpperCase
    load := landingLoad, resolveUrl := landingResolve
    fetch := fun log =>
      match log.length with
      | 1 => .ok { status := 302, url := e2s1, setCookie := []
                   location := some "https://site/landing".toList, contentType := none
                   body := [] }
      | 2 => .ok (okResponse "https://site/landing" "plain")
      | _ => .ok (okResponse "https://site/end" "blank") }

/-! ## The field mappers as rule tables -/

/-- The test of one rule: the exact name of the field, or a keyword that
occurs in the text of the label or in the lower-cased name. -/
inductive Pattern where
  | exact (name : String) : Pattern
  | keyword (word : String) : Pattern

/-- Whether a pattern applies to a field. -/
def Pattern.applies (pattern : Pattern) (name labelText : Str) : Bool :=
  match pattern with
  | .exact n => name == n.toList
  | .keyword w => includes labelText w.toList || includes (toLowerCase name) w.toList

/-- The rules of the organisation step, in their order. -/
def organisationRules : List (Pattern × (OrgFields → Str)) :=
  [ (.exact "organisationName", OrgFields.organisationName),
    (.exact "forename", OrgFields.forename),
    (.exact "surname", OrgFields.surname),
    (.keyword "organisation", OrgFields.organisationName),
    (.keyword "forename", OrgFields.forename),
    (.keyword "surname", OrgFields.surname) ]

/-- The rules of the certificate step, in their order. -/
def certificateRules : List (Pattern × (CertFields → Str)) :=
  [ (.exact "certificateNumber", CertFields.certificateNumber),
    (.exact "surname", CertFields.applicantSurname),
    (.exact "dayOfBirth", fun fields => fields.dob.day),
    (.exact "monthOfBirth", fun fields => fields.dob.month),
    (.exact "yearOfBirth", fun fields => fields.dob.year),
    (.keyword "certificate", CertFields.certificateNumber),
    (.keyword "surname", CertFields.applicantSurname),
    (.keyword "day", fun fields => fields.dob.day),
    (.keyword "month", fun fields => fields.dob.month),
    (.keyword "year", fun fields => fields.dob.year) ]

/-- The value the first rule that applies gives to a field, if any applies. -/
def firstMatch {α : Type} (rules : List (Pattern × (α → Str))) (fields : α)
    (name labelText : Str) : Option Str :=
  (rules.find? fun rule => rule.1.applies name labelText).map fun rule => rule.2 fields

/-- The overrides with the value decided for a field, if one was decided,
assigned under the name of the field. -/
def setDecided (result : Obj) (name : Str) : Option Str → Obj
  | some value => propSet result name value
  | none => result

/-- A mapper that decides every named control by a rule table, on the name of
the control and the text of its label; a later control of the same name
overwrites an earlier one, and the error of a label selector ends the
mapper. -/
def mapByRules {α : Type} (rules : List (Pattern × (α → Str))) (page : Page) (fields : α)
    (controls : List Control) : Except Str Obj :=
  eachM (fun result el =>
    if !truthy el.name then .ok result
    else
      match labelTextOf page el.id with
      | .error e => .error e
      | .ok labelText =>
        .ok (setDecided result (orEmpty el.name)
          (firstMatch rules fields (orEmpty el.name) labelText))) [] controls

/-- The controls that `$('form input')` selects. -/
def formInputs (page : Page) : List Control :=
  (page.forms.map Form.controls).flatten.filter fun el => el.tag == "input".toList

/-- The controls that `$('form input, form select')` selects. -/
def formInputsAndSelects (page : Page) : List Control :=
  (page.forms.map Form.controls).flatten.filter fun el =>
    el.tag == "input".toList || el.tag == "select".toList

/-- A certificate page whose surname field has a label that names the
certificate, and whose number field is found by its label only. -/
def labelledCertPage : Page :=
  { forms := [{ action := some "check".toList, method := some "post".toList
                controls :=
                  [{ tag := "input".toList, name := some "surname".toList
                     id := some "sn".toList, typeAttr := some "text".toList, val := none
                     checked := false },
                   { tag := "input".toList, name := some "field7".toList
                     id := some "num".toList, typeAttr := some "text".toList, val := none
                     checked := false },
                   { tag := "select".toList, name := some "birthdayMonth".toList
                     id := none, typeAttr := none, val := none, checked := false }] }]
    labelText := labelsOf [("sn".toList, "Applicant's surname as shown on Certificate".toList),
               ("num".toList, "Certificate number".toList)]
    title := [], heading := [], main := [], body := [] }

/-! ## The seeding of the form fields, control by control -/

/-- Whether a control is a checkbox or a radio button. -/
def isCheckboxOrRadio (el : Control) : Bool :=
  toLowerCase (orEmpty el.typeAttr) == "checkbox".toList ||
    toLowerCase (orEmpty el.typeAttr) == "radio".toList

/-- Whether a control is a `button` element or has the type `submit`. -/
def isButtonOrSubmit (el : Control) : Bool :=
  el.tag == "button".toList || toLowerCase (orEmpty el.typeAttr) == "submit".toList

/-- Reference description, in the words of the specification: the field that
one control contributes to the field map, if it contributes one.  A control
without a name (none, or an empty one) contributes nothing; a checkbox or radio button contributes its value, or `on`, if and
only if it is checked; a button or submit control contributes its value, or
`Continue`, if and only if its name contains `eventId`; every other control
contributes its current value, or the empty string. -/
def contribution (el : Control) : Option (Str × Str) :=
  match el.name with
  | none => none
  | some name =>
    if name = [] then none
    else if isCheckboxOrRadio el then
      if el.checked then some (name, el.val.getD "on".toList) else none
    else if isButtonOrSubmit el then
      if includes name "eventId".toList then some (name, el.val.getD "Continue".toList)
      else none
    else some (name, el.val.getD [])

/-- Reference description, in the words of the specification: the reference
seeding of a form, in which the value of the field `k` is the one contributed
by the last control, in document order, that contributes a field of that
name. -/
def referenceSeeding (controls : List Control) (k : Str) : Option Str :=
  ((controls.filterMap contribution).reverse.find? fun e => e.1 == k).map Prod.snd

/-- A hidden control with a value. -/
def hiddenInput (name value : String) : Control :=
  { tag := "input".toList, name := some name.toList, id := none
    typeAttr := some "hidden".toList, val := some value.toList, checked := false }

/-- The organisation form with a hidden token. -/
def organisationForm : Form :=
  { action := some "check?execution=e2s1".toList, method := some "post".toList
    controls := [hiddenInput "_flowExecutionKey" "e2s1", textInput "organisationName",
                 textInput "forename", textInput "surname"] }

/-- A search form whose only field has the id `q`. -/
def searchForm : Form :=
  { action := some "/search".toList, method := some "get".toList
    controls := [{ tag := "input".toList, name := some "q".toList, id := some "q".toList
                   typeAttr := some "search".toList, val := none, checked := false }] }

/-- A page with the organisation form and, after it, a search form whose
field has a label that speaks of organisations. -/
def twoFormPage : Page :=
  { forms := [organisationForm, searchForm]
    labelText := labelsOf [("q".toList, "Search for an organisation".toList)]
    title := "Enter organisation".toList, heading := [], main := [], body := [] }

/-- A page with the given forms and nothing else. -/
def pageOfForms (forms : List Form) : Page :=
  { forms := forms, labelText := labelsOf [], title := [], heading := [], main := [], body := [] }

/-- A form with controls of every kind: a nameless field, a checked and an
unchecked checkbox, a radio button without a value, two buttons, a select, and
two fields of the same name. -/
def mixedForm : Form :=
  { action := some "next".toList, method := some "post".toList
    controls :=
      [{ tag := "input".toList, name := none, id := none, typeAttr := some "text".toList
         val := some "lost".toList, checked := false },
       { tag := "input".toList, name := some "news".toList, id := none
         typeAttr := some "checkbox".toList, val := some "yes".toList, checked := true },
       { tag := "input".toList, name := some "terms".toList, id := none
         typeAttr := some "checkbox".toList, val := some "yes".toList, checked := false },
       { tag := "input".toList, name := some "colour".toList, id := none
         typeAttr := some "RADIO".toList, val := none, checked := true },
       { tag := "button".toList, name := some "_eventId_submit".toList, id := none
         typeAttr := none, val := none, checked := false },
       { tag := "input".toList, name := some "cancel".toList, id := none
         typeAttr := some "submit".toList, val := some "Cancel".toList, checked := false },
       { tag := "select".toList, name := some "title".toList, id := none
         typeAttr := none, val := none, checked := false },
       hiddenInput "token" "first", hiddenInput "token" "second"] }

/-- A page whose only form is `mixedForm`. -/
def mixedPage : Page :=
  { forms := [mixedForm], labelText := labelsOf [], title := [], heading := [], main := [], body := [] }

/-! ## The payloads of the three submissions -/

/-- The fields that a submission sends. -/
def payloadOf (submission : Str × Options) : Obj := submission.2.body.getD []

/-- The key of the submit event. -/
def submitEvent : Str := "_eventId_submit".toList

/-- The controls of all the forms of a page, in document order. -/
def formControls (page : Page) : List Control := (page.forms.map Form.controls).flatten

/-- The controls that `$('form input[type="checkbox"]')` selects. -/
def formCheckboxes (page : Page) : List Control :=
  (page.forms.map Form.controls).flatten.filter fun el =>
    el.tag == "input".toList && (el.typeAttr.map toLowerCase == some "checkbox".toList)

/-- An environment whose parser reads every document as the given page. -/
def pageEnv (page : Page) : Env :=
  { userAgent := "perform-check/1.0".toList, upperCase := sampleUpperCase
    load := fun _ => page
    resolveUrl := fun rel _ => some rel, fetch := fun _ => .error "fetch failed".toList }

/-- A fetched document. -/
def pageFetched : Fetched :=
  { response := okResponse "https://site/check" "page", body := "page".toList
    contentType := "text/html".toList }

/-- The normalised sample input. -/
def sampleNorm : Norm :=
  { organisationName := "Acme Care".toList, requesterForename := "Sam".toList
    requesterSurname := "Lee".toList, certificateNumber := "001913551408".toList
    applicantSurname := "DOE".toList
    dob := { day := "01".toList, month := "02".toList, year := "1990".toList } }

/-- A radio button. -/
def radioInput (name id value : String) (checked : Bool) : Control :=
  { tag := "input".toList, name := some name.toList, id := some id.toList
    typeAttr := some "radio".toList, val := some value.toList, checked := checked }

/-- An organisation form that starts with a group of two radio buttons, each
with a label of its own; the second one is checked. -/
def radioGroupForm : Form :=
  { action := some "check?execution=e2s1".toList, method := some "post".toList
    controls := [radioInput "searchType" "st-org" "org" false,
                 radioInput "searchType" "st-ind" "individual" true,
                 textInput "organisationName", textInput "forename", textInput "surname"] }

/-- The page of `radioGroupForm`. -/
def radioGroupPage : Page :=
  { forms := [radioGroupForm]
    labelText := labelsOf [("st-org".toList, "Organisation".toList), ("st-ind".toList, "Individual".toList)]
    title := "Enter organisation".toList, heading := [], main := [], body := [] }

/-- An organisation form whose submit control has a value and a label. -/
def labelledSubmitForm : Form :=
  { action := some "check?execution=e2s1".toList, method := some "post".toList
    controls := [textInput "organisationName", textInput "forename", textInput "surname",
                 { tag := "input".toList, name := some "_eventId_submit".toList
                   id := some "go".toList, typeAttr := some "submit".toList
                   val := some "Next".toList, checked := false }] }

/-- The page of `labelledSubmitForm`. -/
def labelledSubmitPage : Page :=
  { forms := [labelledSubmitForm]
    labelText := labelsOf [("go".toList, "Send the organisation details".toList)]
    title := "Enter organisation".toList, heading := [], main := [], body := [] }

/-- A declaration page with two labelled checkboxes, the first of which has
no name. -/
def namelessFirstPage : Page :=
  { forms := [{ action := some "check?execution=e2s3".toList, method := some "post".toList
                controls := [{ tag := "input".toList, name := none, id := some "all".toList
                               typeAttr := some "checkbox".toList, val := none
                               checked := false },
                             { tag := "input".toList
                               name := some "hasAgreedTermsAndConditions".toList
                               id := some "agree".toList, typeAttr := some "checkbox".toList
                               val := some "true".toList, checked := false }] }]
    labelText := labelsOf [("all".toList, "Agree to all".toList),
               ("agree".toList, "I agree to the legal declaration".toList)]
    title := "Legal declaration".toList, heading := [], main := [], body := [] }

/-- The form that `extractForm` finds on a page; on a page without a form, a
form without fields stands in. -/
def extracted (page : Page) : ExtractedForm :=
  (extractForm (pageEnv page) page).getD { action := [], method := [], inputs := [] }

/-- An input whose day of birth is missing and whose month of birth consists
of blanks. -/
def blankDobDetails : ApplicantDetails :=
  { organisationName := .text "Acme Care".toList, requesterForename := .text "Sam".toList
    requesterSurname := .text "Lee".toList, certificateNumber := some "001913551408".toList
    applicantSurname := some "Doe".toList
    dob := some { day := none, month := some " \t".toList, year := some "1990".toList } }

/-! ## The certificate number on the result page -/

/-- Reference description, in the words of the specification: the text `s`
starts with the words `Certificate Number`, in any case of the letters,
followed by whitespace or none and then by the twelve digits `n`. -/
def NumberAt (s n : Str) : Prop :=
  ∃ words spaces post, s = words ++ spaces ++ n ++ post ∧
    toUpperCase words = toUpperCase "Certificate Number".toList ∧
    (∀ c ∈ spaces, isWhiteSpace c = true) ∧
    n.length = 12 ∧ (∀ c ∈ n, isDigit c = true)

/-- The twelve digits that the pattern of the certificate number captures at
the head of `s`, if it matches there. -/
def numberHere (s : Str) : Option Str :=
  if (toUpperCase "Certificate Number".toList).isPrefixOf (toUpperCase s) then
    let rest := (s.drop 18).dropWhile isWhiteSpace
    if 12 ≤ rest.length ∧ (rest.take 12).all isDigit then some (rest.take 12) else none
  else none

/-! ## The words of a text -/

/-- Reference description, in the words of the specification: the words of a
text, its maximal runs of characters that are not whitespace, in their order.
Two texts with the same words differ only in the lengths and kinds of the
whitespace runs between the words and in the whitespace at the ends. -/
def wordsOf : Str → List Str
  | [] => []
  | [c] => if isWhiteSpace c then [] else [[c]]
  | c :: d :: t =>
    if isWhiteSpace c then wordsOf (d :: t)
    else if isWhiteSpace d then [c] :: wordsOf (d :: t)
    else
      match wordsOf (d :: t) with
      | w :: rest => (c :: w) :: rest
      | [] => [[c]]

/-- The result page with its text laid out on one line, between blanks. -/
def flatResultPage : Page :=
  { forms := [], labelText := labelsOf [], title := "Certificate check results".toList
    heading := "Certificate check results".toList, main := [' ']
    body := "  Certificate check results Certificate for JANE DOE, Date of Birth:\t01/02/1990 Certificate Number\n001913551408 Certificate Print Date: 03/04/2020 This Certificate remains current as no further information has been identified since its issue.\n".toList }

/-- An organisation page whose field has an id with a double quote, which the
selector engine refuses. -/
def quotedIdPage : Page :=
  { forms := [{ action := some "check?execution=e2s1".toList, method := some "post".toList
                controls := [{ tag := "input".toList, name := some "organisationName".toList
                               id := some ['o', 'r', 'g', doubleQuote], typeAttr := some "text".toList
                               val := none, checked := false }] }]
    labelText := labelsOf [], title := "Enter organisation".toList, heading := [], main := []
    body := [] }

/-- The sample environment with a server whose documents all parse to the page
with the quoted id. -/
def quotedIdEnv : Env :=
  { userAgent := "perform-check/1.0".toList, upperCase := sampleUpperCase
    load := fun _ => quotedIdPage
    resolveUrl := fun rel _ => some ("https://site/".toList ++ rel), fetch := sampleFetch }

/-- The sample input with the number `5` as the name of the organisation. -/
def numberNameDetails : ApplicantDetails :=
  { sampleDetails none with
    organisationName := .other "(details.organisationName || '').trim is not a function".toList }

/-- An input whose surname has letters outside ASCII, and whose day has one
digit. -/
def strasseDetails : ApplicantDetails :=
  stringDetails "Acme Care".toList "Sam".toList "Lee".toList "001913551408".toList
    " Müller-Straße ".toList "5".toList "12".toList "1990".toList

/-- The normalised value of that input in the sample runtime. -/
def strasseNorm : Norm :=
  { organisationName := "Acme Care".toList, requesterForename := "Sam".toList
    requesterSurname := "Lee".toList, certificateNumber := "001913551408".toList
    applicantSurname := "MÜLLER-STRASSE".toList
    dob := { day := "05".toList, month := "12".toList, year := "1990".toList } }

/-- A form with a hidden token and a text field named `__proto__`. -/
def protoForm : Form :=
  { action := some "next".toList, method := some "post".toList
    controls := [hiddenInput "token" "t", hiddenInput "__proto__" "x"] }

/-- A page whose only form is `protoForm`. -/
def protoPage : Page :=
  { forms := [protoForm], labelText := labelsOf [], title := [], heading := [], main := []
    body := [] }

/-- A declaration page whose labelled checkbox is named `__proto__`. -/
def protoDeclarationPage : Page :=
  { forms := [{ action := some "check?execution=e2s3".toList, method := some "post".toList
                controls := [{ tag := "input".toList, name := some "__proto__".toList
                               id := some "agree".toList, typeAttr := some "checkbox".toList
                               val := some "true".toList, checked := false }] }]
    labelText := labelsOf [("agree".toList, "I agree to the legal declaration".toList)]
    title := "Legal declaration".toList, heading := [], main := [], body := [] }

/-- A declaration page whose labelled checkbox is followed by a checkbox whose
id has a double quote. -/
def quotedDeclarationPage : Page :=
  { forms := [{ action := some "check?execution=e2s3".toList, method := some "post".toList
                controls := [{ tag := "input".toList
                               name := some "hasAgreedTermsAndConditions".toList
                               id := some "agree".toList, typeAttr := some "checkbox".toList
                               val := some "true".toList, checked := false },
                             { tag := "input".toList, name := some "news".toList
                               id := some ['n', doubleQuote], typeAttr := some "checkbox".toList
                               val := none, checked := false }] }]
    labelText := labelsOf [("agree".toList, "I agree to the legal declaration".toList)]
    title := "Legal declaration".toList, heading := [], main := [], body := [] }

/-- The normalised value of `blankDobDetails`. -/
def blankDobNorm : Norm :=
  { organisationName := "Acme Care".toList, requesterForename := "Sam".toList
    requesterSurname := "Lee".toList, certificateNumber := "001913551408".toList
    applicantSurname := "DOE".toList
    dob := { day := "00".toList, month := "00".toList, year := "1990".toList } }

/-- The overrides of the certificate mapper for `blankDobNorm` on the sample
certificate page. -/
def blankDobFields : Obj :=
  [("certificateNumber".toList, "001913551408".toList), ("surname".toList, "DOE".toList),
   ("dayOfBirth".toList, "00".toList), ("monthOfBirth".toList, "00".toList),
   ("yearOfBirth".toList, "1990".toList)]

/-! ## Lemmas on the matcher -/

theorem run_litFold (ci : Bool) (p : List Char) (s : Str) :
    Re.run ci (p.foldr (fun c r => Re.seq (Re.chr c) r) Re.eps) s =
      if (p.map (Re.canon ci)).isPrefixOf (s.map (Re.canon ci)) then [(s.drop p.length, [])]
      else [] := by
  induction p generalizing s with
  | nil => simp [Re.run]
  | cons c p ih =>
    cases s with
    | nil => simp [Re.run]
    | cons d t =>
      by_cases h : Re.canon ci d = Re.canon ci c
      · simp [Re.run, h, ih]
      · have h' : ¬ Re.canon ci c = Re.canon ci d := fun e => h e.symm
        simp [Re.run, h, h']

theorem run_lit (ci : Bool) (p : String) (s : Str) :
    Re.run ci (Re.lit p) s =
      if (p.toList.map (Re.canon ci)).isPrefixOf (s.map (Re.canon ci)) then
        [(s.drop p.length, [])]
      else [] := by
  simpa [Re.lit] using run_litFold ci p.toList s

theorem matchHere_lit_isSome (ci : Bool) (p : String) (s : Str) :
    (Re.matchHere ci (Re.lit p) s).isSome =
      (p.toList.map (Re.canon ci)).isPrefixOf (s.map (Re.canon ci)) := by
  unfold Re.matchHere
  rw [run_lit]
  cases h : (p.data.map (Re.canon ci)).isPrefixOf (s.map (Re.canon ci)) <;>
    simp only [String.toList, h] <;> rfl

theorem test_cons (ci : Bool) (r : Re) (c : Char) (t : Str) :
    Re.test ci r (c :: t) = ((Re.matchHere ci r (c :: t)).isSome || Re.test ci r t) := by
  unfold Re.test
  rw [Re.exec]
  cases h : Re.matchHere ci r (c :: t) <;> simp

theorem test_lit (ci : Bool) (p : String) (s : Str) :
    Re.test ci (Re.lit p) s = includes (s.map (Re.canon ci)) (p.toList.map (Re.canon ci)) := by
  induction s with
  | nil =>
    unfold Re.test
    rw [Re.exec, matchHere_lit_isSome]
    cases p.toList <;> simp [includes]
  | cons c t ih =>
    rw [test_cons, ih, matchHere_lit_isSome]
    simp [includes]

/-- A literal pattern with the `i` flag tests for an occurrence of its text
without regard to the case of ASCII letters. -/
theorem test_lit_ci (p : String) (s : Str) : Re.test true (Re.lit p) s = includesCI s p := by
  have h : Re.canon true = upperChar := by
    funext c
    simp [Re.canon]
  rw [test_lit, h]
  rfl

theorem matchHere_alt_isSome (ci : Bool) (a b : Re) (s : Str) :
    (Re.matchHere ci (Re.alt a b) s).isSome =
      ((Re.matchHere ci a s).isSome || (Re.matchHere ci b s).isSome) := by
  unfold Re.matchHere
  simp only [Re.run]
  cases h1 : Re.run ci a s <;> cases h2 : Re.run ci b s <;> simp

theorem test_alt (ci : Bool) (a b : Re) (s : Str) :
    Re.test ci (Re.alt a b) s = (Re.test ci a s || Re.test ci b s) := by
  induction s with
  | nil =>
    unfold Re.test
    simp only [Re.exec]
    exact matchHere_alt_isSome ci a b []
  | cons c t ih =>
    rw [test_cons, test_cons, test_cons, ih, matchHere_alt_isSome]
    cases (Re.matchHere ci a (c :: t)).isSome <;> cases (Re.matchHere ci b (c :: t)).isSome <;>
      cases Re.test ci a t <;> cases Re.test ci b t <;> rfl

/-! ## Lemmas on strings -/

theorem isWhiteSpace_of_isDigit (c : Char) (h : isDigit c = true) : isWhiteSpace c = false := by
  simp only [isDigit, Bool.and_eq_true, decide_eq_true_eq] at h
  simp only [isWhiteSpace, Bool.or_eq_false_iff, Bool.and_eq_false_iff, beq_eq_false_iff_ne,
    decide_eq_false_iff_not]
  omega

theorem trim_of_ends (a z : Char) (l : Str) (ha : isWhiteSpace a = false)
    (hz : isWhiteSpace z = false) : trim (a :: (l ++ [z])) = a :: (l ++ [z]) := by
  simp [trim, trimStart, trimEnd, List.dropWhile, ha, hz]

theorem trim_singleton (a : Char) (ha : isWhiteSpace a = false) : trim [a] = [a] := by
  simp [trim, trimStart, trimEnd, List.dropWhile, ha]

theorem trim_of_no_space (s : Str) (h : ∀ c ∈ s, isWhiteSpace c = false) : trim s = s := by
  cases s with
  | nil => rfl
  | cons a t =>
    rcases List.eq_nil_or_concat t with ht | ⟨l, z, ht⟩
    · subst ht
      exact trim_singleton a (h a (by simp))
    · rw [List.concat_eq_append] at ht
      subst ht
      exact trim_of_ends a z l (h a (by simp)) (h z (by simp))

theorem replaceRunsAux_of_none (p : Char → Bool) (by_ : Str) (b : Bool) (s : Str)
    (h : ∀ c ∈ s, p c = false) : replaceRunsAux p by_ b s = s := by
  induction s generalizing b with
  | nil => rfl
  | cons c t ih =>
    have hc : p c = false := h c (by simp)
    simp only [replaceRunsAux, hc, Bool.false_eq_true, if_false]
    rw [ih false (fun d hd => h d (by simp [hd]))]

/-- The members of a normalised input. -/
theorem normalize_ok (env : Env) (details : ApplicantDetails) (n : Norm)
    (h : normalize env details = .ok n) :
    trimName details.organisationName = .ok n.organisationName ∧
    trimName details.requesterForename = .ok n.requesterForename ∧
    trimName details.requesterSurname = .ok n.requesterSurname ∧
    n.certificateNumber = trim (replaceRuns isNonDigit [] (orEmpty details.certificateNumber)) ∧
    n.applicantSurname = env.upperCase (trim (orEmpty details.applicantSurname)) ∧
    n.dob.day = padStart0 2 (trim (orEmpty (details.dob.bind Dob.day))) ∧
    n.dob.month = padStart0 2 (trim (orEmpty (details.dob.bind Dob.month))) ∧
    n.dob.year = trim (orEmpty (details.dob.bind Dob.year)) := by
  unfold normalize at h
  cases h1 : trimName details.organisationName with
  | error e => simp only [h1, reduceCtorEq] at h
  | ok o =>
    cases h2 : trimName details.requesterForename with
    | error e => simp only [h1, h2, reduceCtorEq] at h
    | ok f =>
      cases h3 : trimName details.requesterSurname with
      | error e => simp only [h1, h2, h3, reduceCtorEq] at h
      | ok s =>
        simp only [h1, h2, h3, Except.ok.injEq] at h
        subst h
        exact ⟨rfl, rfl, rfl, rfl, rfl, rfl, rfl, rfl⟩

/-- A certificate number made of digits only is left unchanged by the
normalisation. -/
theorem normalize_certificateNumber_of_digits (env : Env) (details : ApplicantDetails)
    (n : Norm) (c : Str) (h : normalize env details = .ok n)
    (hc : details.certificateNumber = some c) (hdig : ∀ ch ∈ c, isDigit ch = true) :
    n.certificateNumber = c := by
  have h1 : replaceRuns isNonDigit [] c = c :=
    replaceRunsAux_of_none _ _ _ _ (fun d hd => by simp [isNonDigit, hdig d hd])
  rw [(normalize_ok env details n h).2.2.2.1]
  simp only [hc, orEmpty, Option.getD_some, h1]
  exact trim_of_no_space c (fun d hd => isWhiteSpace_of_isDigit d (hdig d hd))

/-! ## Lemmas on the classifier -/

theorem test_reInvalid (s : Str) :
    Re.test true reInvalid s = includesCI s "your certificate number is invalid" :=
  test_lit_ci _ s

theorem test_reFixErrors (s : Str) :
    Re.test true reFixErrors s = includesCI s "please fix the following errors" :=
  test_lit_ci _ s

theorem test_reNoMatch (s : Str) :
    Re.test true reNoMatch s =
      (includesCI s "details entered do not match" || includesCI s "do not match those held") := by
  unfold reNoMatch
  rw [test_alt, test_lit_ci, test_lit_ci]

theorem looksLikeSuccessPage_eq (page : Page) :
    looksLikeSuccessPage page =
      (includesCI (trim page.heading) "Certificate check results" ||
        includesCI (trim page.title) "Certificate check results") := by
  unfold looksLikeSuccessPage reResults
  rw [test_lit_ci, test_lit_ci]

set_option maxRecDepth 100000 in
theorem outcomeOf_sentenceClear : outcomeOf sentenceClear = some "clear_and_current".toList := by
  rfl

set_option maxRecDepth 100000 in
theorem outcomeOf_sentenceCurrent : outcomeOf sentenceCurrent = some "current".toList := by
  rfl

set_option maxRecDepth 100000 in
theorem outcomeOf_sentenceNotCurrent :
    outcomeOf sentenceNotCurrent = some "not_current".toList := by
  rfl

theorem outcomeOf_nil : outcomeOf [] = none := by rfl

/-- The outcome text and the outcome, by the first canonical sentence that
occurs. -/
theorem outcome_cases (combined : Str) :
    (outcomeTextOf combined, outcomeOf (outcomeTextOf combined)) =
      if includes combined sentenceClear then (sentenceClear, some "clear_and_current".toList)
      else if includes combined sentenceCurrent then (sentenceCurrent, some "current".toList)
      else if includes combined sentenceNotCurrent then
        (sentenceNotCurrent, some "not_current".toList)
      else ([], none) := by
  unfold outcomeTextOf outcomeSentences
  cases h1 : includes combined sentenceClear
  · cases h2 : includes combined sentenceCurrent
    · cases h3 : includes combined sentenceNotCurrent
      · simp [List.find?, h1, h2, h3, orEmpty, outcomeOf_nil]
      · simp [List.find?, h1, h2, h3, orEmpty, outcomeOf_sentenceNotCurrent]
    · simp [List.find?, h1, h2, orEmpty, outcomeOf_sentenceCurrent]
  · simp [List.find?, h1, orEmpty, outcomeOf_sentenceClear]

/-- The classifier when no error sentinel occurs. -/
theorem classify_of_no_sentinel (details : ApplicantDetails) (steps : List FlowStep)
    (finalHtml finalUrl : Str) (page : Page)
    (ha : includesCI (combinedText page) "your certificate number is invalid" = false)
    (hb : includesCI (combinedText page) "please fix the following errors" = false)
    (hc1 : includesCI (combinedText page) "details entered do not match" = false)
    (hc2 : includesCI (combinedText page) "do not match those held" = false) :
    classify details steps finalHtml finalUrl page =
      if !looksLikeSuccessPage page || !hasAllCoreFields (structuredOf (combinedText page)) ||
          !matchesInputCert details (structuredOf (combinedText page)) then
        { ok := false
          error := some
            (if !looksLikeSuccessPage page then "Unexpected page content".toList
             else if !hasAllCoreFields (structuredOf (combinedText page)) then
               "Incomplete result from website".toList
             else "Certificate number mismatch".toList)
          steps := steps, title := none, summary := none
          resultText := some (resultTextOf page), resultHtml := some finalHtml
          finalUrl := some finalUrl, structured := some (structuredOf (combinedText page)) }
      else
        { ok := true, error := none, steps := steps, title := some (trim page.title)
          summary := some (trim page.heading)
          resultText := some (resultTextOf page), resultHtml := some finalHtml
          finalUrl := some finalUrl, structured := some (structuredOf (combinedText page)) } := by
  unfold classify
  simp only [test_reInvalid, test_reFixErrors, test_reNoMatch, ha, hb, hc1, hc2, Bool.or_self,
    Bool.false_eq_true, if_false]

/-! ## Lemmas on the orchestrator -/

/-- The course of a call, stage by stage: reading the input, then for each of
the three forms the hop that fetches its page, the extraction of the form and
the field mapper, then the last hop and the classification.  Each stage either
ends the call, with the value or the error stated, or leads to the next. -/
theorem performStatusCheck_trace (env : Env) (details : ApplicantDetails) :
    (∃ e, normalize env details = .error e ∧
      performStatusCheck env details = ({ jar := [], log := [] }, .error e)) ∨
    ∃ norm, normalize env details = .ok norm ∧
    ((∃ net1 e, fetchWithCookies env e2s1 getOptions { jar := [], log := [] } 10 = (net1, .error e) ∧
      performStatusCheck env details = (net1, .error e)) ∨
    ∃ net1 step1, fetchWithCookies env e2s1 getOptions { jar := [], log := [] } 10 = (net1, .ok step1) ∧
    ((extractForm env (env.load step1.body) = none ∧
      performStatusCheck env details = (net1, .ok (navigationFailure [stepOf e2s1 step1]))) ∨
    ∃ form1, extractForm env (env.load step1.body) = some form1 ∧
    ((∃ e, populateOrganisationFields (env.load step1.body) (orgFieldsOf norm) = .error e ∧
      performStatusCheck env details = (net1, .error e)) ∨
    ∃ orgFields,
      populateOrganisationFields (env.load step1.body) (orgFieldsOf norm) = .ok orgFields ∧
    ((∃ net2 e, fetchWithCookies env (submission1 env step1 form1 orgFields).1
        (submission1 env step1 form1 orgFields).2 net1 10 = (net2, .error e) ∧
      performStatusCheck env details = (net2, .error e)) ∨
    ∃ net2 step1Submit, fetchWithCookies env (submission1 env step1 form1 orgFields).1
        (submission1 env step1 form1 orgFields).2 net1 10 = (net2, .ok step1Submit) ∧
    ((extractForm env (env.load step1Submit.body) = none ∧
      performStatusCheck env details = (net2, .ok (navigationFailure [stepOf e2s1 step1,
        stepOf (submission1 env step1 form1 orgFields).1 step1Submit]))) ∨
    ∃ form2, extractForm env (env.load step1Submit.body) = some form2 ∧
    ((∃ e, populateCertificateFields (env.load step1Submit.body) (certFieldsOf norm) =
        .error e ∧
      performStatusCheck env details = (net2, .error e)) ∨
    ∃ certFields,
      populateCertificateFields (env.load step1Submit.body) (certFieldsOf norm) =
        .ok certFields ∧
    ((∃ net3 e, fetchWithCookies env (submission2 env step1Submit form2 certFields).1
        (submission2 env step1Submit form2 certFields).2 net2 10 = (net3, .error e) ∧
      performStatusCheck env details = (net3, .error e)) ∨
    ∃ net3 step2Submit, fetchWithCookies env (submission2 env step1Submit form2 certFields).1
        (submission2 env step1Submit form2 certFields).2 net2 10 = (net3, .ok step2Submit) ∧
    ((extractForm env (env.load step2Submit.body) = none ∧
      performStatusCheck env details = (net3, .ok (navigationFailure [stepOf e2s1 step1,
        stepOf (submission1 env step1 form1 orgFields).1 step1Submit,
        stepOf (submission2 env step1Submit form2 certFields).1 step2Submit]))) ∨
    ∃ form3, extractForm env (env.load step2Submit.body) = some form3 ∧
    ((∃ e, agreeLegalDeclaration (env.load step2Submit.body) = .error e ∧
      performStatusCheck env details = (net3, .error e)) ∨
    ∃ agree, agreeLegalDeclaration (env.load step2Submit.body) = .ok agree ∧
    ((∃ net4 e, fetchWithCookies env (submission3 env step2Submit form3 agree).1
        (submission3 env step2Submit form3 agree).2 net3 10 = (net4, .error e) ∧
      performStatusCheck env details = (net4, .error e)) ∨
    ∃ net4 step3Submit, fetchWithCookies env (submission3 env step2Submit form3 agree).1
        (submission3 env step2Submit form3 agree).2 net3 10 = (net4, .ok step3Submit) ∧
      performStatusCheck env details = (net4, .ok (classify details
        [stepOf e2s1 step1,
         stepOf (submission1 env step1 form1 orgFields).1 step1Submit,
         stepOf (submission2 env step1Submit form2 certFields).1 step2Submit,
         stepOf (submission3 env step2Submit form3 agree).1 step3Submit]
        step3Submit.body step3Submit.response.url (env.load step3Submit.body))))))))))))) := by
  cases hn : normalize env details with
  | error e =>
    exact Or.inl ⟨e, rfl, by unfold performStatusCheck; simp only [hn]⟩
  | ok norm =>
  refine Or.inr ⟨norm, rfl, ?_⟩
  rcases h1 : fetchWithCookies env e2s1 getOptions { jar := [], log := [] } 10 with ⟨net1, e | step1⟩
  · exact Or.inl ⟨net1, e, rfl, by unfold performStatusCheck; simp only [hn, h1]⟩
  refine Or.inr ⟨net1, step1, rfl, ?_⟩
  cases hf1 : extractForm env (env.load step1.body) with
  | none =>
    exact Or.inl ⟨rfl, by unfold performStatusCheck; simp only [hn, h1, hf1]⟩
  | some form1 =>
  refine Or.inr ⟨form1, rfl, ?_⟩
  cases hm1 : populateOrganisationFields (env.load step1.body) (orgFieldsOf norm) with
  | error e =>
    exact Or.inl ⟨e, rfl, by unfold performStatusCheck; simp only [hn, h1, hf1, hm1]⟩
  | ok orgFields =>
  refine Or.inr ⟨orgFields, rfl, ?_⟩
  rcases h2 : fetchWithCookies env (submission1 env step1 form1 orgFields).1
    (submission1 env step1 form1 orgFields).2 net1 10 with ⟨net2, e | step1Submit⟩
  · exact Or.inl ⟨net2, e, rfl, by unfold performStatusCheck; simp only [hn, h1, hf1, hm1, h2]⟩
  refine Or.inr ⟨net2, step1Submit, rfl, ?_⟩
  cases hf2 : extractForm env (env.load step1Submit.body) with
  | none =>
    exact Or.inl ⟨rfl, by
      unfold performStatusCheck
      simp only [hn, h1, hf1, hm1, h2, hf2, List.cons_append, List.nil_append]⟩
  | some form2 =>
  refine Or.inr ⟨form2, rfl, ?_⟩
  cases hm2 : populateCertificateFields (env.load step1Submit.body) (certFieldsOf norm) with
  | error e =>
    exact Or.inl ⟨e, rfl, by
      unfold performStatusCheck
      simp only [hn, h1, hf1, hm1, h2, hf2, hm2]⟩
  | ok certFields =>
  refine Or.inr ⟨certFields, rfl, ?_⟩
  rcases h3 : fetchWithCookies env (submission2 env step1Submit form2 certFields).1
    (submission2 env step1Submit form2 certFields).2 net2 10 with ⟨net3, e | step2Submit⟩
  · exact Or.inl ⟨net3, e, rfl, by
      unfold performStatusCheck
      simp only [hn, h1, hf1, hm1, h2, hf2, hm2, h3]⟩
  refine Or.inr ⟨net3, step2Submit, rfl, ?_⟩
  cases hf3 : extractForm env (env.load step2Submit.body) with
  | none =>
    exact Or.inl ⟨rfl, by
      unfold performStatusCheck
      simp only [hn, h1, hf1, hm1, h2, hf2, hm2, h3, hf3, List.cons_append, List.nil_append]⟩
  | some form3 =>
  refine Or.inr ⟨form3, rfl, ?_⟩
  cases hm3 : agreeLegalDeclaration (env.load step2Submit.body) with
  | error e =>
    exact Or.inl ⟨e, rfl, by
      unfold performStatusCheck
      simp only [hn, h1, hf1, hm1, h2, hf2, hm2, h3, hf3, hm3]⟩
  | ok agree =>
  refine Or.inr ⟨agree, rfl, ?_⟩
  rcases h4 : fetchWithCookies env (submission3 env step2Submit form3 agree).1
    (submission3 env step2Submit form3 agree).2 net3 10 with ⟨net4, e | step3Submit⟩
  · exact Or.inl ⟨net4, e, rfl, by
      unfold performStatusCheck
      simp only [hn, h1, hf1, hm1, h2, hf2, hm2, h3, hf3, hm3, h4]⟩
  exact Or.inr ⟨net4, step3Submit, rfl, by
    unfold performStatusCheck
    simp only [hn, h1, hf1, hm1, h2, hf2, hm2, h3, hf3, hm3, h4, List.cons_append,
      List.nil_append]⟩

/-- A value `performStatusCheck` resolves to is either the navigation failure
or the classification of the body of the third submission's response. -/
theorem performStatusCheck_ok (env : Env) (details : ApplicantDetails) (net : Net)
    (r : FlowResult) (h : performStatusCheck env details = (net, .ok r)) :
    (∃ steps, r = navigationFailure steps) ∨
    (∃ steps finalHtml finalUrl,
      r = classify details steps finalHtml finalUrl (env.load finalHtml)) := by
  rcases performStatusCheck_trace env details with
    ⟨e, hn, hp⟩ | ⟨norm, hn, ⟨net1, e, h1, hp⟩ | ⟨net1, step1, h1, ⟨hf1, hp⟩ |
    ⟨form1, hf1, ⟨e, hm1, hp⟩ | ⟨orgFields, hm1, ⟨net2, e, h2, hp⟩ |
    ⟨net2, step1Submit, h2, ⟨hf2, hp⟩ | ⟨form2, hf2, ⟨e, hm2, hp⟩ |
    ⟨certFields, hm2, ⟨net3, e, h3, hp⟩ | ⟨net3, step2Submit, h3, ⟨hf3, hp⟩ |
    ⟨form3, hf3, ⟨e, hm3, hp⟩ | ⟨agree, hm3, ⟨net4, e, h4, hp⟩ |
    ⟨net4, step3Submit, h4, hp⟩⟩⟩⟩⟩⟩⟩⟩⟩⟩⟩
  all_goals rw [hp] at h
  all_goals
    first
    | (simp only [Prod.mk.injEq, reduceCtorEq, and_false] at h; done)
    | (simp only [Prod.mk.injEq, Except.ok.injEq] at h
       obtain ⟨_, h⟩ := h
       subst h
       first
       | exact Or.inl ⟨_, rfl⟩
       | exact Or.inr ⟨_, _, _, rfl⟩)

/-- A call that does not reject resolves to the value read off it. -/
theorem resolved_of_no_rejection (x : Net × Except Str FlowResult) (h : rejection x = none) :
    x = (x.1, .ok (resolved x)) := by
  obtain ⟨net, e | r⟩ := x
  · simp [rejection] at h
  · rfl

/-! ## Lemmas on the sentence pattern -/

theorem exec_cons_of_none (ci : Bool) (r : Re) (c : Char) (t : Str)
    (h : Re.matchHere ci r (c :: t) = none) : Re.exec ci r (c :: t) = Re.exec ci r t := by
  rw [Re.exec]
  simp only [h]

/-- The matcher passes over a prefix of the input at whose positions the
pattern does not match. -/
theorem exec_append_of_no_match (ci : Bool) (r : Re) (pre s : Str)
    (h : ∀ k, k < pre.length → Re.matchHere ci r ((pre ++ s).drop k) = none) :
    Re.exec ci r (pre ++ s) = Re.exec ci r s := by
  induction pre with
  | nil => rfl
  | cons c pre ih =>
    have h0 := h 0 (by simp)
    simp only [List.drop_zero, List.cons_append] at h0
    rw [List.cons_append, exec_cons_of_none ci r c (pre ++ s) h0]
    apply ih
    intro k hk
    have := h (k + 1) (by simpa using hk)
    simpa using this

theorem matchHere_seq_lit_none (ci : Bool) (p : String) (r : Re) (s : Str)
    (h : (p.toList.map (Re.canon ci)).isPrefixOf (s.map (Re.canon ci)) = false) :
    Re.matchHere ci (Re.seq (Re.lit p) r) s = none := by
  unfold Re.matchHere
  simp only [Re.run, run_lit, h, Bool.false_eq_true, if_false, List.flatMap_nil]

theorem exec_seq_lit_none (ci : Bool) (p : String) (r : Re) (s : Str)
    (h : includes (s.map (Re.canon ci)) (p.toList.map (Re.canon ci)) = false) :
    Re.exec ci (Re.seq (Re.lit p) r) s = none := by
  induction s with
  | nil =>
    rw [Re.exec]
    apply matchHere_seq_lit_none
    cases hp : p.toList.map (Re.canon ci) with
    | nil =>
      rw [hp] at h
      simp [includes] at h
    | cons a l => rfl

  | cons c t ih =>
    simp only [List.map_cons, includes, Bool.or_eq_false_iff] at h
    rw [exec_cons_of_none _ _ _ _ (matchHere_seq_lit_none ci p r (c :: t) h.1)]
    exact ih h.2

theorem starRun_head (p : Char → Bool) (mid : Str) (d : Char) (post : Str)
    (hmid : ∀ c ∈ mid, p c = true) (hd : p d = false) :
    ∃ tail, Re.starRun p (mid ++ d :: post) = (d :: post) :: tail := by
  induction mid with
  | nil => exact ⟨[], by simp [Re.starRun, hd]⟩
  | cons m mid ih =>
    obtain ⟨tail, ht⟩ := ih (fun c hc => hmid c (by simp [hc]))
    refine ⟨tail ++ [m :: (mid ++ d :: post)], ?_⟩
    simp [Re.starRun, hmid m (by simp), ht]

theorem starRun_suffix (p : Char → Bool) (s x : Str) (hx : x ∈ Re.starRun p s) : x <:+ s := by
  induction s with
  | nil =>
    simp only [Re.starRun, List.mem_singleton] at hx
    subst hx
    exact List.suffix_refl _
  | cons c t ih =>
    simp only [Re.starRun] at hx
    split at hx
    · rcases List.mem_append.mp hx with h | h
      · exact (ih h).trans (List.suffix_cons c t)
      · simp only [List.mem_singleton] at h
        subst h
        exact List.suffix_refl _
    · simp only [List.mem_singleton] at hx
      subst hx
      exact List.suffix_refl _

theorem upperChar_of_isWhiteSpace (c : Char) (h : isWhiteSpace c = true) : upperChar c = c := by
  have hn : ¬ (0x61 ≤ c.toNat ∧ c.toNat ≤ 0x7A) := by
    simp only [isWhiteSpace, Bool.or_eq_true, Bool.and_eq_true, beq_iff_eq,
      decide_eq_true_eq] at h
    omega
  simp [upperChar, hn]

theorem ofNat_sub_ne_dot (n : Nat) (h1 : 0x61 ≤ n) (h2 : n ≤ 0x7A) :
    Char.ofNat (n - 0x20) ≠ '.' := by
  interval_cases n <;> decide

theorem upperChar_eq_dot (c : Char) : upperChar c = '.' ↔ c = '.' := by
  constructor
  · intro h
    unfold upperChar at h
    split at h
    · rename_i hc
      exact absurd h (ofNat_sub_ne_dot c.toNat hc.1 hc.2)
    · exact h
  · intro h
    subst h
    rfl

theorem canon_true (c : Char) : Re.canon true c = upperChar c := by
  simp [Re.canon]

theorem run_star_dot_head (mid post : Str) (hmid : '.' ∉ mid) :
    ∃ tail, Re.run true (Re.seq (Re.star fun c => c != '.') (Re.chr '.'))
      (mid ++ '.' :: post) = (post, []) :: tail := by
  obtain ⟨tail, ht⟩ := starRun_head (fun c => c != '.') mid '.' post
    (fun c hc => by
      have : c ≠ '.' := fun e => hmid (e ▸ hc)
      simpa using this)
    (by simp)
  simp only [Re.run, ht, List.map_cons, List.flatMap_cons, canon_true, if_true,
    List.map_nil, List.append_nil, List.singleton_append, List.cons_append, List.nil_append]
  exact ⟨_, rfl⟩

theorem run_star_dot_nil (rest : Str) (h : '.' ∉ rest) :
    Re.run true (Re.seq (Re.star fun c => c != '.') (Re.chr '.')) rest = [] := by
  simp only [Re.run]
  rw [List.flatMap_eq_nil_iff]
  intro x hx
  obtain ⟨y, hy, hxy⟩ := List.mem_map.mp hx
  subst hxy
  have hsuf := starRun_suffix _ _ _ hy
  cases y with
  | nil => rfl
  | cons d t =>
    have hd : d ∈ rest := hsuf.subset (by simp)
    have hne : d ≠ '.' := fun e => h (e ▸ hd)
    have hne' : ¬ upperChar d = upperChar '.' := by
      intro e
      exact hne ((upperChar_eq_dot d).mp e)
    simp [canon_true, hne']

theorem isPrefixOf_of_upper_eq (ph rest : Str) (p : String)
    (h : toUpperCase ph = toUpperCase p.toList) :
    (p.toList.map (Re.canon true)).isPrefixOf ((ph ++ rest).map (Re.canon true)) = true := by
  have hc : Re.canon true = upperChar := funext canon_true
  rw [hc, List.map_append]
  have h' : List.map upperChar ph = List.map upperChar p.toList := h
  rw [h', List.isPrefixOf_iff_prefix]
  exact List.prefix_append _ _

theorem length_of_upper_eq (ph : Str) (p : String)
    (h : toUpperCase ph = toUpperCase p.toList) : ph.length = p.length := by
  have := congrArg List.length h
  simpa [toUpperCase] using this

/-- At an occurrence of the phrase that a period follows, with no period in
between, the sentence pattern matches the text up to that period. -/
theorem matchHere_sentence (ph mid post : Str) (hph : toUpperCase ph =
      toUpperCase "details entered do not match".toList) (hmid : '.' ∉ mid) :
    Re.matchHere true reNoMatchSentence (ph ++ (mid ++ '.' :: post)) =
      some (ph ++ (mid ++ ['.']), []) := by
  obtain ⟨tail, ht⟩ := run_star_dot_head mid post hmid
  have hlen := length_of_upper_eq ph _ hph
  have hdrop : List.drop "details entered do not match".length (ph ++ (mid ++ '.' :: post)) =
      mid ++ '.' :: post := List.drop_left' hlen
  unfold Re.matchHere reNoMatchSentence
  rw [Re.run, run_lit, if_pos (isPrefixOf_of_upper_eq ph _ _ hph), List.flatMap_singleton, hdrop,
    ht]
  simp only [List.map_cons, List.append_nil, List.length_append, List.length_cons,
    Option.some.injEq, Prod.mk.injEq, and_true]
  have e : ph.length + (mid.length + (post.length + 1)) - post.length =
      (ph ++ (mid ++ ['.'])).length := by
    simp only [List.length_append, List.length_cons, List.length_nil]
    omega
  rw [e]
  have e2 : ph ++ (mid ++ '.' :: post) = (ph ++ (mid ++ ['.'])) ++ post := by simp
  rw [e2, List.take_left]

/-- When no period follows the place where the phrase would end, the sentence
pattern matches nowhere. -/
theorem exec_sentence_none (s : Str)
    (h : '.' ∉ s.drop "details entered do not match".length) :
    Re.exec true reNoMatchSentence s = none := by
  have key : ∀ t : Str, '.' ∉ t.drop "details entered do not match".length →
      Re.matchHere true reNoMatchSentence t = none := by
    intro t ht
    unfold Re.matchHere reNoMatchSentence
    rw [Re.run, run_lit]
    by_cases hp : (List.map (Re.canon true) "details entered do not match".toList).isPrefixOf
        (List.map (Re.canon true) t) = true
    · rw [if_pos hp, List.flatMap_singleton, run_star_dot_nil _ ht]
      rfl
    · rw [if_neg hp]
      rfl
  induction s with
  | nil =>
    rw [Re.exec]
    exact key [] h
  | cons c t ih =>
    rw [exec_cons_of_none _ _ _ _ (key (c :: t) h)]
    apply ih
    intro hmem
    apply h
    have hsub : t.drop "details entered do not match".length ⊆
        (c :: t).drop "details entered do not match".length :=
      List.drop_subset_drop_left (c :: t) (Nat.le_succ _)
    exact hsub hmem

/-! ## Lemmas on the rounds of the session client -/

/-- A round whose request fails in transport. -/
theorem fetchLoop_transport (env : Env) (remaining : Nat) (url : Str) (options : Options)
    (referer : Option Str) (net : Net) (e : Str)
    (h : env.fetch (net.log ++ [requestOf env url options referer net.jar]) = .error e) :
    fetchLoop env remaining url options referer net =
      ({ jar := net.jar, log := net.log ++ [requestOf env url options referer net.jar] },
        .error e) := by
  unfold requestOf at h
  cases remaining <;> (unfold fetchLoop; simp only [h]; rfl)

/-- A round answered by a response that is no redirect. -/
theorem fetchLoop_final (env : Env) (remaining : Nat) (url : Str) (options : Options)
    (referer : Option Str) (net : Net) (response : Response)
    (h : env.fetch (net.log ++ [requestOf env url options referer net.jar]) = .ok response)
    (hs : isRedirectStatus response.status = false) :
    fetchLoop env remaining url options referer net =
      ({ jar := collectCookies net.jar response
         log := net.log ++ [requestOf env url options referer net.jar] },
        .ok { response := response, body := response.body
              contentType := orEmpty response.contentType }) := by
  unfold requestOf at h
  cases remaining <;>
    (unfold fetchLoop; simp only [h, hs, Bool.false_eq_true, if_false]; rfl)

/-- A round answered by a redirect when the cap is used up. -/
theorem fetchLoop_exceeded (env : Env) (url : Str) (options : Options)
    (referer : Option Str) (net : Net) (response : Response)
    (h : env.fetch (net.log ++ [requestOf env url options referer net.jar]) = .ok response)
    (hs : isRedirectStatus response.status = true) :
    fetchLoop env 0 url options referer net =
      ({ jar := collectCookies net.jar response
         log := net.log ++ [requestOf env url options referer net.jar] },
        .error "redirect count exceeded".toList) := by
  unfold requestOf at h
  unfold fetchLoop
  simp only [h, hs, if_true]
  rfl

/-- A round answered, within the cap, by a redirect without location. -/
theorem fetchLoop_no_location (env : Env) (r : Nat) (url : Str) (options : Options)
    (referer : Option Str) (net : Net) (response : Response)
    (h : env.fetch (net.log ++ [requestOf env url options referer net.jar]) = .ok response)
    (hs : isRedirectStatus response.status = true) (hl : truthy response.location = false) :
    fetchLoop env (r + 1) url options referer net =
      ({ jar := collectCookies net.jar response
         log := net.log ++ [requestOf env url options referer net.jar] },
        .error "redirect with no location header".toList) := by
  unfold requestOf at h
  unfold fetchLoop
  simp only [h, hs, hl, if_true, Bool.false_eq_true, if_false]
  rfl

/-- A round answered, within the cap, by a redirect with a location: the loop
goes on with the resolved location, the options after the redirect, the old
URL as referer and the cookies collected. -/
theorem fetchLoop_redirect (env : Env) (r : Nat) (url : Str) (options : Options)
    (referer : Option Str) (net : Net) (response : Response)
    (h : env.fetch (net.log ++ [requestOf env url options referer net.jar]) = .ok response)
    (hs : isRedirectStatus response.status = true) (hl : truthy response.location = true) :
    fetchLoop env (r + 1) url options referer net =
      fetchLoop env r (absoluteUrl env url (orEmpty response.location))
        (optionsAfterRedirect response.status options) (some url)
        { jar := collectCookies net.jar response
          log := net.log ++ [requestOf env url options referer net.jar] } := by
  unfold requestOf at h
  conv => lhs; unfold fetchLoop
  simp only [h, hs, hl, if_true]
  rfl

/-- The log after a call of the loop is the log before it, the request of the
first round, and the requests of the later rounds. -/
theorem fetchLoop_log (env : Env) (remaining : Nat) (url : Str) (options : Options)
    (referer : Option Str) (net : Net) :
    ∃ rest, (fetchLoop env remaining url options referer net).1.log =
      net.log ++ requestOf env url options referer net.jar :: rest := by
  induction remaining generalizing url options referer net with
  | zero =>
    cases h : env.fetch (net.log ++ [requestOf env url options referer net.jar]) with
    | error e => exact ⟨[], by rw [fetchLoop_transport env 0 url options referer net e h]⟩
    | ok response =>
      cases hs : isRedirectStatus response.status
      · exact ⟨[], by rw [fetchLoop_final env 0 url options referer net response h hs]⟩
      · exact ⟨[], by rw [fetchLoop_exceeded env url options referer net response h hs]⟩
  | succ r ih =>
    cases h : env.fetch (net.log ++ [requestOf env url options referer net.jar]) with
    | error e => exact ⟨[], by rw [fetchLoop_transport env (r + 1) url options referer net e h]⟩
    | ok response =>
      cases hs : isRedirectStatus response.status
      · exact ⟨[], by rw [fetchLoop_final env (r + 1) url options referer net response h hs]⟩
      · cases hl : truthy response.location
        · exact ⟨[], by
            rw [fetchLoop_no_location env r url options referer net response h hs hl]⟩
        · obtain ⟨rest, hrest⟩ := ih (absoluteUrl env url (orEmpty response.location))
            (optionsAfterRedirect response.status options) (some url)
            { jar := collectCookies net.jar response
              log := net.log ++ [requestOf env url options referer net.jar] }
          refine ⟨requestOf env (absoluteUrl env url (orEmpty response.location))
            (optionsAfterRedirect response.status options) (some url)
            (collectCookies net.jar response) :: rest, ?_⟩
          rw [fetchLoop_redirect env r url options referer net response h hs hl, hrest]
          simp

/-- A call of the loop with `remaining` redirects left issues at least one and
at most `remaining + 1` requests. -/
theorem fetchLoop_log_length (env : Env) (remaining : Nat) (url : Str) (options : Options)
    (referer : Option Str) (net : Net) :
    net.log.length + 1 ≤ (fetchLoop env remaining url options referer net).1.log.length ∧
    (fetchLoop env remaining url options referer net).1.log.length ≤
      net.log.length + remaining + 1 := by
  induction remaining generalizing url options referer net with
  | zero =>
    cases h : env.fetch (net.log ++ [requestOf env url options referer net.jar]) with
    | error e => rw [fetchLoop_transport env 0 url options referer net e h]; simp
    | ok response =>
      cases hs : isRedirectStatus response.status
      · rw [fetchLoop_final env 0 url options referer net response h hs]; simp
      · rw [fetchLoop_exceeded env url options referer net response h hs]; simp
  | succ r ih =>
    cases h : env.fetch (net.log ++ [requestOf env url options referer net.jar]) with
    | error e => rw [fetchLoop_transport env (r + 1) url options referer net e h]; simp
    | ok response =>
      cases hs : isRedirectStatus response.status
      · rw [fetchLoop_final env (r + 1) url options referer net response h hs]; simp
      · cases hl : truthy response.location
        · rw [fetchLoop_no_location env r url options referer net response h hs hl]; simp
        · rw [fetchLoop_redirect env r url options referer net response h hs hl]
          have := ih (absoluteUrl env url (orEmpty response.location))
            (optionsAfterRedirect response.status options) (some url)
            { jar := collectCookies net.jar response
              log := net.log ++ [requestOf env url options referer net.jar] }
          simp only [List.length_append, List.length_singleton] at this
          omega

/-- The first request of a call of the loop, read off the final log. -/
theorem fetchLoop_take (env : Env) (remaining : Nat) (url : Str) (options : Options)
    (referer : Option Str) (net : Net) :
    (fetchLoop env remaining url options referer net).1.log.take (net.log.length + 1) =
      net.log ++ [requestOf env url options referer net.jar] := by
  obtain ⟨rest, h⟩ := fetchLoop_log env remaining url options referer net
  rw [h]
  have e : net.log ++ requestOf env url options referer net.jar :: rest =
      (net.log ++ [requestOf env url options referer net.jar]) ++ rest := by simp
  rw [e]
  exact List.take_left' (by simp)

/-- A chain of `k` redirects with location, `k` within the cap, followed by a
response that is no redirect: the loop returns that response after `k + 1`
requests.  The answers of the server are read at the prefixes of the final
log. -/
theorem fetchLoop_chain_ok (env : Env) (n : Nat) (url : Str) (options : Options)
    (referer : Option Str) (net : Net) (k : Nat) (resp : Response) (hk : k ≤ n)
    (hred : ∀ i, i < k → ∃ r,
      env.fetch ((fetchLoop env n url options referer net).1.log.take
        (net.log.length + i + 1)) = .ok r ∧
      isRedirectStatus r.status = true ∧ truthy r.location = true)
    (hlast : env.fetch ((fetchLoop env n url options referer net).1.log.take
      (net.log.length + k + 1)) = .ok resp)
    (hs : isRedirectStatus resp.status = false) :
    (fetchLoop env n url options referer net).2 =
        .ok { response := resp, body := resp.body, contentType := orEmpty resp.contentType } ∧
      (fetchLoop env n url options referer net).1.log.length = net.log.length + k + 1 := by
  induction n generalizing url options referer net k with
  | zero =>
    have hk0 : k = 0 := by omega
    subst hk0
    rw [Nat.add_zero, fetchLoop_take] at hlast
    rw [fetchLoop_final env 0 url options referer net resp hlast hs]
    simp
  | succ n ih =>
    cases k with
    | zero =>
      rw [Nat.add_zero, fetchLoop_take] at hlast
      rw [fetchLoop_final env (n + 1) url options referer net resp hlast hs]
      simp
    | succ k =>
      obtain ⟨r, h0, hs0, hl0⟩ := hred 0 (by omega)
      rw [Nat.add_zero, fetchLoop_take] at h0
      have step := fetchLoop_redirect env n url options referer net r h0 hs0 hl0
      rw [step] at hred hlast ⊢
      have hlen : (net.log ++ [requestOf env url options referer net.jar]).length =
          net.log.length + 1 := by simp
      have := ih (absoluteUrl env url (orEmpty r.location))
        (optionsAfterRedirect r.status options) (some url)
        { jar := collectCookies net.jar r
          log := net.log ++ [requestOf env url options referer net.jar] } k (by omega)
        (by
          intro i hi
          have h := hred (i + 1) (by omega)
          simp only [hlen]
          have e : net.log.length + 1 + i + 1 = net.log.length + (i + 1) + 1 := by omega
          rw [e]
          exact h)
        (by
          simp only [hlen]
          have e : net.log.length + 1 + k + 1 = net.log.length + (k + 1) + 1 := by omega
          rw [e]
          exact hlast)
      simp only [hlen] at this
      refine ⟨this.1, ?_⟩
      rw [this.2]
      omega

/-- A chain of `n` redirects with location followed by one more redirect, `n`
being the cap: the loop fails after `n + 1` requests. -/
theorem fetchLoop_chain_exceeded (env : Env) (n : Nat) (url : Str) (options : Options)
    (referer : Option Str) (net : Net)
    (hred : ∀ i, i < n → ∃ r,
      env.fetch ((fetchLoop env n url options referer net).1.log.take
        (net.log.length + i + 1)) = .ok r ∧
      isRedirectStatus r.status = true ∧ truthy r.location = true)
    (hlast : ∃ r, env.fetch ((fetchLoop env n url options referer net).1.log.take
        (net.log.length + n + 1)) = .ok r ∧ isRedirectStatus r.status = true) :
    (fetchLoop env n url options referer net).2 = .error "redirect count exceeded".toList ∧
      (fetchLoop env n url options referer net).1.log.length = net.log.length + n + 1 := by
  induction n generalizing url options referer net with
  | zero =>
    obtain ⟨r, h0, hs0⟩ := hlast
    rw [Nat.add_zero, fetchLoop_take] at h0
    rw [fetchLoop_exceeded env url options referer net r h0 hs0]
    simp
  | succ n ih =>
    obtain ⟨r, h0, hs0, hl0⟩ := hred 0 (by omega)
    rw [Nat.add_zero, fetchLoop_take] at h0
    have step := fetchLoop_redirect env n url options referer net r h0 hs0 hl0
    rw [step] at hred hlast ⊢
    have hlen : (net.log ++ [requestOf env url options referer net.jar]).length =
        net.log.length + 1 := by simp
    have := ih (absoluteUrl env url (orEmpty r.location))
      (optionsAfterRedirect r.status options) (some url)
      { jar := collectCookies net.jar r
        log := net.log ++ [requestOf env url options referer net.jar] }
      (by
        intro i hi
        have h := hred (i + 1) (by omega)
        simp only [hlen]
        have e : net.log.length + 1 + i + 1 = net.log.length + (i + 1) + 1 := by omega
        rw [e]
        exact h)
      (by
        simp only [hlen]
        have e : net.log.length + 1 + n + 1 = net.log.length + (n + 1) + 1 := by omega
        rw [e]
        exact hlast)
    simp only [hlen] at this
    refine ⟨this.1, ?_⟩
    rw [this.2]
    omega

/-! ## Lemmas on objects and the cookie jar -/

theorem objGet_nil (k : Str) : objGet [] k = none := rfl

theorem objGet_cons (k1 v1 : Str) (t : Obj) (k : Str) :
    objGet ((k1, v1) :: t) k = if k1 = k then some v1 else objGet t k := by
  by_cases h : k1 = k
  · simp [objGet, List.find?_cons, h]
  · have h1 : (k1 == k) = false := by simpa using h
    simp [objGet, List.find?_cons, h, h1]

theorem objGet_objSet (o : Obj) (k v k' : Str) :
    objGet (objSet o k v) k' = if k = k' then some v else objGet o k' := by
  induction o with
  | nil => simp only [objSet, objGet_cons, objGet_nil]
  | cons e t ih =>
    obtain ⟨k1, v1⟩ := e
    by_cases h1 : k1 = k
    · subst h1
      simp only [objSet, if_true, objGet_cons]
      split <;> rfl
    · simp only [objSet, h1, if_false, objGet_cons, ih]
      by_cases h : k = k'
      · subst h
        simp [h1]
      · simp [h]

theorem objGet_of_not_mem (o : Obj) (k : Str) (h : k ∉ o.map Prod.fst) : objGet o k = none := by
  induction o with
  | nil => rfl
  | cons e t ih =>
    obtain ⟨k1, v1⟩ := e
    simp only [List.map_cons, List.mem_cons, not_or] at h
    have h1 : ¬ k1 = k := fun e' => h.1 e'.symm
    rw [objGet_cons, if_neg h1]
    exact ih h.2

/-- The lookup in `{ ...a, ...b }` when the keys of `b` are distinct: the value
of `b`, else that of `a`. -/
theorem objGet_spread (a b : Obj) (k : Str) (hb : (b.map Prod.fst).Nodup) :
    objGet (spread a b) k =
      match objGet b k with
      | some v => some v
      | none => objGet a k := by
  induction b generalizing a with
  | nil => rfl
  | cons e t ih =>
    obtain ⟨k1, v1⟩ := e
    simp only [List.map_cons, List.nodup_cons] at hb
    have step : spread a ((k1, v1) :: t) = spread (objSet a k1 v1) t := rfl
    rw [step, ih (objSet a k1 v1) hb.2, objGet_objSet, objGet_cons]
    by_cases h : k1 = k
    · subst h
      have hnone : objGet t k1 = none := objGet_of_not_mem t k1 hb.1
      simp [hnone]
    · simp only [h, if_false]

theorem keys_objSet (o : Obj) (k v : Str) :
    (objSet o k v).map Prod.fst = if k ∈ o.map Prod.fst then o.map Prod.fst
      else o.map Prod.fst ++ [k] := by
  induction o with
  | nil => simp [objSet]
  | cons e t ih =>
    obtain ⟨k1, v1⟩ := e
    by_cases h1 : k1 = k
    · subst h1
      simp [objSet]
    · have h1' : ¬ k = k1 := fun e => h1 e.symm
      simp only [objSet, h1, if_false, List.map_cons, ih, List.mem_cons, h1', false_or]
      split <;> simp

theorem nodup_keys_objSet (o : Obj) (k v : Str) (h : (o.map Prod.fst).Nodup) :
    ((objSet o k v).map Prod.fst).Nodup := by
  rw [keys_objSet]
  split
  · exact h
  · rename_i hk
    exact List.Nodup.append h (List.nodup_singleton k) (by simpa using hk)

theorem nodup_keys_foldl {α : Type} (f : Obj → α → Obj) (l : List α) (o : Obj)
    (hf : ∀ o a, (o.map Prod.fst).Nodup → ((f o a).map Prod.fst).Nodup)
    (h : (o.map Prod.fst).Nodup) : ((l.foldl f o).map Prod.fst).Nodup := by
  induction l generalizing o with
  | nil => exact h
  | cons a t ih => exact ih (f o a) (hf o a h)

/-- The names of the cookies parsed from the headers of one response are
distinct. -/
theorem nodup_keys_parseSetCookieHeaders (hs : List Str) :
    ((parseSetCookieHeaders hs).map Prod.fst).Nodup := by
  unfold parseSetCookieHeaders
  apply nodup_keys_foldl
  · intro o header ho
    simp only
    split
    · split
      · exact nodup_keys_objSet _ _ _ ho
      · exact ho
    · exact ho
  · simp

theorem jarOfHistoryAux_append (env : Env) (done todo : List Request) (r : Request)
    (jar : Obj) :
    jarOfHistoryAux env done (todo ++ [r]) jar =
      jarAfterAnswer (jarOfHistoryAux env done todo jar) (env.fetch (done ++ todo ++ [r])) := by
  induction todo generalizing done jar with
  | nil => simp [jarOfHistoryAux]
  | cons x t ih =>
    have e : jarOfHistoryAux env done (x :: t ++ [r]) jar =
        jarOfHistoryAux env (done ++ [x]) (t ++ [r])
          (jarAfterAnswer jar (env.fetch (done ++ [x]))) := rfl
    have e' : jarOfHistoryAux env done (x :: t) jar =
        jarOfHistoryAux env (done ++ [x]) t (jarAfterAnswer jar (env.fetch (done ++ [x]))) := rfl
    rw [e, e', ih]
    simp

/-- The jar of a history with one more request. -/
theorem jarOfHistory_append (env : Env) (log : List Request) (r : Request) :
    jarOfHistory env (log ++ [r]) =
      jarAfterAnswer (jarOfHistory env log) (env.fetch (log ++ [r])) := by
  unfold jarOfHistory
  rw [jarOfHistoryAux_append]
  simp

theorem collectCookies_eq (jar : Obj) (response : Response) :
    collectCookies jar response = jarAfterAnswer jar (.ok response) := by
  unfold collectCookies jarAfterAnswer mergeCookies
  split
  · rfl
  · rename_i h
    have he : response.setCookie = [] := by
      cases hc : response.setCookie with
      | nil => rfl
      | cons a t => simp [hc] at h
    simp [he, parseSetCookieHeaders, spread]

theorem cookie_of_requestOf (env : Env) (url : Str) (options : Options)
    (referer : Option Str) (jar : Obj)
    (h : objGet options.headers "Cookie".toList = none) :
    objGet (requestOf env url options referer jar).headers "Cookie".toList =
      cookieHeaderOf jar := by
  have e1 : ¬ "User-Agent".toList = "Cookie".toList := by decide
  have e2 : ¬ "Accept".toList = "Cookie".toList := by decide
  have e3 : ¬ "Accept-Language".toList = "Cookie".toList := by decide
  have e4 : ¬ "Cache-Control".toList = "Cookie".toList := by decide
  have e5 : ¬ "Pragma".toList = "Cookie".toList := by decide
  have e6 : ¬ "Referer".toList = "Cookie".toList := by decide
  unfold requestOf requestHeaders cookieHeaderOf
  simp only
  split <;> split <;> simp only [objGet_objSet, e1, e2, e3, e4, e5, e6, if_false, if_true, h]

theorem headersFollowJar_append (env : Env) (log : List Request) (r : Request)
    (hlog : HeadersFollowJar env log)
    (hr : objGet r.headers "Cookie".toList = cookieHeaderOf (jarOfHistory env log)) :
    HeadersFollowJar env (log ++ [r]) := by
  intro pre req post hsplit
  rcases List.eq_nil_or_concat post with hp | ⟨post', x, hp⟩
  · subst hp
    have e : log ++ [r] = pre ++ [req] := hsplit
    obtain ⟨h1, h2⟩ := List.append_inj' e rfl
    simp only [List.cons.injEq, and_true] at h2
    subst h1 h2
    exact hr
  · rw [List.concat_eq_append] at hp
    subst hp
    have e : log ++ [r] = (pre ++ req :: post') ++ [x] := by simpa using hsplit
    obtain ⟨h1, _⟩ := List.append_inj' e rfl
    exact hlog pre req post' h1

/-- One round of the loop keeps the agreement of the network with the
history. -/
theorem cookieInv_round (env : Env) (url : Str) (options : Options) (referer : Option Str)
    (net : Net) (hinv : CookieInv env net)
    (hopt : objGet options.headers "Cookie".toList = none) :
    CookieInv env
      { jar := jarAfterAnswer net.jar
          (env.fetch (net.log ++ [requestOf env url options referer net.jar]))
        log := net.log ++ [requestOf env url options referer net.jar] } := by
  obtain ⟨hjar, hlog⟩ := hinv
  refine ⟨?_, ?_⟩
  · simp only
    rw [jarOfHistory_append, ← hjar]
  · apply headersFollowJar_append env net.log _ hlog
    rw [cookie_of_requestOf env url options referer net.jar hopt, hjar]

theorem optionsAfterRedirect_headers (status : Nat) (options : Options)
    (hopt : objGet options.headers "Cookie".toList = none) :
    objGet (optionsAfterRedirect status options).headers "Cookie".toList = none := by
  unfold optionsAfterRedirect
  split
  · rfl
  · exact hopt

/-- A call of the loop keeps the agreement of the network with the history. -/
theorem cookieInv_fetchLoop (env : Env) (remaining : Nat) (url : Str) (options : Options)
    (referer : Option Str) (net : Net) (hinv : CookieInv env net)
    (hopt : objGet options.headers "Cookie".toList = none) :
    CookieInv env (fetchLoop env remaining url options referer net).1 := by
  induction remaining generalizing url options referer net with
  | zero =>
    have round := cookieInv_round env url options referer net hinv hopt
    cases h : env.fetch (net.log ++ [requestOf env url options referer net.jar]) with
    | error e =>
      rw [fetchLoop_transport env 0 url options referer net e h]
      simpa [h, jarAfterAnswer] using round
    | ok response =>
      rw [h, ← collectCookies_eq] at round
      cases hs : isRedirectStatus response.status
      · rw [fetchLoop_final env 0 url options referer net response h hs]
        exact round
      · rw [fetchLoop_exceeded env url options referer net response h hs]
        exact round
  | succ r ih =>
    have round := cookieInv_round env url options referer net hinv hopt
    cases h : env.fetch (net.log ++ [requestOf env url options referer net.jar]) with
    | error e =>
      rw [fetchLoop_transport env (r + 1) url options referer net e h]
      simpa [h, jarAfterAnswer] using round
    | ok response =>
      rw [h, ← collectCookies_eq] at round
      cases hs : isRedirectStatus response.status
      · rw [fetchLoop_final env (r + 1) url options referer net response h hs]
        exact round
      · cases hl : truthy response.location
        · rw [fetchLoop_no_location env r url options referer net response h hs hl]
          exact round
        · rw [fetchLoop_redirect env r url options referer net response h hs hl]
          exact ih _ _ _ _ round (optionsAfterRedirect_headers _ _ hopt)

theorem cookieInv_fetchWithCookies (env : Env) (url : Str) (options : Options) (net : Net)
    (n : Nat) (hinv : CookieInv env net)
    (hopt : objGet options.headers "Cookie".toList = none) :
    CookieInv env (fetchWithCookies env url options net n).1 :=
  cookieInv_fetchLoop env n url options options.referer net hinv hopt

theorem submitOptions_headers (form : ExtractedForm) (payload : Obj) :
    objGet (submitOptions form payload).headers "Cookie".toList = none := by
  rfl

/-- The network after a call of `performStatusCheck` agrees with the history
of the call. -/
theorem cookieInv_performStatusCheck (env : Env) (details : ApplicantDetails) :
    CookieInv env (performStatusCheck env details).1 := by
  have inv0 : CookieInv env { jar := [], log := [] } :=
    ⟨rfl, fun pre req post h => by simp at h⟩
  have step : ∀ (url : Str) (options : Options) (net net' : Net) (x : Except Str Fetched),
      CookieInv env net → objGet options.headers "Cookie".toList = none →
      fetchWithCookies env url options net 10 = (net', x) → CookieInv env net' := by
    intro url options net net' x hinv hopt h
    have := cookieInv_fetchWithCookies env url options net 10 hinv hopt
    rw [h] at this
    exact this
  rcases performStatusCheck_trace env details with
    ⟨e, hn, hp⟩ | ⟨norm, hn, ⟨net1, e, h1, hp⟩ | ⟨net1, step1, h1, ⟨hf1, hp⟩ |
    ⟨form1, hf1, ⟨e, hm1, hp⟩ | ⟨orgFields, hm1, ⟨net2, e, h2, hp⟩ |
    ⟨net2, step1Submit, h2, ⟨hf2, hp⟩ | ⟨form2, hf2, ⟨e, hm2, hp⟩ |
    ⟨certFields, hm2, ⟨net3, e, h3, hp⟩ | ⟨net3, step2Submit, h3, ⟨hf3, hp⟩ |
    ⟨form3, hf3, ⟨e, hm3, hp⟩ | ⟨agree, hm3, ⟨net4, e, h4, hp⟩ |
    ⟨net4, step3Submit, h4, hp⟩⟩⟩⟩⟩⟩⟩⟩⟩⟩⟩
  all_goals rw [hp]
  all_goals
    first
    | exact inv0
    | exact step e2s1 getOptions _ _ _ inv0 rfl h1
    | exact step _ _ _ _ _ (step e2s1 getOptions _ _ _ inv0 rfl h1) (submitOptions_headers _ _) h2
    | exact step _ _ _ _ _ (step _ _ _ _ _ (step e2s1 getOptions _ _ _ inv0 rfl h1)
        (submitOptions_headers _ _) h2) (submitOptions_headers _ _) h3
    | exact step _ _ _ _ _ (step _ _ _ _ _ (step _ _ _ _ _ (step e2s1 getOptions _ _ _ inv0 rfl h1)
        (submitOptions_headers _ _) h2) (submitOptions_headers _ _) h3)
        (submitOptions_headers _ _) h4

/-! ## Lemmas on the parsing of cookies -/

theorem indexOf_eq (s : Str) (c : Char) :
    indexOf s c = if c ∈ s then some (s.takeWhile (· != c)).length else none := by
  induction s with
  | nil => simp [indexOf]
  | cons d t ih =>
    by_cases h : d = c
    · subst h
      simp [indexOf, List.takeWhile]
    · have h' : ¬ c = d := fun e => h e.symm
      have hb : (d != c) = true := by simpa using h
      simp only [indexOf, h, if_false, ih, List.mem_cons, h', false_or, List.takeWhile, hb]
      split <;> simp

theorem take_length_takeWhile (p : Char → Bool) (s : Str) :
    s.take (s.takeWhile p).length = s.takeWhile p := by
  induction s with
  | nil => rfl
  | cons d t ih =>
    cases h : p d <;> simp [List.takeWhile, h, ih]

theorem drop_length_takeWhile (p : Char → Bool) (s : Str) :
    s.drop (s.takeWhile p).length = s.dropWhile p := by
  induction s with
  | nil => rfl
  | cons d t ih =>
    cases h : p d <;> simp [List.takeWhile, List.dropWhile, h, ih]

theorem takeWhile_length_pos (s : Str) (c : Char) (hc : c ∈ s) :
    0 < (s.takeWhile (· != c)).length ↔ s.head? ≠ some c := by
  cases s with
  | nil => simp at hc
  | cons d t =>
    by_cases h : d = c
    · subst h
      simp [List.takeWhile]
    · have hb : (d != c) = true := by simpa using h
      simp [List.takeWhile, hb, h]

/-- One round of the loop of `parseSetCookieHeaders`, by the cookie of the
header. -/
theorem parse_round (cookieMap : Obj) (header : Str) :
    (match indexOf (header.takeWhile (· != ';')) '=' with
      | some idx =>
        if 0 < idx then
          objSet cookieMap (trim ((header.takeWhile (· != ';')).take idx))
            (trim ((header.takeWhile (· != ';')).drop (idx + 1)))
        else cookieMap
      | none => cookieMap) =
    match cookieOfHeader header with
    | some c => objSet cookieMap c.1 c.2
    | none => cookieMap := by
  unfold cookieOfHeader
  simp only
  rw [indexOf_eq]
  by_cases hmem : '=' ∈ header.takeWhile (· != ';')
  · simp only [hmem, if_true, true_and]
    by_cases hpos : 0 < ((header.takeWhile (· != ';')).takeWhile (· != '=')).length
    · have hhead := (takeWhile_length_pos _ '=' hmem).mp hpos
      simp only [hpos, if_true, hhead, ne_eq, not_false_eq_true, take_length_takeWhile]
      rw [← List.drop_drop, drop_length_takeWhile]
    · have hhead : ¬ (header.takeWhile (· != ';')).head? ≠ some '=' :=
        fun h => hpos ((takeWhile_length_pos _ '=' hmem).mpr h)
      simp only [hpos, if_false, hhead]
  · simp only [hmem, if_false, false_and]

theorem parseSetCookieHeaders_append (hs : List Str) (h : Str) :
    parseSetCookieHeaders (hs ++ [h]) =
      match cookieOfHeader h with
      | some c => objSet (parseSetCookieHeaders hs) c.1 c.2
      | none => parseSetCookieHeaders hs := by
  unfold parseSetCookieHeaders
  rw [List.foldl_append]
  simp only [List.foldl_cons, List.foldl_nil]
  exact parse_round _ h

/-! ## Lemmas on trimming and padding -/

theorem dropWhile_head (p : Char → Bool) (l : Str) :
    l.dropWhile p = [] ∨ ∃ a t, l.dropWhile p = a :: t ∧ p a = false := by
  induction l with
  | nil => exact Or.inl rfl
  | cons d t ih =>
    cases h : p d
    · exact Or.inr ⟨d, t, by simp [List.dropWhile, h], h⟩
    · simpa [List.dropWhile, h] using ih

theorem dropWhile_append_singleton (p : Char → Bool) (x : Str) (a : Char) (ha : p a = false) :
    (x ++ [a]).dropWhile p = x.dropWhile p ++ [a] := by
  induction x with
  | nil => simp [List.dropWhile, ha]
  | cons d t ih =>
    cases h : p d <;> simp [List.dropWhile, h, ih]

theorem trimEnd_cons (a : Char) (t : Str) (ha : isWhiteSpace a = false) :
    trimEnd (a :: t) = a :: trimEnd t := by
  simp [trimEnd, dropWhile_append_singleton _ _ _ ha]

theorem trimEnd_last (t : Str) :
    trimEnd t = [] ∨ ∃ l z, trimEnd t = l ++ [z] ∧ isWhiteSpace z = false := by
  unfold trimEnd
  rcases dropWhile_head isWhiteSpace t.reverse with h | ⟨z, w, h, hz⟩
  · exact Or.inl (by simp [h])
  · exact Or.inr ⟨w.reverse, z, by simp [h], hz⟩

/-- The shape of a trimmed text: empty, or with no whitespace at its ends. -/
theorem trim_cases (s : Str) :
    trim s = [] ∨ (∃ a, trim s = [a] ∧ isWhiteSpace a = false) ∨
      ∃ a l z, trim s = a :: (l ++ [z]) ∧ isWhiteSpace a = false ∧ isWhiteSpace z = false := by
  unfold trim trimStart
  rcases dropWhile_head isWhiteSpace s with h | ⟨a, t, h, ha⟩
  · rw [h]
    exact Or.inl rfl
  · rw [h, trimEnd_cons a t ha]
    rcases trimEnd_last t with ht | ⟨l, z, ht, hz⟩
    · rw [ht]
      exact Or.inr (Or.inl ⟨a, rfl, ha⟩)
    · rw [ht]
      exact Or.inr (Or.inr ⟨a, l, z, rfl, ha, hz⟩)

theorem trim_nil : trim [] = [] := rfl

/-- Trimming a trimmed text changes nothing. -/
theorem trim_trim (s : Str) : trim (trim s) = trim s := by
  rcases trim_cases s with h | ⟨a, h, ha⟩ | ⟨a, l, z, h, ha, hz⟩
  · rw [h, trim_nil]
  · rw [h, trim_singleton a ha]
  · rw [h, trim_of_ends a z l ha hz]

/-- A text with no whitespace at its ends is left as it is. -/
theorem trim_of_no_end_space (s : Str)
    (hh : ∀ a, s.head? = some a → isWhiteSpace a = false)
    (hl : ∀ z, s.getLast? = some z → isWhiteSpace z = false) : trim s = s := by
  cases s with
  | nil => rfl
  | cons a t =>
    have ha := hh a rfl
    rcases List.eq_nil_or_concat t with ht | ⟨l, z, ht⟩
    · subst ht
      exact trim_singleton a ha
    · rw [List.concat_eq_append] at ht
      subst ht
      have e : a :: (l ++ [z]) = (a :: l) ++ [z] := rfl
      exact trim_of_ends a z l ha (hl z (by rw [e, List.getLast?_concat]))

theorem isWhiteSpace_upperChar (c : Char) : isWhiteSpace (upperChar c) = isWhiteSpace c := by
  cases h : isWhiteSpace c
  · unfold upperChar
    split
    · rename_i hc
      have key : ∀ n : Nat, 0x61 ≤ n → n ≤ 0x7A → isWhiteSpace (Char.ofNat (n - 0x20)) = false := by
        intro n h1 h2
        interval_cases n <;> decide
      exact key c.toNat hc.1 hc.2
    · exact h
  · rw [upperChar_of_isWhiteSpace c h, h]

theorem dropWhile_map_upper (s : Str) :
    (s.map upperChar).dropWhile isWhiteSpace = (s.dropWhile isWhiteSpace).map upperChar := by
  induction s with
  | nil => rfl
  | cons d t ih =>
    cases h : isWhiteSpace d <;>
      simp [List.dropWhile, isWhiteSpace_upperChar, h, ih]

/-- Trimming commutes with upper-casing. -/
theorem trim_toUpperCase (s : Str) : trim (toUpperCase s) = toUpperCase (trim s) := by
  unfold trim trimStart trimEnd toUpperCase
  rw [dropWhile_map_upper, ← List.map_reverse, dropWhile_map_upper, List.map_reverse]

theorem upperChar_upperChar (c : Char) : upperChar (upperChar c) = upperChar c := by
  unfold upperChar
  split
  · rename_i hc
    have key : ∀ n : Nat, 0x61 ≤ n → n ≤ 0x7A →
        ¬ (0x61 ≤ (Char.ofNat (n - 0x20)).toNat ∧ (Char.ofNat (n - 0x20)).toNat ≤ 0x7A) := by
      intro n h1 h2
      interval_cases n <;> decide
    rw [if_neg (key c.toNat hc.1 hc.2)]
  · rfl

theorem toUpperCase_toUpperCase (s : Str) : toUpperCase (toUpperCase s) = toUpperCase s := by
  simp [toUpperCase, upperChar_upperChar]

theorem jsLength_append (a b : Str) : jsLength (a ++ b) = jsLength a + jsLength b := by
  simp [jsLength]

theorem jsLength_replicate_zero (n : Nat) : jsLength (List.replicate n '0') = n := by
  induction n with
  | zero => rfl
  | succ n ih =>
    have e : List.replicate (n + 1) '0' = ['0'] ++ List.replicate n '0' := by
      simp [List.replicate_succ]
    rw [e, jsLength_append, ih]
    have : jsLength ['0'] = 1 := by decide
    omega

/-- Padding a trimmed text and trimming it again changes nothing. -/
theorem trim_padStart0 (s : Str) : trim (padStart0 2 (trim s)) = padStart0 2 (trim s) := by
  have h0 : isWhiteSpace '0' = false := by decide
  apply trim_of_no_end_space
  · intro a ha
    unfold padStart0 at ha
    cases hr : List.replicate (2 - jsLength (trim s)) '0' with
    | nil =>
      rw [hr, List.nil_append] at ha
      rcases trim_cases s with h | ⟨b, h, hb⟩ | ⟨b, l, z, h, hb, hz⟩
      · rw [h] at ha; simp at ha
      · rw [h] at ha; simp at ha; rw [← ha]; exact hb
      · rw [h] at ha; simp at ha; rw [← ha]; exact hb
    | cons c r =>
      rw [hr] at ha
      have hc : c = '0' := List.eq_of_mem_replicate (by rw [hr]; simp)
      simp at ha
      rw [← ha, hc]
      exact h0
  · intro z hz
    unfold padStart0 at hz
    rcases trim_cases s with h | ⟨b, h, hb⟩ | ⟨b, l, w, h, hb, hw⟩
    · rw [h, List.append_nil] at hz
      have := List.mem_of_getLast?_eq_some hz
      rw [List.eq_of_mem_replicate this]
      exact h0
    · rw [h] at hz
      simp at hz
      rw [← hz]
      exact hb
    · rw [h] at hz
      have e : List.replicate (2 - jsLength (b :: (l ++ [w]))) '0' ++ b :: (l ++ [w]) =
          (List.replicate (2 - jsLength (b :: (l ++ [w]))) '0' ++ b :: l) ++ [w] := by simp
      rw [e, List.getLast?_append] at hz
      simp at hz
      rw [← hz]
      exact hw

theorem padStart0_padStart0 (t : Str) : padStart0 2 (padStart0 2 t) = padStart0 2 t := by
  unfold padStart0
  have hlen : 2 ≤ jsLength (List.replicate (2 - jsLength t) '0' ++ t) := by
    rw [jsLength_append, jsLength_replicate_zero]
    omega
  have e : 2 - jsLength (List.replicate (2 - jsLength t) '0' ++ t) = 0 := by omega
  rw [e]
  rfl

theorem replaceRunsAux_nil_eq_filter (p : Char → Bool) (b : Bool) (s : Str) :
    replaceRunsAux p [] b s = s.filter fun c => !p c := by
  induction s generalizing b with
  | nil => rfl
  | cons c t ih =>
    cases h : p c <;> simp [replaceRunsAux, h, ih, List.filter]

/-- Removing the runs of non-digits leaves the digits, in their order. -/
theorem replaceRuns_nonDigit (s : Str) : replaceRuns isNonDigit [] s = s.filter isDigit := by
  unfold replaceRuns
  rw [replaceRunsAux_nil_eq_filter]
  congr 1
  funext c
  simp [isNonDigit]

theorem normalize_certificateNumber (env : Env) (details : ApplicantDetails) (n : Norm)
    (h : normalize env details = .ok n) :
    n.certificateNumber = (orEmpty details.certificateNumber).filter isDigit := by
  have hd : ∀ ch ∈ (orEmpty details.certificateNumber).filter isDigit, isDigit ch = true :=
    fun ch hch => (List.mem_filter.mp hch).2
  rw [(normalize_ok env details n h).2.2.2.1]
  simp only [replaceRuns_nonDigit]
  exact trim_of_no_space _ (fun d hdm => isWhiteSpace_of_isDigit d (hd d hdm))

/-- What `trim` returns is the text with its leading and trailing whitespace
removed. -/
theorem trimmed_trim (s : Str) : Trimmed s (trim s) := by
  refine ⟨s.takeWhile isWhiteSpace,
    ((s.dropWhile isWhiteSpace).reverse.takeWhile isWhiteSpace).reverse, ?_, ?_, ?_, ?_, ?_⟩
  · have e1 : s = s.takeWhile isWhiteSpace ++ s.dropWhile isWhiteSpace :=
      (List.takeWhile_append_dropWhile isWhiteSpace s).symm
    have e2 : s.dropWhile isWhiteSpace =
        trimEnd (s.dropWhile isWhiteSpace) ++
          ((s.dropWhile isWhiteSpace).reverse.takeWhile isWhiteSpace).reverse := by
      unfold trimEnd
      rw [← List.reverse_append, List.takeWhile_append_dropWhile, List.reverse_reverse]
    unfold trim trimStart
    rw [List.append_assoc, ← e2]
    exact e1
  · intro c hc
    exact List.mem_takeWhile_imp hc
  · intro c hc
    exact List.mem_takeWhile_imp (List.mem_reverse.mp hc)
  · intro a ha
    rcases trim_cases s with h | ⟨b, h, hb⟩ | ⟨b, l, z, h, hb, hz⟩
    · rw [h] at ha; simp at ha
    · rw [h] at ha; simp at ha; rw [← ha]; exact hb
    · rw [h] at ha; simp at ha; rw [← ha]; exact hb
  · intro z hz
    rcases trim_cases s with h | ⟨b, h, hb⟩ | ⟨b, l, w, h, hb, hw⟩
    · rw [h] at hz; simp at hz
    · rw [h] at hz; simp at hz; rw [← hz]; exact hb
    · rw [h] at hz
      have e : b :: (l ++ [w]) = (b :: l) ++ [w] := rfl
      rw [e, List.getLast?_concat] at hz
      simp at hz
      rw [← hz]
      exact hw

theorem find?_cons_ite {α : Type} (p : α → Bool) (a : α) (l : List α) :
    (a :: l).find? p = if p a then some a else l.find? p := by
  cases h : p a <;> simp [List.find?_cons, h]

theorem firstMatch_nil {α : Type} (fields : α) (name labelText : Str) :
    firstMatch ([] : List (Pattern × (α → Str))) fields name labelText = none := rfl

theorem firstMatch_cons {α : Type} (pattern : Pattern) (value : α → Str)
    (rules : List (Pattern × (α → Str))) (fields : α) (name labelText : Str) :
    firstMatch ((pattern, value) :: rules) fields name labelText =
      if pattern.applies name labelText then some (value fields)
      else firstMatch rules fields name labelText := by
  unfold firstMatch
  rw [find?_cons_ite]
  split <;> rfl

theorem applies_exact (n : String) (name labelText : Str) :
    (Pattern.exact n).applies name labelText = (name == n.toList) := rfl

theorem applies_keyword (w : String) (name labelText : Str) :
    (Pattern.keyword w).applies name labelText =
      (includes labelText w.toList || includes (toLowerCase name) w.toList) := rfl

theorem firstMatch_organisationRules (fields : OrgFields) (name labelText : Str) :
    firstMatch organisationRules fields name labelText =
      if name == "organisationName".toList then some fields.organisationName
      else if name == "forename".toList then some fields.forename
      else if name == "surname".toList then some fields.surname
      else if includes labelText "organisation".toList ||
          includes (toLowerCase name) "organisation".toList then some fields.organisationName
      else if includes labelText "forename".toList ||
          includes (toLowerCase name) "forename".toList then some fields.forename
      else if includes labelText "surname".toList ||
          includes (toLowerCase name) "surname".toList then some fields.surname
      else none := by
  unfold organisationRules
  simp only [firstMatch_cons, firstMatch_nil, applies_exact, applies_keyword]

theorem firstMatch_certificateRules (fields : CertFields) (name labelText : Str) :
    firstMatch certificateRules fields name labelText =
      if name == "certificateNumber".toList then some fields.certificateNumber
      else if name == "surname".toList then some fields.applicantSurname
      else if name == "dayOfBirth".toList then some fields.dob.day
      else if name == "monthOfBirth".toList then some fields.dob.month
      else if name == "yearOfBirth".toList then some fields.dob.year
      else if includes labelText "certificate".toList ||
          includes (toLowerCase name) "certificate".toList then some fields.certificateNumber
      else if includes labelText "surname".toList ||
          includes (toLowerCase name) "surname".toList then some fields.applicantSurname
      else if includes labelText "day".toList ||
          includes (toLowerCase name) "day".toList then some fields.dob.day
      else if includes labelText "month".toList ||
          includes (toLowerCase name) "month".toList then some fields.dob.month
      else if includes labelText "year".toList ||
          includes (toLowerCase name) "year".toList then some fields.dob.year
      else none := by
  unfold certificateRules
  simp only [firstMatch_cons, firstMatch_nil, applies_exact, applies_keyword]

theorem setDecided_ite (result : Obj) (name : Str) (c : Prop) [Decidable c] (value : Str)
    (x : Option Str) :
    setDecided result name (if c then some value else x) =
      if c then propSet result name value else setDecided result name x := by
  split <;> rfl

theorem setDecided_none (result : Obj) (name : Str) : setDecided result name none = result :=
  rfl

/-- The organisation mapper is the mapper of its rule table. -/
theorem populateOrganisationFields_eq (page : Page) (org : OrgFields) :
    populateOrganisationFields page org =
      mapByRules organisationRules page org (formInputs page) := by
  unfold populateOrganisationFields mapByRules formInputs
  congr 1
  funext result el
  cases hn : truthy el.name
  · rfl
  · cases hl : labelTextOf page el.id with
    | error e => simp only [hl, Bool.not_true, Bool.false_eq_true, if_false]
    | ok labelText =>
      simp only [hl, Bool.not_true, Bool.false_eq_true, if_false]
      rw [firstMatch_organisationRules]
      simp only [setDecided_ite, setDecided_none]

/-- The certificate mapper is the mapper of its rule table. -/
theorem populateCertificateFields_eq (page : Page) (cert : CertFields) :
    populateCertificateFields page cert =
      mapByRules certificateRules page cert (formInputsAndSelects page) := by
  unfold populateCertificateFields mapByRules formInputsAndSelects
  congr 1
  funext result el
  cases hn : truthy el.name
  · rfl
  · cases hl : labelTextOf page el.id with
    | error e => simp only [hl, Bool.not_true, Bool.false_eq_true, if_false]
    | ok labelText =>
      simp only [hl, Bool.not_true, Bool.false_eq_true, if_false]
      rw [firstMatch_certificateRules]
      simp only [setDecided_ite, setDecided_none]

/-- In the organisation table a field with an exact name gets the value of
that name, whatever its label. -/
theorem firstMatch_exact_organisation (org : OrgFields) (name : String) (labelText : Str)
    (value : OrgFields → Str) (h : (Pattern.exact name, value) ∈ organisationRules) :
    firstMatch organisationRules org name.toList labelText = some (value org) := by
  rw [firstMatch_organisationRules]
  simp only [organisationRules, List.mem_cons, Prod.mk.injEq, Pattern.exact.injEq,
    reduceCtorEq, false_and, List.mem_nil_iff, or_false] at h
  rcases h with ⟨h1, h2⟩ | ⟨h1, h2⟩ | ⟨h1, h2⟩ <;> subst h1 h2 <;> rfl

/-- In the certificate table a field with an exact name gets the value of
that name, whatever its label. -/
theorem firstMatch_exact_certificate (cert : CertFields) (name : String) (labelText : Str)
    (value : CertFields → Str) (h : (Pattern.exact name, value) ∈ certificateRules) :
    firstMatch certificateRules cert name.toList labelText = some (value cert) := by
  rw [firstMatch_certificateRules]
  simp only [certificateRules, List.mem_cons, Prod.mk.injEq, Pattern.exact.injEq,
    reduceCtorEq, false_and, List.mem_nil_iff, or_false] at h
  rcases h with ⟨h1, h2⟩ | ⟨h1, h2⟩ | ⟨h1, h2⟩ | ⟨h1, h2⟩ | ⟨h1, h2⟩ <;> subst h1 h2 <;> rfl

/-- A hop fails only by exceeding the redirect cap, by a redirect without
location, or by a failure of the transport. -/
theorem fetchLoop_error (env : Env) (remaining : Nat) (url : Str) (options : Options)
    (referer : Option Str) (net net' : Net) (e : Str)
    (h : fetchLoop env remaining url options referer net = (net', .error e)) :
    e = "redirect count exceeded".toList ∨ e = "redirect with no location header".toList ∨
      ∃ log, env.fetch log = .error e := by
  induction remaining generalizing url options referer net with
  | zero =>
    unfold fetchLoop at h
    simp only at h
    split at h
    · rename_i e' he
      simp only [Prod.mk.injEq, Except.error.injEq] at h
      exact Or.inr (Or.inr ⟨_, h.2 ▸ he⟩)
    · split at h
      · simp only [Prod.mk.injEq, Except.error.injEq] at h
        exact Or.inl h.2.symm
      · simp only [Prod.mk.injEq, reduceCtorEq, and_false] at h
  | succ r ih =>
    unfold fetchLoop at h
    simp only at h
    split at h
    · rename_i e' he
      simp only [Prod.mk.injEq, Except.error.injEq] at h
      exact Or.inr (Or.inr ⟨_, h.2 ▸ he⟩)
    · split at h
      · split at h
        · exact ih _ _ _ _ h
        · simp only [Prod.mk.injEq, Except.error.injEq] at h
          exact Or.inr (Or.inl h.2.symm)
      · simp only [Prod.mk.injEq, reduceCtorEq, and_false] at h

/-- Reading the input throws only at one of the three names, with the message
of the runtime for that value. -/
theorem normalize_error (env : Env) (details : ApplicantDetails) (e : Str)
    (h : normalize env details = .error e) :
    details.organisationName = .other e ∨ details.requesterForename = .other e ∨
      details.requesterSurname = .other e := by
  unfold normalize trimName at h
  cases h1 : details.organisationName <;> cases h2 : details.requesterForename <;>
    cases h3 : details.requesterSurname <;>
    simp only [h1, h2, h3, reduceCtorEq, Except.error.injEq] at h <;>
    simp [h]

/-- The label text throws only where the selector engine does. -/
theorem labelTextOf_error (page : Page) (id : Option Str) (e : Str)
    (h : labelTextOf page id = .error e) :
    ∃ i, id = some i ∧ page.labelText i = .error e := by
  unfold labelTextOf at h
  cases id with
  | none => simp [truthy] at h
  | some i =>
    refine ⟨i, rfl, ?_⟩
    split at h
    · simp only [orEmpty, Option.getD_some] at h
      split at h
      · cases h
      · rename_i e' he
        cases h
        exact he
    · cases h

/-- A loop that ends with an error took it from its callback at one of the
elements. -/
theorem eachM_error {α : Type} (f : Obj → α → Except Str Obj) (l : List α) (o : Obj) (e : Str)
    (h : eachM f o l = .error e) : ∃ o' a, a ∈ l ∧ f o' a = .error e := by
  induction l generalizing o with
  | nil => cases h
  | cons a t ih =>
    unfold eachM at h
    split at h
    · obtain ⟨o', b, hb, hf⟩ := ih _ h
      exact ⟨o', b, List.mem_cons_of_mem a hb, hf⟩
    · rename_i e' he
      cases h
      exact ⟨o, a, List.mem_cons_self a t, he⟩

/-- A filter that ends with an error took it from its callback at one of the
elements. -/
theorem filterEach_error {α : Type} (p : α → Except Str Bool) (l : List α) (e : Str)
    (h : filterEach p l = .error e) : ∃ a, a ∈ l ∧ p a = .error e := by
  induction l with
  | nil => cases h
  | cons a t ih =>
    unfold filterEach at h
    split at h
    · rename_i e' he
      cases h
      exact ⟨a, List.mem_cons_self a t, he⟩
    · split at h
      · rename_i e' he
        cases h
        obtain ⟨b, hb, hp⟩ := ih he
        exact ⟨b, List.mem_cons_of_mem a hb, hp⟩
      · cases h

/-- A mapper by rules throws only where the label selector of one of its
controls does. -/
theorem mapByRules_error {α : Type} (rules : List (Pattern × (α → Str))) (page : Page)
    (fields : α) (controls : List Control) (e : Str)
    (h : mapByRules rules page fields controls = .error e) :
    ∃ el ∈ controls, ∃ id, el.id = some id ∧ page.labelText id = .error e := by
  unfold mapByRules at h
  obtain ⟨o, el, hel, hf⟩ := eachM_error _ _ _ _ h
  refine ⟨el, hel, ?_⟩
  split at hf
  · cases hf
  · split at hf
    · rename_i e' he
      cases hf
      exact labelTextOf_error page el.id e he
    · cases hf

/-- The organisation mapper throws only where the label selector of a control
of a form of the page does. -/
theorem populateOrganisationFields_error (page : Page) (fields : OrgFields) (e : Str)
    (h : populateOrganisationFields page fields = .error e) :
    ∃ el ∈ formControls page, ∃ id, el.id = some id ∧ page.labelText id = .error e := by
  rw [populateOrganisationFields_eq] at h
  obtain ⟨el, hel, hid⟩ := mapByRules_error _ _ _ _ _ h
  exact ⟨el, (List.mem_filter.1 hel).1, hid⟩

/-- The certificate mapper throws only where the label selector of a control
of a form of the page does. -/
theorem populateCertificateFields_error (page : Page) (fields : CertFields) (e : Str)
    (h : populateCertificateFields page fields = .error e) :
    ∃ el ∈ formControls page, ∃ id, el.id = some id ∧ page.labelText id = .error e := by
  rw [populateCertificateFields_eq] at h
  obtain ⟨el, hel, hid⟩ := mapByRules_error _ _ _ _ _ h
  exact ⟨el, (List.mem_filter.1 hel).1, hid⟩

/-- The declaration step throws only where the label selector of a control of
a form of the page does. -/
theorem agreeLegalDeclaration_error (page : Page) (e : Str)
    (h : agreeLegalDeclaration page = .error e) :
    ∃ el ∈ formControls page, ∃ id, el.id = some id ∧ page.labelText id = .error e := by
  unfold agreeLegalDeclaration at h
  split at h
  · rename_i e' he
    cases h
    obtain ⟨el, hel, hp⟩ := filterEach_error _ _ _ he
    refine ⟨el, (List.mem_filter.1 hel).1, ?_⟩
    unfold declarationLabel at hp
    split at hp
    · rename_i e1 he1
      cases hp
      exact labelTextOf_error page el.id e he1
    · cases hp
  · cases h
  · cases h

/-! ## Lemmas on the upper-casing of the sample runtime -/

theorem sampleUpperCase_cons (c : Char) (s : Str) :
    sampleUpperCase (c :: s) = sampleUpperChar c ++ sampleUpperCase s := by
  simp [sampleUpperCase]

theorem sampleUpperCase_append (s t : Str) :
    sampleUpperCase (s ++ t) = sampleUpperCase s ++ sampleUpperCase t := by
  simp [sampleUpperCase]

theorem sampleUpperChar_ne_nil (c : Char) : sampleUpperChar c ≠ [] := by
  unfold sampleUpperChar
  split_ifs <;> simp

theorem sampleUpperCase_sampleUpperChar (c : Char) :
    sampleUpperCase (sampleUpperChar c) = sampleUpperChar c := by
  unfold sampleUpperChar
  split_ifs with h1 h2
  · rfl
  · generalize c.toNat = n at h1 h2 ⊢
    obtain ⟨h3, h4, h5⟩ := h2
    interval_cases n <;> rfl
  · unfold upperChar
    split_ifs with h3
    · generalize c.toNat = n at h1 h2 h3 ⊢
      obtain ⟨h4, h5⟩ := h3
      interval_cases n <;> rfl
    · simp [sampleUpperCase, sampleUpperChar, upperChar, h1, h2, h3]

/-- The upper-casing of the sample runtime leaves an upper-cased text as it
is. -/
theorem sampleUpperCase_idem (s : Str) :
    sampleUpperCase (sampleUpperCase s) = sampleUpperCase s := by
  induction s with
  | nil => rfl
  | cons c t ih =>
    rw [sampleUpperCase_cons, sampleUpperCase_append, sampleUpperCase_sampleUpperChar, ih]

theorem sampleUpperChar_not_space (c : Char) (h : isWhiteSpace c = false) :
    ∀ d ∈ sampleUpperChar c, isWhiteSpace d = false := by
  unfold sampleUpperChar
  split_ifs with h1 h2
  · decide
  · generalize c.toNat = n at h1 h2 ⊢
    obtain ⟨h3, h4, h5⟩ := h2
    interval_cases n <;> decide
  · unfold upperChar
    split_ifs with h3
    · generalize c.toNat = n at h1 h2 h3 ⊢
      obtain ⟨h4, h5⟩ := h3
      interval_cases n <;> decide
    · intro d hd
      rw [List.mem_singleton] at hd
      rw [hd]
      exact h

/-- The upper-casing of the sample runtime leaves a text without whitespace
at its ends without whitespace at its ends. -/
theorem sampleUpperCase_trimmed (s : Str) (h : trim s = s) :
    trim (sampleUpperCase s) = sampleUpperCase s := by
  obtain ⟨pre, post, _, _, _, hh, hl⟩ := trimmed_trim s
  rw [h] at hh hl
  apply trim_of_no_end_space
  · intro b hb
    cases s with
    | nil => cases hb
    | cons a t =>
      rw [sampleUpperCase_cons] at hb
      cases hu : sampleUpperChar a with
      | nil => exact absurd hu (sampleUpperChar_ne_nil a)
      | cons x xs =>
        rw [hu] at hb
        cases hb
        exact sampleUpperChar_not_space a (hh a rfl) b (by rw [hu]; exact List.mem_cons_self _ _)
  · intro z hz
    rcases List.eq_nil_or_concat s with hs | ⟨l, y, hs⟩
    · subst hs
      cases hz
    · rw [List.concat_eq_append] at hs
      subst hs
      rw [sampleUpperCase_append, List.getLast?_append] at hz
      have hy : isWhiteSpace y = false := hl y (by simp)
      have hne : sampleUpperCase [y] ≠ [] := by
        rw [sampleUpperCase_cons]
        simp [sampleUpperChar_ne_nil]
      have hmem : z ∈ sampleUpperCase [y] := by
        cases hg : (sampleUpperCase [y]).getLast? with
        | none => exact absurd (List.getLast?_eq_none_iff.1 hg) hne
        | some w =>
          rw [hg] at hz
          simp at hz
          subst hz
          exact List.mem_of_mem_getLast? hg
      rw [sampleUpperCase_cons] at hmem
      simp only [sampleUpperCase, List.flatMap_nil, List.append_nil] at hmem
      exact sampleUpperChar_not_space y hy z hmem

/-! ## Statements on the classifier and the orchestrator -/

theorem outcome_truthy (combined : Str)
    (hout : ∃ s ∈ outcomeSentences, includes combined s = true) :
    truthy (outcomeOf (outcomeTextOf combined)) = true := by
  have h := congrArg Prod.snd (outcome_cases combined)
  simp only at h
  rw [h]
  obtain ⟨s, hs, hi⟩ := hout
  simp only [outcomeSentences, List.mem_cons, List.mem_singleton, List.not_mem_nil, or_false] at hs
  by_cases h1 : includes combined sentenceClear = true
  · simp [h1, truthy]
  · by_cases h2 : includes combined sentenceCurrent = true
    · simp [h1, h2, truthy]
    · by_cases h3 : includes combined sentenceNotCurrent = true
      · simp [h1, h2, h3, truthy]
      · rcases hs with hs | hs | hs <;> subst hs <;> simp_all

theorem truthy_dateOfMatch (m : Str × List Str) : truthy (some (dateOfMatch m)) = true := by
  simp [truthy, dateOfMatch]

/-- C1. A page without error sentinel that looks like the result page, on
which the name pattern captures a non-blank name, the two date patterns and
one of the canonical outcome sentences occur, and whose leftmost certificate
number match carries the caller's 12-digit number `c`, is classified as a
success with `structured.certificateNumber = c`, and `c` is also the
normalised input. -/
theorem classify_success_of_matching_number (details : ApplicantDetails)
    (steps : List FlowStep) (finalHtml finalUrl : Str) (page : Page) (c : Str)
    (hc : details.certificateNumber = some c) (hlen : c.length = 12)
    (hdig : ∀ ch ∈ c, isDigit ch = true)
    (ha : includesCI (combinedText page) "your certificate number is invalid" = false)
    (hb : includesCI (combinedText page) "please fix the following errors" = false)
    (hc1 : includesCI (combinedText page) "details entered do not match" = false)
    (hc2 : includesCI (combinedText page) "do not match those held" = false)
    (hlooks : includesCI (trim page.title) "Certificate check results" = true ∨
      includesCI (trim page.heading) "Certificate check results" = true)
    (hname : ∃ m, Re.exec true reName (combinedText page) = some m ∧ trim (group m 1) ≠ [])
    (hdob : (Re.exec true reDob (combinedText page)).isSome = true)
    (hprint : (Re.exec true rePrintDate (combinedText page)).isSome = true)
    (hout : ∃ s ∈ outcomeSentences, includes (combinedText page) s = true)
    (hnum : ∃ m, Re.exec true reNumber (combinedText page) = some m ∧ group m 1 = c) :
    (classify details steps finalHtml finalUrl page).ok = true ∧
      (classify details steps finalHtml finalUrl page).structured.bind
        Structured.certificateNumber = some c ∧
      ∀ env n, normalize env details = .ok n → n.certificateNumber = c := by
  have hcne : c ≠ [] := by
    intro h
    simp [h] at hlen
  have hL : looksLikeSuccessPage page = true := by
    rw [looksLikeSuccessPage_eq]
    rcases hlooks with h | h <;> simp [h]
  obtain ⟨mn, hmn, hmn'⟩ := hname
  obtain ⟨mc, hmc, hmc'⟩ := hnum
  obtain ⟨md, hmd⟩ := Option.isSome_iff_exists.mp hdob
  obtain ⟨mp, hmp⟩ := Option.isSome_iff_exists.mp hprint
  have hnumber : (structuredOf (combinedText page)).certificateNumber = some c := by
    simp [structuredOf, hmc, hmc']
  have hA : hasAllCoreFields (structuredOf (combinedText page)) = true := by
    have h5 := outcome_truthy (combinedText page) hout
    have h2 := truthy_dateOfMatch md
    have h4 := truthy_dateOfMatch mp
    simp only [hasAllCoreFields, structuredOf, hmn, hmd, hmc, hmp, Option.map_some', h5, h2, h4,
      hmc', Bool.and_true, Bool.true_and, Bool.and_eq_true]
    refine ⟨?_, ?_⟩
    · simpa [truthy] using hmn'
    · simpa [truthy] using hcne
  have hM : matchesInputCert details (structuredOf (combinedText page)) = true := by
    have ht : truthy (some c) = true := by simpa [truthy] using hcne
    simp [matchesInputCert, hc, ht, hnumber, orEmpty]
  rw [classify_of_no_sentinel details steps finalHtml finalUrl page ha hb hc1 hc2]
  simp only [hL, hA, hM, Bool.not_true, Bool.or_self, Bool.false_eq_true, if_false]
  exact ⟨trivial, by simpa using hnumber,
    fun env n hn => normalize_certificateNumber_of_digits env details n c hn hc hdig⟩

set_option maxRecDepth 1000000 in
/-- C1, at the sample result page and the certificate number `001913551408`. -/
theorem classify_success_of_matching_number_witness :
    (classify (sampleDetails (some "001913551408".toList)) [] "result".toList
        "https://site/result".toList resultPage).ok = true ∧
      (classify (sampleDetails (some "001913551408".toList)) [] "result".toList
        "https://site/result".toList resultPage).structured.bind
          Structured.certificateNumber = some "001913551408".toList ∧
      ∀ env n, normalize env (sampleDetails (some "001913551408".toList)) = .ok n →
        n.certificateNumber = "001913551408".toList :=
  classify_success_of_matching_number (sampleDetails (some "001913551408".toList)) []
    "result".toList "https://site/result".toList resultPage "001913551408".toList rfl rfl
    (by decide) (by rfl) (by rfl) (by rfl) (by rfl) (Or.inl (by rfl))
    ⟨_, by rfl, by decide⟩ (by rfl) (by rfl) ⟨sentenceCurrent, by decide, by rfl⟩
    ⟨_, by rfl, by rfl⟩

/-- C2. The error sentinels are tried in the order (a), (b), (c), without
regard to case, and the first that occurs decides the result, with no
structured data: with (a) the error is `Your Certificate number is invalid`
whatever else the page holds; with (b) and not (a) it is
`Website validation failed: Please fix the following errors`, also when (c)
occurs; with (c) alone the result is still a failure without structured data. -/
theorem sentinel_priority (details : ApplicantDetails) (steps : List FlowStep)
    (finalHtml finalUrl : Str) (page : Page) :
    (includesCI (combinedText page) "your certificate number is invalid" = true →
      (classify details steps finalHtml finalUrl page).ok = false ∧
      (classify details steps finalHtml finalUrl page).error =
        some "Your Certificate number is invalid".toList ∧
      (classify details steps finalHtml finalUrl page).structured = none) ∧
    (includesCI (combinedText page) "your certificate number is invalid" = false →
      includesCI (combinedText page) "please fix the following errors" = true →
      (classify details steps finalHtml finalUrl page).ok = false ∧
      (classify details steps finalHtml finalUrl page).error =
        some "Website validation failed: Please fix the following errors".toList ∧
      (classify details steps finalHtml finalUrl page).structured = none) ∧
    (includesCI (combinedText page) "your certificate number is invalid" = false →
      includesCI (combinedText page) "please fix the following errors" = false →
      (includesCI (combinedText page) "details entered do not match" = true ∨
        includesCI (combinedText page) "do not match those held" = true) →
      (classify details steps finalHtml finalUrl page).ok = false ∧
      (classify details steps finalHtml finalUrl page).structured = none) := by
  refine ⟨fun ha => ?_, fun ha hb => ?_, fun ha hb hc => ?_⟩
  · unfold classify
    simp only [test_reInvalid, ha, if_true, siteError, and_self]
  · unfold classify
    simp only [test_reInvalid, test_reFixErrors, ha, hb, if_true, Bool.false_eq_true, if_false,
      siteError, and_self]
  · have h : (includesCI (combinedText page) "details entered do not match" ||
        includesCI (combinedText page) "do not match those held") = true := by
      rcases hc with h | h <;> simp [h]
    unfold classify
    simp only [test_reInvalid, test_reFixErrors, test_reNoMatch, ha, hb, h, if_true,
      Bool.false_eq_true, if_false, siteError, and_self]

set_option maxRecDepth 1000000 in
/-- C2, at a complete result page that also carries the three sentinels. -/
theorem sentinel_priority_witness :
    includesCI (combinedText sentinelPage) "your certificate number is invalid" = true ∧
      (classify (sampleDetails (some "001913551408".toList)) [] "result".toList
        "https://site/result".toList sentinelPage).ok = false ∧
      (classify (sampleDetails (some "001913551408".toList)) [] "result".toList
        "https://site/result".toList sentinelPage).error =
        some "Your Certificate number is invalid".toList ∧
      (classify (sampleDetails (some "001913551408".toList)) [] "result".toList
        "https://site/result".toList sentinelPage).structured = none :=
  ⟨by rfl, (sentinel_priority (sampleDetails (some "001913551408".toList)) [] "result".toList
    "https://site/result".toList sentinelPage).1 (by rfl)⟩

/-- C3. On a page without error sentinel that looks like the result page and
yields all core fields, a non-empty caller certificate number that is not
string-equal to the extracted number `n` gives the failure
`Certificate number mismatch`, with the extracted number in `structured`. -/
theorem mismatch_on_raw_certificate_number (details : ApplicantDetails)
    (steps : List FlowStep) (finalHtml finalUrl : Str) (page : Page) (c n : Str)
    (hc : details.certificateNumber = some c) (hcne : c ≠ [])
    (ha : includesCI (combinedText page) "your certificate number is invalid" = false)
    (hb : includesCI (combinedText page) "please fix the following errors" = false)
    (hc1 : includesCI (combinedText page) "details entered do not match" = false)
    (hc2 : includesCI (combinedText page) "do not match those held" = false)
    (hlooks : looksLikeSuccessPage page = true)
    (hall : hasAllCoreFields (structuredOf (combinedText page)) = true)
    (hn : (structuredOf (combinedText page)).certificateNumber = some n) (hne : n ≠ c) :
    (classify details steps finalHtml finalUrl page).ok = false ∧
      (classify details steps finalHtml finalUrl page).error =
        some "Certificate number mismatch".toList ∧
      (classify details steps finalHtml finalUrl page).structured.bind
        Structured.certificateNumber = some n := by
  have ht : truthy (some c) = true := by simpa [truthy] using hcne
  have hM : matchesInputCert details (structuredOf (combinedText page)) = false := by
    simp [matchesInputCert, hc, ht, hn, orEmpty, hne]
  rw [classify_of_no_sentinel details steps finalHtml finalUrl page ha hb hc1 hc2]
  simp [hlooks, hall, hM, hn]

set_option maxRecDepth 1000000 in
/-- C3, at the caller value `0019 1355 1408`, whose digits are the number the
sample result page carries. -/
theorem mismatch_on_raw_certificate_number_witness :
    (normalize sampleEnv (sampleDetails (some "0019 1355 1408".toList))).toOption.map
        Norm.certificateNumber = some "001913551408".toList ∧
      (classify (sampleDetails (some "0019 1355 1408".toList)) [] "result".toList
        "https://site/result".toList resultPage).ok = false ∧
      (classify (sampleDetails (some "0019 1355 1408".toList)) [] "result".toList
        "https://site/result".toList resultPage).error =
        some "Certificate number mismatch".toList ∧
      (classify (sampleDetails (some "0019 1355 1408".toList)) [] "result".toList
        "https://site/result".toList resultPage).structured.bind
          Structured.certificateNumber = some "001913551408".toList :=
  ⟨by rfl, mismatch_on_raw_certificate_number (sampleDetails (some "0019 1355 1408".toList)) []
    "result".toList "https://site/result".toList resultPage "0019 1355 1408".toList
    "001913551408".toList rfl (by decide) (by rfl) (by rfl) (by rfl) (by rfl) (by rfl) (by rfl)
    (by rfl) (by decide)⟩

/-- What a successful classification implies. -/
theorem classify_ok_true (details : ApplicantDetails) (steps : List FlowStep)
    (finalHtml finalUrl : Str) (page : Page)
    (h : (classify details steps finalHtml finalUrl page).ok = true) :
    looksLikeSuccessPage page = true ∧
      hasAllCoreFields (structuredOf (combinedText page)) = true ∧
      matchesInputCert details (structuredOf (combinedText page)) = true ∧
      (classify details steps finalHtml finalUrl page).structured =
        some (structuredOf (combinedText page)) ∧
      (classify details steps finalHtml finalUrl page).resultHtml = some finalHtml := by
  unfold classify at h ⊢
  cases ha : Re.test true reInvalid (combinedText page)
  · cases hb : Re.test true reFixErrors (combinedText page)
    · cases hc : Re.test true reNoMatch (combinedText page)
      · cases hL : looksLikeSuccessPage page <;>
          cases hA : hasAllCoreFields (structuredOf (combinedText page)) <;>
          cases hM : matchesInputCert details (structuredOf (combinedText page)) <;>
          simp [ha, hb, hc, hL, hA, hM] at h ⊢
      · simp [ha, hb, hc, siteError] at h
    · simp [ha, hb, siteError] at h
  · simp [ha, siteError] at h

theorem matchesInputCert_some (details : ApplicantDetails) (st : Structured) (c : Str)
    (hc : details.certificateNumber = some c) (hne : c ≠ [])
    (h : matchesInputCert details st = true) : st.certificateNumber = some c := by
  have ht : truthy (some c) = true := by simpa [truthy] using hne
  simpa [matchesInputCert, hc, ht, orEmpty] using h

/-- C4. Whenever the call resolves with `ok = true`, the guardrails held on
the final page (the parsed `resultHtml`): its title or first heading contains
`Certificate check results` without regard to case, the five core fields of
`structured` are present and non-empty, and a non-empty caller certificate
number is string-equal to `structured.certificateNumber`. -/
theorem success_implies_guardrails (env : Env) (details : ApplicantDetails) (net : Net)
    (r : FlowResult) (h : performStatusCheck env details = (net, .ok r))
    (hok : r.ok = true) :
    ∃ finalHtml st, r.resultHtml = some finalHtml ∧ r.structured = some st ∧
      (includesCI (trim (env.load finalHtml).title) "Certificate check results" = true ∨
        includesCI (trim (env.load finalHtml).heading) "Certificate check results" = true) ∧
      truthy st.personName = true ∧ truthy st.dateOfBirth = true ∧
      truthy st.certificateNumber = true ∧ truthy st.certificatePrintDate = true ∧
      truthy st.outcome = true ∧
      (∀ c, details.certificateNumber = some c → c ≠ [] → st.certificateNumber = some c) := by
  rcases performStatusCheck_ok env details net r h with ⟨steps, hr⟩ | ⟨steps, html, url, hr⟩
  · subst hr
    simp [navigationFailure] at hok
  · subst hr
    obtain ⟨hL, hA, hM, hs, hh⟩ := classify_ok_true details steps html url _ hok
    refine ⟨html, _, hh, hs, ?_, ?_⟩
    · rw [looksLikeSuccessPage_eq, Bool.or_eq_true] at hL
      exact hL.symm
    · simp only [hasAllCoreFields, Bool.and_eq_true] at hA
      obtain ⟨⟨⟨⟨h1, h2⟩, h3⟩, h4⟩, h5⟩ := hA
      exact ⟨h1, h2, h3, h4, h5, fun c hc hne => matchesInputCert_some details _ c hc hne hM⟩

set_option maxRecDepth 1000000 in
/-- C4, at the sample session with the certificate number of the result page. -/
theorem success_implies_guardrails_witness :
    (resolved (performStatusCheck sampleEnv (sampleDetails (some "001913551408".toList)))).ok =
        true ∧
    ∃ finalHtml st,
      (resolved (performStatusCheck sampleEnv
        (sampleDetails (some "001913551408".toList)))).resultHtml = some finalHtml ∧
      (resolved (performStatusCheck sampleEnv
        (sampleDetails (some "001913551408".toList)))).structured = some st ∧
      (includesCI (trim (sampleEnv.load finalHtml).title) "Certificate check results" = true ∨
        includesCI (trim (sampleEnv.load finalHtml).heading) "Certificate check results" =
          true) ∧
      truthy st.personName = true ∧ truthy st.dateOfBirth = true ∧
      truthy st.certificateNumber = true ∧ truthy st.certificatePrintDate = true ∧
      truthy st.outcome = true ∧
      (∀ c, (sampleDetails (some "001913551408".toList)).certificateNumber = some c → c ≠ [] →
        st.certificateNumber = some c) :=
  ⟨by decide!, success_implies_guardrails sampleEnv
    (sampleDetails (some "001913551408".toList))
    (performStatusCheck sampleEnv (sampleDetails (some "001913551408".toList))).1
    (resolved (performStatusCheck sampleEnv (sampleDetails (some "001913551408".toList))))
    (resolved_of_no_rejection _ (by decide!)) (by decide!)⟩

set_option maxRecDepth 1000000 in
/-- C5, refuted: with the caller certificate number missing, and with it
empty, the sample session resolves with `ok = true` although the page carries
the number `001913551408`. -/
theorem success_without_caller_number :
    (sampleDetails none).certificateNumber = none ∧
    (resolved (performStatusCheck sampleEnv (sampleDetails none))).ok = true ∧
    (resolved (performStatusCheck sampleEnv (sampleDetails none))).structured.bind
      Structured.certificateNumber = some "001913551408".toList ∧
    (resolved (performStatusCheck sampleEnv (sampleDetails (some [])))).ok = true ∧
    (resolved (performStatusCheck sampleEnv (sampleDetails (some [])))).structured.bind
      Structured.certificateNumber = some "001913551408".toList :=
  ⟨rfl, by decide!, by decide!, by decide!, by decide!⟩

/-- C5, amended. If the call resolves with `ok = true` and the caller supplied
a non-empty certificate number, that number is equal to
`structured.certificateNumber`. -/
theorem success_number_equal_when_supplied (env : Env) (details : ApplicantDetails)
    (net : Net) (r : FlowResult) (c : Str)
    (h : performStatusCheck env details = (net, .ok r)) (hok : r.ok = true)
    (hc : details.certificateNumber = some c) (hne : c ≠ []) :
    r.structured.bind Structured.certificateNumber = some c := by
  rcases performStatusCheck_ok env details net r h with ⟨steps, hr⟩ | ⟨steps, html, url, hr⟩
  · subst hr
    simp [navigationFailure] at hok
  · subst hr
    obtain ⟨_, _, hM, hs, _⟩ := classify_ok_true details steps html url _ hok
    rw [hs]
    exact matchesInputCert_some details _ c hc hne hM

set_option maxRecDepth 1000000 in
/-- C5, amended, at the sample session. -/
theorem success_number_equal_when_supplied_witness :
    (resolved (performStatusCheck sampleEnv (sampleDetails (some "001913551408".toList)))).ok =
        true ∧
    (resolved (performStatusCheck sampleEnv
      (sampleDetails (some "001913551408".toList)))).structured.bind
        Structured.certificateNumber = some "001913551408".toList :=
  ⟨by decide!, success_number_equal_when_supplied sampleEnv
    (sampleDetails (some "001913551408".toList))
    (performStatusCheck sampleEnv (sampleDetails (some "001913551408".toList))).1
    (resolved (performStatusCheck sampleEnv (sampleDetails (some "001913551408".toList))))
    "001913551408".toList (resolved_of_no_rejection _ (by decide!)) (by decide!) rfl
    (by decide)⟩

/-- C6. When no error sentinel occurs, the result is a failure exactly when a
guardrail fails, the failure carries the structured object, and the message
is that of the first guardrail violated, in the order: success page, all core
fields, matching certificate number. -/
theorem guardrail_priority (details : ApplicantDetails) (steps : List FlowStep)
    (finalHtml finalUrl : Str) (page : Page)
    (ha : includesCI (combinedText page) "your certificate number is invalid" = false)
    (hb : includesCI (combinedText page) "please fix the following errors" = false)
    (hc1 : includesCI (combinedText page) "details entered do not match" = false)
    (hc2 : includesCI (combinedText page) "do not match those held" = false) :
    ((classify details steps finalHtml finalUrl page).ok = false ↔
      (looksLikeSuccessPage page = false ∨
        hasAllCoreFields (structuredOf (combinedText page)) = false ∨
        matchesInputCert details (structuredOf (combinedText page)) = false)) ∧
    (classify details steps finalHtml finalUrl page).structured =
      some (structuredOf (combinedText page)) ∧
    ((classify details steps finalHtml finalUrl page).error =
        some "Unexpected page content".toList ↔
      looksLikeSuccessPage page = false) ∧
    ((classify details steps finalHtml finalUrl page).error =
        some "Incomplete result from website".toList ↔
      (looksLikeSuccessPage page = true ∧
        hasAllCoreFields (structuredOf (combinedText page)) = false)) ∧
    ((classify details steps finalHtml finalUrl page).error =
        some "Certificate number mismatch".toList ↔
      (looksLikeSuccessPage page = true ∧
        hasAllCoreFields (structuredOf (combinedText page)) = true ∧
        matchesInputCert details (structuredOf (combinedText page)) = false)) := by
  rw [classify_of_no_sentinel details steps finalHtml finalUrl page ha hb hc1 hc2]
  cases hL : looksLikeSuccessPage page <;>
    cases hA : hasAllCoreFields (structuredOf (combinedText page)) <;>
    cases hM : matchesInputCert details (structuredOf (combinedText page)) <;>
    simp

set_option maxRecDepth 1000000 in
/-- C6, at the sample result page with a caller number that differs. -/
theorem guardrail_priority_witness :
    (classify (sampleDetails (some "999999999999".toList)) [] "result".toList
        "https://site/result".toList resultPage).error =
      some "Certificate number mismatch".toList ∧
    (classify (sampleDetails (some "999999999999".toList)) [] "result".toList
        "https://site/result".toList resultPage).structured =
      some (structuredOf (combinedText resultPage)) :=
  have h := guardrail_priority (sampleDetails (some "999999999999".toList)) [] "result".toList
    "https://site/result".toList resultPage (by rfl) (by rfl) (by rfl) (by rfl)
  ⟨h.2.2.2.2.mpr ⟨by rfl, by rfl, by rfl⟩, h.2.1⟩

/-- C7. The outcome text is the first of the three canonical sentences, in
the order of `outcomeSentences`, that occurs verbatim in the combined text,
and the outcome is `clear_and_current`, `current` or `not_current`
accordingly; when none occurs both are missing. -/
theorem outcome_first_canonical_sentence (combined : Str) :
    ((structuredOf combined).outcomeText, (structuredOf combined).outcome) =
      if includes combined sentenceClear then
        (some sentenceClear, some "clear_and_current".toList)
      else if includes combined sentenceCurrent then
        (some sentenceCurrent, some "current".toList)
      else if includes combined sentenceNotCurrent then
        (some sentenceNotCurrent, some "not_current".toList)
      else (none, none) := by
  have h := outcome_cases combined
  have e1 : sentenceClear.isEmpty = false := rfl
  have e2 : sentenceCurrent.isEmpty = false := rfl
  have e3 : sentenceNotCurrent.isEmpty = false := rfl
  by_cases c1 : includes combined sentenceClear = true
  · rw [if_pos c1] at h
    obtain ⟨h1, _⟩ := Prod.mk.inj h
    simp only [structuredOf, h1, outcomeOf_sentenceClear, e1, if_pos c1, Bool.false_eq_true,
      if_false]
  · rw [if_neg c1] at h
    by_cases c2 : includes combined sentenceCurrent = true
    · rw [if_pos c2] at h
      obtain ⟨h1, _⟩ := Prod.mk.inj h
      simp only [structuredOf, h1, outcomeOf_sentenceCurrent, e2, if_neg c1, if_pos c2,
        Bool.false_eq_true, if_false]
    · rw [if_neg c2] at h
      by_cases c3 : includes combined sentenceNotCurrent = true
      · rw [if_pos c3] at h
        obtain ⟨h1, _⟩ := Prod.mk.inj h
        simp only [structuredOf, h1, outcomeOf_sentenceNotCurrent, e3, if_neg c1, if_neg c2, if_pos c3,
          Bool.false_eq_true, if_false]
      · rw [if_neg c3] at h
        obtain ⟨h1, _⟩ := Prod.mk.inj h
        simp only [structuredOf, h1, outcomeOf_nil, if_neg c1, if_neg c2, if_neg c3, List.isEmpty_nil,
          if_true]

theorem exec_of_matchHere (ci : Bool) (r : Re) (s : Str) (m : Str × List Str)
    (h : Re.matchHere ci r s = some m) : Re.exec ci r s = some m := by
  cases s with
  | nil =>
    rw [Re.exec]
    exact h
  | cons c t =>
    rw [Re.exec]
    simp only [h]

/-- The classifier when the third sentinel is the first to occur. -/
theorem classify_of_no_match (details : ApplicantDetails) (steps : List FlowStep)
    (finalHtml finalUrl : Str) (page : Page)
    (ha : includesCI (combinedText page) "your certificate number is invalid" = false)
    (hb : includesCI (combinedText page) "please fix the following errors" = false)
    (hc : includesCI (combinedText page) "details entered do not match" = true ∨
      includesCI (combinedText page) "do not match those held" = true) :
    classify details steps finalHtml finalUrl page =
      siteError
        (match Re.exec true reNoMatchSentence (combinedText page) with
         | some m => trim m.1
         | none => noMatchFallback)
        steps page finalHtml finalUrl := by
  have h : (includesCI (combinedText page) "details entered do not match" ||
      includesCI (combinedText page) "do not match those held") = true := by
    rcases hc with h | h <;> simp [h]
  unfold classify
  simp only [test_reInvalid, test_reFixErrors, test_reNoMatch, ha, hb, h, if_true,
    Bool.false_eq_true, if_false]

theorem not_isWhiteSpace_of_upper_eq_d (a : Char) (h : upperChar a = upperChar 'd') :
    isWhiteSpace a = false := by
  cases hw : isWhiteSpace a
  · rfl
  · rw [upperChar_of_isWhiteSpace a hw] at h
    subst h
    exact absurd hw (by decide)

theorem matchHere_none_of_no_occurrence (s : Str)
    (h : (toUpperCase "details entered do not match".toList).isPrefixOf (toUpperCase s) = false) :
    Re.matchHere true reNoMatchSentence s = none := by
  apply matchHere_seq_lit_none
  have hc : Re.canon true = upperChar := funext canon_true
  rw [hc]
  exact h

/-- C8, amended. When the third sentinel is the first to occur the result is
a failure.  Its error is the text that runs from the first occurrence of
`details entered do not match` (in any case) to the first period after it,
included; and it is the generic message when no period follows that first
occurrence, and when `details entered do not match` does not occur at all,
that is, when only `do not match those held` occurs. -/
theorem no_match_sentence_or_fallback (details : ApplicantDetails) (steps : List FlowStep)
    (finalHtml finalUrl : Str) (page : Page)
    (ha : includesCI (combinedText page) "your certificate number is invalid" = false)
    (hb : includesCI (combinedText page) "please fix the following errors" = false)
    (hc : includesCI (combinedText page) "details entered do not match" = true ∨
      includesCI (combinedText page) "do not match those held" = true) :
    (classify details steps finalHtml finalUrl page).ok = false ∧
    (∀ pre ph mid post, combinedText page = pre ++ (ph ++ (mid ++ '.' :: post)) →
      toUpperCase ph = toUpperCase "details entered do not match".toList →
      (∀ k, k < pre.length →
        (toUpperCase "details entered do not match".toList).isPrefixOf
          (toUpperCase ((combinedText page).drop k)) = false) →
      '.' ∉ mid →
      (classify details steps finalHtml finalUrl page).error = some (ph ++ (mid ++ ['.']))) ∧
    (∀ pre ph rest, combinedText page = pre ++ (ph ++ rest) →
      toUpperCase ph = toUpperCase "details entered do not match".toList →
      (∀ k, k < pre.length →
        (toUpperCase "details entered do not match".toList).isPrefixOf
          (toUpperCase ((combinedText page).drop k)) = false) →
      '.' ∉ rest →
      (classify details steps finalHtml finalUrl page).error = some noMatchFallback) ∧
    (includesCI (combinedText page) "details entered do not match" = false →
      (classify details steps finalHtml finalUrl page).error = some noMatchFallback) := by
  rw [classify_of_no_match details steps finalHtml finalUrl page ha hb hc]
  refine ⟨rfl, ?_, ?_, ?_⟩
  · intro pre ph mid post hcomb hph hfirst hmid
    have hskip : Re.exec true reNoMatchSentence (pre ++ (ph ++ (mid ++ '.' :: post))) =
        Re.exec true reNoMatchSentence (ph ++ (mid ++ '.' :: post)) := by
      apply exec_append_of_no_match
      intro k hk
      rw [← hcomb]
      exact matchHere_none_of_no_occurrence _ (hfirst k hk)
    have hexec := exec_of_matchHere true reNoMatchSentence _ _ (matchHere_sentence ph mid post hph hmid)
    rw [hcomb, hskip, hexec]
    cases ph with
    | nil =>
      have := length_of_upper_eq [] _ hph
      exact absurd this (by decide)
    | cons a ph' =>
      have hP : "details entered do not match".toList =
          'd' :: "etails entered do not match".toList := rfl
      rw [hP] at hph
      simp only [toUpperCase, List.map_cons, List.cons.injEq] at hph
      have hws := not_isWhiteSpace_of_upper_eq_d a hph.1
      have e : a :: ph' ++ (mid ++ ['.']) = a :: ((ph' ++ mid) ++ ['.']) := by simp
      simp only [siteError]
      rw [e, trim_of_ends a '.' (ph' ++ mid) hws (by decide)]
  · intro pre ph rest hcomb hph hfirst hrest
    have hskip : Re.exec true reNoMatchSentence (pre ++ (ph ++ rest)) =
        Re.exec true reNoMatchSentence (ph ++ rest) := by
      apply exec_append_of_no_match
      intro k hk
      rw [← hcomb]
      exact matchHere_none_of_no_occurrence _ (hfirst k hk)
    have hnone : Re.exec true reNoMatchSentence (ph ++ rest) = none := by
      apply exec_sentence_none
      rw [List.drop_left' (length_of_upper_eq ph _ hph)]
      exact hrest
    rw [hcomb, hskip, hnone]
    rfl
  · intro hno
    have hnone : Re.exec true reNoMatchSentence (combinedText page) = none := by
      apply exec_seq_lit_none
      have hcn : Re.canon true = upperChar := funext canon_true
      rw [hcn]
      exact hno
    rw [hnone]
    rfl

set_option maxRecDepth 1000000 in
/-- C8, amended, at a page with the usual sentence in capitals of its own:
the error is the text from the phrase to the first period. -/
theorem no_match_sentence_or_fallback_witness :
    combinedText usualRefusalPage =
        " Error: The ".toList ++ ("Details Entered do not match".toList ++
          (" those held on our system".toList ++ '.' :: " Please check and try again.".toList)) ∧
    (classify (sampleDetails none) [] "refusal".toList "https://site/result".toList
        usualRefusalPage).error =
      some "Details Entered do not match those held on our system.".toList :=
  ⟨by rfl,
    (no_match_sentence_or_fallback (sampleDetails none) [] "refusal".toList
      "https://site/result".toList usualRefusalPage (by rfl) (by rfl) (Or.inl (by rfl))).2.1
      " Error: The ".toList "Details Entered do not match".toList
      " those held on our system".toList " Please check and try again.".toList
      (by rfl) (by rfl) (by decide) (by decide)⟩

set_option maxRecDepth 1000000 in
/-- C8, refuted: on a page whose text is
` Sorry, the answers given do not match those held on our records.` the third
sentinel matches by its second phrase, a sentence runs from that phrase to
its period, and yet the error is the generic message, not that sentence. -/
theorem fallback_although_sentence_present :
    combinedText refusalPage =
      " Sorry, the answers given ".toList ++
        "do not match those held on our records.".toList ∧
    includesCI (combinedText refusalPage) "your certificate number is invalid" = false ∧
    includesCI (combinedText refusalPage) "please fix the following errors" = false ∧
    includesCI (combinedText refusalPage) "do not match those held" = true ∧
    (classify (sampleDetails none) [] "refusal".toList "https://site/result".toList
        refusalPage).ok = false ∧
    (classify (sampleDetails none) [] "refusal".toList "https://site/result".toList
        refusalPage).error = some noMatchFallback ∧
    (classify (sampleDetails none) [] "refusal".toList "https://site/result".toList
        refusalPage).error ≠ some "do not match those held on our records.".toList := by
  decide

theorem extractForm_of_no_form (env : Env) (page : Page) (h : page.forms = []) :
    extractForm env page = none := by
  simp [extractForm, h]

/-- C9. If the page on which the form of step `k` is expected holds no form
(`k = 1`: the answer to the initial GET; `k = 2, 3`: the answer to the
previous submission), the call resolves to exactly
`{ok: false, error: 'Unable to navigate the status check flow', steps}` with
the `k` hops made so far, and the network is left as that last hop left it:
no further request is issued.  The flow reaches that page with the input read
into `norm`, and with the overrides `orgFields` and `certFields` that the
mappers gave for the forms submitted before. -/
theorem navigation_failure_at_missing_form (env : Env) (details : ApplicantDetails)
    (norm : Norm) (hnorm : normalize env details = .ok norm) :
    (∀ net1 step1,
      fetchWithCookies env e2s1 getOptions { jar := [], log := [] } 10 = (net1, .ok step1) →
      (env.load step1.body).forms = [] →
      performStatusCheck env details =
        (net1, .ok (navigationFailure [stepOf e2s1 step1]))) ∧
    (∀ net1 step1 form1 orgFields net2 step1Submit,
      fetchWithCookies env e2s1 getOptions { jar := [], log := [] } 10 = (net1, .ok step1) →
      extractForm env (env.load step1.body) = some form1 →
      populateOrganisationFields (env.load step1.body) (orgFieldsOf norm) = .ok orgFields →
      fetchWithCookies env (submission1 env step1 form1 orgFields).1
        (submission1 env step1 form1 orgFields).2 net1 10 = (net2, .ok step1Submit) →
      (env.load step1Submit.body).forms = [] →
      performStatusCheck env details =
        (net2, .ok (navigationFailure
          [stepOf e2s1 step1,
           stepOf (submission1 env step1 form1 orgFields).1 step1Submit]))) ∧
    (∀ net1 step1 form1 orgFields net2 step1Submit form2 certFields net3 step2Submit,
      fetchWithCookies env e2s1 getOptions { jar := [], log := [] } 10 = (net1, .ok step1) →
      extractForm env (env.load step1.body) = some form1 →
      populateOrganisationFields (env.load step1.body) (orgFieldsOf norm) = .ok orgFields →
      fetchWithCookies env (submission1 env step1 form1 orgFields).1
        (submission1 env step1 form1 orgFields).2 net1 10 = (net2, .ok step1Submit) →
      extractForm env (env.load step1Submit.body) = some form2 →
      populateCertificateFields (env.load step1Submit.body) (certFieldsOf norm) =
        .ok certFields →
      fetchWithCookies env (submission2 env step1Submit form2 certFields).1
        (submission2 env step1Submit form2 certFields).2 net2 10 =
          (net3, .ok step2Submit) →
      (env.load step2Submit.body).forms = [] →
      performStatusCheck env details =
        (net3, .ok (navigationFailure
          [stepOf e2s1 step1,
           stepOf (submission1 env step1 form1 orgFields).1 step1Submit,
           stepOf (submission2 env step1Submit form2 certFields).1 step2Submit]))) := by
  refine ⟨?_, ?_, ?_⟩
  · intro net1 step1 h1 hf
    unfold performStatusCheck
    simp only [hnorm, h1, extractForm_of_no_form _ _ hf]
  · intro net1 step1 form1 orgFields net2 step1Submit h1 hf1 hm1 h2 hf
    unfold performStatusCheck
    simp only [hnorm, h1, hf1, hm1, h2, extractForm_of_no_form _ _ hf, List.singleton_append]
  · intro net1 step1 form1 orgFields net2 step1Submit form2 certFields net3 step2Submit
      h1 hf1 hm1 h2 hf2 hm2 h3 hf
    unfold performStatusCheck
    simp only [hnorm, h1, hf1, hm1, h2, hf2, hm2, h3, extractForm_of_no_form _ _ hf,
      List.singleton_append, List.cons_append, List.nil_append]

set_option maxRecDepth 1000000 in
/-- C9, at a server whose first page holds no form, and at a server whose
third page holds none: one step and one request, three steps and three
requests. -/
theorem navigation_failure_at_missing_form_witness :
    (performStatusCheck (truncatedEnv 1) (sampleDetails none) =
        ((fetchWithCookies (truncatedEnv 1) e2s1 getOptions { jar := [], log := [] } 10).1,
          .ok (navigationFailure [{ url := e2s1, status := 200 }])) ∧
      (performStatusCheck (truncatedEnv 1) (sampleDetails none)).1.log.length = 1) ∧
    ((resolved (performStatusCheck (truncatedEnv 3) (sampleDetails none))) =
        navigationFailure
          [{ url := e2s1, status := 200 },
           { url := "https://site/check?execution=e2s1".toList, status := 200 },
           { url := "https://site/check?execution=e2s2".toList, status := 200 }] ∧
      (performStatusCheck (truncatedEnv 3) (sampleDetails none)).1.log.length = 3) :=
  ⟨⟨(navigation_failure_at_missing_form (truncatedEnv 1) (sampleDetails none)
        { sampleNorm with certificateNumber := [] } (by rfl)).1
      (fetchWithCookies (truncatedEnv 1) e2s1 getOptions { jar := [], log := [] } 10).1
      (fetched (fetchWithCookies (truncatedEnv 1) e2s1 getOptions { jar := [], log := [] } 10))
      (by rfl) (by rfl), by rfl⟩,
    by decide!, by decide!⟩

set_option maxRecDepth 1000000 in
/-- C10, refuted: when the transport fails, when the server redirects without
end, and when a redirect carries no location, the call rejects with the
message of the failed hop and resolves to no result; so it does when the name
of the organisation is the number `5`, before any request, and when the label
selector of a field of the first form throws, after one request. -/
theorem rejects_when_a_hop_fails :
    rejection (performStatusCheck downEnv (sampleDetails none)) = some "fetch failed".toList ∧
    rejection (performStatusCheck loopEnv (sampleDetails none)) =
      some "redirect count exceeded".toList ∧
    (performStatusCheck loopEnv (sampleDetails none)).1.log.length = 11 ∧
    rejection (performStatusCheck noLocationEnv (sampleDetails none)) =
      some "redirect with no location header".toList ∧
    rejection (performStatusCheck sampleEnv numberNameDetails) =
      some "(details.organisationName || '').trim is not a function".toList ∧
    (performStatusCheck sampleEnv numberNameDetails).1.log.length = 0 ∧
    rejection (performStatusCheck quotedIdEnv (sampleDetails none)) =
      some ("Unmatched selector: ".toList ++ ['o', 'r', 'g', doubleQuote]) ∧
    (performStatusCheck quotedIdEnv (sampleDetails none)).1.log.length = 1 := by
  decide!

/-- C10, amended. The call rejects exactly when something in it throws, and
nothing but these three throws: the reading of one of the three names, whose
value is no string (before any request); a hop, by the redirect cap, by a
redirect without location or by the transport; the label selector of a control
of a fetched page, in a field mapper or in the declaration step.  A rejection
carries the message of that error.  Conversely an error of the reading, of the
first, second, third or fourth hop, or of the mapper of the first, second or
third form makes the call reject with that message, the network being left as
the last hop left it: no request is issued after the error. -/
theorem rejection_exactly_when_a_step_throws (env : Env) (details : ApplicantDetails) :
    (∀ net e, performStatusCheck env details = (net, .error e) →
      ((details.organisationName = .other e ∨ details.requesterForename = .other e ∨
          details.requesterSurname = .other e) ∧ net = { jar := [], log := [] }) ∨
      ((∃ url options net0, fetchWithCookies env url options net0 10 = (net, .error e)) ∧
        (e = "redirect count exceeded".toList ∨
          e = "redirect with no location header".toList ∨
          ∃ log, env.fetch log = .error e)) ∨
      (∃ url options net0 step, fetchWithCookies env url options net0 10 = (net, .ok step) ∧
        ∃ el ∈ formControls (env.load step.body), ∃ id, el.id = some id ∧
          (env.load step.body).labelText id = .error e)) ∧
    (∀ e, normalize env details = .error e →
      performStatusCheck env details = ({ jar := [], log := [] }, .error e)) ∧
    (∀ norm, normalize env details = .ok norm →
      (∀ net1 e,
        fetchWithCookies env e2s1 getOptions { jar := [], log := [] } 10 = (net1, .error e) →
        performStatusCheck env details = (net1, .error e)) ∧
      (∀ net1 step1 form1 e,
        fetchWithCookies env e2s1 getOptions { jar := [], log := [] } 10 = (net1, .ok step1) →
        extractForm env (env.load step1.body) = some form1 →
        populateOrganisationFields (env.load step1.body) (orgFieldsOf norm) = .error e →
        performStatusCheck env details = (net1, .error e)) ∧
      (∀ net1 step1 form1 orgFields net2 e,
        fetchWithCookies env e2s1 getOptions { jar := [], log := [] } 10 = (net1, .ok step1) →
        extractForm env (env.load step1.body) = some form1 →
        populateOrganisationFields (env.load step1.body) (orgFieldsOf norm) = .ok orgFields →
        fetchWithCookies env (submission1 env step1 form1 orgFields).1
          (submission1 env step1 form1 orgFields).2 net1 10 = (net2, .error e) →
        performStatusCheck env details = (net2, .error e)) ∧
      (∀ net1 step1 form1 orgFields net2 step1Submit form2 e,
        fetchWithCookies env e2s1 getOptions { jar := [], log := [] } 10 = (net1, .ok step1) →
        extractForm env (env.load step1.body) = some form1 →
        populateOrganisationFields (env.load step1.body) (orgFieldsOf norm) = .ok orgFields →
        fetchWithCookies env (submission1 env step1 form1 orgFields).1
          (submission1 env step1 form1 orgFields).2 net1 10 = (net2, .ok step1Submit) →
        extractForm env (env.load step1Submit.body) = some form2 →
        populateCertificateFields (env.load step1Submit.body) (certFieldsOf norm) =
          .error e →
        performStatusCheck env details = (net2, .error e)) ∧
      (∀ net1 step1 form1 orgFields net2 step1Submit form2 certFields net3 e,
        fetchWithCookies env e2s1 getOptions { jar := [], log := [] } 10 = (net1, .ok step1) →
        extractForm env (env.load step1.body) = some form1 →
        populateOrganisationFields (env.load step1.body) (orgFieldsOf norm) = .ok orgFields →
        fetchWithCookies env (submission1 env step1 form1 orgFields).1
          (submission1 env step1 form1 orgFields).2 net1 10 = (net2, .ok step1Submit) →
        extractForm env (env.load step1Submit.body) = some form2 →
        populateCertificateFields (env.load step1Submit.body) (certFieldsOf norm) =
          .ok certFields →
        fetchWithCookies env (submission2 env step1Submit form2 certFields).1
          (submission2 env step1Submit form2 certFields).2 net2 10 = (net3, .error e) →
        performStatusCheck env details = (net3, .error e)) ∧
      (∀ net1 step1 form1 orgFields net2 step1Submit form2 certFields net3 step2Submit form3 e,
        fetchWithCookies env e2s1 getOptions { jar := [], log := [] } 10 = (net1, .ok step1) →
        extractForm env (env.load step1.body) = some form1 →
        populateOrganisationFields (env.load step1.body) (orgFieldsOf norm) = .ok orgFields →
        fetchWithCookies env (submission1 env step1 form1 orgFields).1
          (submission1 env step1 form1 orgFields).2 net1 10 = (net2, .ok step1Submit) →
        extractForm env (env.load step1Submit.body) = some form2 →
        populateCertificateFields (env.load step1Submit.body) (certFieldsOf norm) =
          .ok certFields →
        fetchWithCookies env (submission2 env step1Submit form2 certFields).1
          (submission2 env step1Submit form2 certFields).2 net2 10 = (net3, .ok step2Submit) →
        extractForm env (env.load step2Submit.body) = some form3 →
        agreeLegalDeclaration (env.load step2Submit.body) = .error e →
        performStatusCheck env details = (net3, .error e)) ∧
      (∀ net1 step1 form1 orgFields net2 step1Submit form2 certFields net3 step2Submit form3 agree net4 e,
        fetchWithCookies env e2s1 getOptions { jar := [], log := [] } 10 = (net1, .ok step1) →
        extractForm env (env.load step1.body) = some form1 →
        populateOrganisationFields (env.load step1.body) (orgFieldsOf norm) = .ok orgFields →
        fetchWithCookies env (submission1 env step1 form1 orgFields).1
          (submission1 env step1 form1 orgFields).2 net1 10 = (net2, .ok step1Submit) →
        extractForm env (env.load step1Submit.body) = some form2 →
        populateCertificateFields (env.load step1Submit.body) (certFieldsOf norm) =
          .ok certFields →
        fetchWithCookies env (submission2 env step1Submit form2 certFields).1
          (submission2 env step1Submit form2 certFields).2 net2 10 = (net3, .ok step2Submit) →
        extractForm env (env.load step2Submit.body) = some form3 →
        agreeLegalDeclaration (env.load step2Submit.body) = .ok agree →
        fetchWithCookies env (submission3 env step2Submit form3 agree).1
          (submission3 env step2Submit form3 agree).2 net3 10 = (net4, .error e) →
        performStatusCheck env details = (net4, .error e))) := by
  refine ⟨?_, ?_, ?_⟩
  · intro net e h
    rcases performStatusCheck_trace env details with
      ⟨e', hn, hp⟩ | ⟨norm, hn, ⟨net1, e', h1, hp⟩ | ⟨net1, step1, h1, ⟨hf1, hp⟩ |
      ⟨form1, hf1, ⟨e', hm1, hp⟩ | ⟨orgFields, hm1, ⟨net2, e', h2, hp⟩ |
      ⟨net2, step1Submit, h2, ⟨hf2, hp⟩ | ⟨form2, hf2, ⟨e', hm2, hp⟩ |
      ⟨certFields, hm2, ⟨net3, e', h3, hp⟩ | ⟨net3, step2Submit, h3, ⟨hf3, hp⟩ |
      ⟨form3, hf3, ⟨e', hm3, hp⟩ | ⟨agree, hm3, ⟨net4, e', h4, hp⟩ |
      ⟨net4, step3Submit, h4, hp⟩⟩⟩⟩⟩⟩⟩⟩⟩⟩⟩
    all_goals rw [hp] at h
    all_goals simp only [Prod.mk.injEq, Except.error.injEq, reduceCtorEq, and_false] at h
    all_goals obtain ⟨hnet, he⟩ := h
    all_goals subst hnet he
    · exact Or.inl ⟨normalize_error env details _ hn, rfl⟩
    · exact Or.inr (Or.inl ⟨⟨_, _, _, h1⟩, fetchLoop_error env 10 _ _ _ _ _ _ h1⟩)
    · exact Or.inr (Or.inr ⟨_, _, _, _, h1, populateOrganisationFields_error _ _ _ hm1⟩)
    · exact Or.inr (Or.inl ⟨⟨_, _, _, h2⟩, fetchLoop_error env 10 _ _ _ _ _ _ h2⟩)
    · exact Or.inr (Or.inr ⟨_, _, _, _, h2, populateCertificateFields_error _ _ _ hm2⟩)
    · exact Or.inr (Or.inl ⟨⟨_, _, _, h3⟩, fetchLoop_error env 10 _ _ _ _ _ _ h3⟩)
    · exact Or.inr (Or.inr ⟨_, _, _, _, h3, agreeLegalDeclaration_error _ _ hm3⟩)
    · exact Or.inr (Or.inl ⟨⟨_, _, _, h4⟩, fetchLoop_error env 10 _ _ _ _ _ _ h4⟩)
  · intro e hn
    unfold performStatusCheck
    simp only [hn]
  · intro norm hn
    refine ⟨?_, ?_, ?_, ?_, ?_, ?_, ?_⟩
    · intro net1 e h1
      unfold performStatusCheck
      simp only [hn, h1]
    · intro net1 step1 form1 e h1 hf1 hm1
      unfold performStatusCheck
      simp only [hn, h1, hf1, hm1]
    · intro net1 step1 form1 orgFields net2 e h1 hf1 hm1 h2
      unfold performStatusCheck
      simp only [hn, h1, hf1, hm1, h2]
    · intro net1 step1 form1 orgFields net2 step1Submit form2 e h1 hf1 hm1 h2 hf2 hm2
      unfold performStatusCheck
      simp only [hn, h1, hf1, hm1, h2, hf2, hm2]
    · intro net1 step1 form1 orgFields net2 step1Submit form2 certFields net3 e h1 hf1 hm1 h2 hf2 hm2 h3
      unfold performStatusCheck
      simp only [hn, h1, hf1, hm1, h2, hf2, hm2, h3]
    · intro net1 step1 form1 orgFields net2 step1Submit form2 certFields net3 step2Submit form3 e h1 hf1 hm1 h2 hf2 hm2 h3 hf3 hm3
      unfold performStatusCheck
      simp only [hn, h1, hf1, hm1, h2, hf2, hm2, h3, hf3, hm3]
    · intro net1 step1 form1 orgFields net2 step1Submit form2 certFields net3 step2Submit form3 agree net4 e h1 hf1 hm1 h2 hf2 hm2 h3 hf3 hm3 h4
      unfold performStatusCheck
      simp only [hn, h1, hf1, hm1, h2, hf2, hm2, h3, hf3, hm3, h4]

set_option maxRecDepth 1000000 in
/-- C10, amended, at a network that is down: the input is read, the first hop
fails in transport and the call rejects with its message after one request. -/
theorem rejection_exactly_when_a_step_throws_witness :
    fetchWithCookies downEnv e2s1 getOptions { jar := [], log := [] } 10 =
        ({ jar := [], log := [firstRequest downEnv] }, .error "fetch failed".toList) ∧
    performStatusCheck downEnv (sampleDetails none) =
      ({ jar := [], log := [firstRequest downEnv] }, .error "fetch failed".toList) :=
  ⟨by rfl, ((rejection_exactly_when_a_step_throws downEnv (sampleDetails none)).2.2
    { sampleNorm with certificateNumber := [] } (by rfl)).1
    { jar := [], log := [firstRequest downEnv] } "fetch failed".toList (by rfl)⟩

/-! ## Statements on the session client -/

/-- C11. After a redirect with a location, within the cap, the next request
goes to the resolved location; it is a GET without body when the status is
303, or 302 with the answered request not a GET, and it keeps the method and
the body of the answered request for every other redirect. -/
theorem redirect_method_rule (env : Env) (r : Nat) (url : Str) (options : Options)
    (referer : Option Str) (net : Net) (response : Response)
    (h : env.fetch (net.log ++ [requestOf env url options referer net.jar]) = .ok response)
    (hs : isRedirectStatus response.status = true) (hl : truthy response.location = true) :
    ∃ next rest,
      (fetchLoop env (r + 1) url options referer net).1.log =
        net.log ++ requestOf env url options referer net.jar :: next :: rest ∧
      next.url = absoluteUrl env url (orEmpty response.location) ∧
      (next.method, next.body) =
        if response.status = 303 ∨ (response.status = 302 ∧
            toUpperCase (orElse (orEmpty options.method) "GET".toList) ≠ "GET".toList) then
          (some "GET".toList, none)
        else (options.method, options.body) := by
  obtain ⟨rest, hrest⟩ := fetchLoop_log env r (absoluteUrl env url (orEmpty response.location))
    (optionsAfterRedirect response.status options) (some url)
    { jar := collectCookies net.jar response
      log := net.log ++ [requestOf env url options referer net.jar] }
  refine ⟨requestOf env (absoluteUrl env url (orEmpty response.location))
    (optionsAfterRedirect response.status options) (some url)
    (collectCookies net.jar response), rest, ?_, rfl, ?_⟩
  · rw [fetchLoop_redirect env r url options referer net response h hs hl, hrest]
    simp
  · simp only [requestOf, optionsAfterRedirect, switchesToGet, Bool.or_eq_true, beq_iff_eq,
      Bool.and_eq_true, bne_iff_ne, ne_eq]
    split <;> rfl

set_option maxRecDepth 1000000 in
/-- C11, at a POST answered by 302 and at the same POST answered by 307. -/
theorem redirect_method_rule_witness :
    ((fetchWithCookies (redirectOnceEnv 302) "https://site/start".toList postOptions
        { jar := [], log := [] } 10).1.log.map fun q => (q.method, q.body)) =
      [(some "POST".toList, postOptions.body), (some "GET".toList, none)] ∧
    ((fetchWithCookies (redirectOnceEnv 307) "https://site/start".toList postOptions
        { jar := [], log := [] } 10).1.log.map fun q => (q.method, q.body)) =
      [(some "POST".toList, postOptions.body), (some "POST".toList, postOptions.body)] ∧
    ∃ next rest,
      (fetchLoop (redirectOnceEnv 302) 10 "https://site/start".toList postOptions none
        { jar := [], log := [] }).1.log =
        [] ++ requestOf (redirectOnceEnv 302) "https://site/start".toList postOptions none [] ::
          next :: rest ∧
      next.url = "https://site/next".toList ∧
      (next.method, next.body) = (some "GET".toList, none) :=
  ⟨by rfl, by rfl,
    redirect_method_rule (redirectOnceEnv 302) 9 "https://site/start".toList postOptions none
      { jar := [], log := [] }
      { status := 302, url := "https://site/start".toList, setCookie := []
        location := some "https://site/next".toList, contentType := none, body := [] }
      (by rfl) (by rfl) (by rfl)⟩

/-- C12. With cap `n` the loop issues at most `n + 1` requests whatever the
server does; a chain of `k ≤ n` redirects with location followed by a response
that is no redirect returns that response after `k + 1` requests; and a chain
of `n` redirects with location followed by one more redirect fails with
`redirect count exceeded` after `n + 1` requests.  The answers of the server
are read at the prefixes of the final log of the call. -/
theorem redirect_loop_bounded (env : Env) (n : Nat) (url : Str) (options : Options)
    (net : Net) :
    (fetchWithCookies env url options net n).1.log.length ≤ net.log.length + n + 1 ∧
    (∀ k resp, k ≤ n →
      (∀ i, i < k → ∃ r,
        env.fetch ((fetchWithCookies env url options net n).1.log.take
          (net.log.length + i + 1)) = .ok r ∧
        isRedirectStatus r.status = true ∧ truthy r.location = true) →
      env.fetch ((fetchWithCookies env url options net n).1.log.take
        (net.log.length + k + 1)) = .ok resp →
      isRedirectStatus resp.status = false →
      (fetchWithCookies env url options net n).2 =
          .ok { response := resp, body := resp.body
                contentType := orEmpty resp.contentType } ∧
        (fetchWithCookies env url options net n).1.log.length = net.log.length + k + 1) ∧
    ((∀ i, i < n → ∃ r,
        env.fetch ((fetchWithCookies env url options net n).1.log.take
          (net.log.length + i + 1)) = .ok r ∧
        isRedirectStatus r.status = true ∧ truthy r.location = true) →
      (∃ r, env.fetch ((fetchWithCookies env url options net n).1.log.take
          (net.log.length + n + 1)) = .ok r ∧ isRedirectStatus r.status = true) →
      (fetchWithCookies env url options net n).2 = .error "redirect count exceeded".toList ∧
        (fetchWithCookies env url options net n).1.log.length = net.log.length + n + 1) := by
  unfold fetchWithCookies
  refine ⟨(fetchLoop_log_length env n url options options.referer net).2, ?_, ?_⟩
  · intro k resp hk hred hlast hs
    exact fetchLoop_chain_ok env n url options options.referer net k resp hk hred hlast hs
  · intro hred hlast
    exact fetchLoop_chain_exceeded env n url options options.referer net hred hlast

set_option maxRecDepth 1000000 in
/-- C12, at a server that answers one redirect and then a page (two requests,
the page returned), and at a server that redirects without end, with the cap
10 (eleven requests, then the failure). -/
theorem redirect_loop_bounded_witness :
    ((fetchWithCookies (redirectOnceEnv 302) "https://site/start".toList getOptions
        { jar := [], log := [] } 10).2 =
        .ok { response := okResponse "https://site/next" "result", body := "result".toList
              contentType := "text/html".toList } ∧
      (fetchWithCookies (redirectOnceEnv 302) "https://site/start".toList getOptions
        { jar := [], log := [] } 10).1.log.length = 0 + 1 + 1) ∧
    ((fetchWithCookies loopEnv "https://site/a".toList getOptions { jar := [], log := [] }
        10).2 = .error "redirect count exceeded".toList ∧
      (fetchWithCookies loopEnv "https://site/a".toList getOptions { jar := [], log := [] }
        10).1.log.length = 0 + 10 + 1) :=
  ⟨(redirect_loop_bounded (redirectOnceEnv 302) 10 "https://site/start".toList getOptions
      { jar := [], log := [] }).2.1 1 (okResponse "https://site/next" "result") (by decide)
      (fun i hi => by
        obtain rfl : i = 0 := by omega
        exact ⟨_, by rfl, by rfl, by rfl⟩)
      (by rfl) (by rfl),
    (redirect_loop_bounded loopEnv 10 "https://site/a".toList getOptions
      { jar := [], log := [] }).2.2
      (fun _ _ => ⟨_, rfl, by rfl, by rfl⟩) ⟨_, rfl, by rfl⟩⟩

/-- C13. Within the cap, a redirect status without location makes the call
fail with `redirect with no location header`, the request answered being the
last one issued; and a response with any other status is returned as the
result, whatever its location header. -/
theorem redirect_needs_location (env : Env) (remaining : Nat) (url : Str) (options : Options)
    (referer : Option Str) (net : Net) (response : Response)
    (h : env.fetch (net.log ++ [requestOf env url options referer net.jar]) = .ok response) :
    (isRedirectStatus response.status = true → truthy response.location = false →
      0 < remaining →
      (fetchLoop env remaining url options referer net).2 =
          .error "redirect with no location header".toList ∧
        (fetchLoop env remaining url options referer net).1.log =
          net.log ++ [requestOf env url options referer net.jar]) ∧
    (isRedirectStatus response.status = false →
      (fetchLoop env remaining url options referer net).2 =
          .ok { response := response, body := response.body
                contentType := orEmpty response.contentType } ∧
        (fetchLoop env remaining url options referer net).1.log =
          net.log ++ [requestOf env url options referer net.jar]) ∧
    (isRedirectStatus response.status = true ↔
      (response.status = 301 ∨ response.status = 302 ∨ response.status = 303 ∨
        response.status = 307 ∨ response.status = 308)) := by
  refine ⟨?_, ?_, ?_⟩
  · intro hs hl hr
    obtain ⟨r, rfl⟩ : ∃ r, remaining = r + 1 := ⟨remaining - 1, by omega⟩
    rw [fetchLoop_no_location env r url options referer net response h hs hl]
    exact ⟨rfl, rfl⟩
  · intro hs
    rw [fetchLoop_final env remaining url options referer net response h hs]
    exact ⟨rfl, rfl⟩
  · simp [isRedirectStatus, or_assoc]

set_option maxRecDepth 1000000 in
/-- C13, at a server that answers 301 without location. -/
theorem redirect_needs_location_witness :
    (fetchWithCookies noLocationEnv "https://site/a".toList getOptions { jar := [], log := [] }
        10).2 = .error "redirect with no location header".toList ∧
      (fetchWithCookies noLocationEnv "https://site/a".toList getOptions
        { jar := [], log := [] } 10).1.log =
        [] ++ [requestOf noLocationEnv "https://site/a".toList getOptions none []] :=
  (redirect_needs_location noLocationEnv 10 "https://site/a".toList getOptions none
    { jar := [], log := [] }
    { status := 301, url := "https://site/a".toList, setCookie := [], location := none
      contentType := none, body := [] } rfl).1 (by rfl) (by rfl) (by decide)

/-- C14. Within one call the jar starts empty; each answer of the server adds
the cookies it sets and replaces the value of a name set again, nothing is
ever removed; every request of the call carries as `Cookie` header the pairs
of the jar left by the answers before it, joined with `; ` (no header while
the jar is empty); and the jar the call ends with is the jar of its whole
history. -/
theorem cookie_header_follows_jar (env : Env) (details : ApplicantDetails) :
    jarOfHistory env [] = [] ∧
    (∀ log r name, objGet (jarOfHistory env (log ++ [r])) name =
      match env.fetch (log ++ [r]) with
      | .ok response =>
        (match objGet (parseSetCookieHeaders response.setCookie) name with
         | some v => some v
         | none => objGet (jarOfHistory env log) name)
      | .error _ => objGet (jarOfHistory env log) name) ∧
    (∀ pre req post, (performStatusCheck env details).1.log = pre ++ req :: post →
      objGet req.headers "Cookie".toList =
        if 0 < (jarOfHistory env pre).length then
          some (cookieHeaderFromJar (jarOfHistory env pre))
        else none) ∧
    (performStatusCheck env details).1.jar =
      jarOfHistory env (performStatusCheck env details).1.log := by
  refine ⟨rfl, ?_, ?_, (cookieInv_performStatusCheck env details).1⟩
  · intro log r name
    rw [jarOfHistory_append]
    cases h : env.fetch (log ++ [r]) with
    | error e => rfl
    | ok response =>
      simp only [jarAfterAnswer]
      exact objGet_spread _ _ name (nodup_keys_parseSetCookieHeaders response.setCookie)
  · intro pre req post h
    exact (cookieInv_performStatusCheck env details).2 pre req post h

set_option maxRecDepth 1000000 in
/-- C14, at a server whose first answer sets `A=1` and whose second answer
sets `B=2`: the third request carries `A=1; B=2`. -/
theorem cookie_header_follows_jar_witness :
    objGet (((performStatusCheck cookieEnv (sampleDetails none)).1.log.getD 2
      emptyRequest).headers) "Cookie".toList = some "A=1; B=2".toList :=
  ((cookie_header_follows_jar cookieEnv (sampleDetails none)).2.2.1
    ((performStatusCheck cookieEnv (sampleDetails none)).1.log.take 2)
    ((performStatusCheck cookieEnv (sampleDetails none)).1.log.getD 2 emptyRequest)
    ((performStatusCheck cookieEnv (sampleDetails none)).1.log.drop 3) (by decide!)).trans
    (by decide!)

/-! ## Statements on cookies and on the normalisation of the input -/

/-- C15. The cookies parsed from a list of `Set-Cookie` headers: none for no
header; each further header contributes the cookie of its text before the
first `;` (name before the first `=`, value after it, both trimmed), and
nothing when that text has no `=` or starts with `=`; a name set again takes
the value of the later header; and every name occurs once in the result. -/
theorem cookies_of_set_cookie_headers :
    parseSetCookieHeaders [] = [] ∧
    (∀ hs h name, objGet (parseSetCookieHeaders (hs ++ [h])) name =
      match cookieOfHeader h with
      | some c => if c.1 = name then some c.2 else objGet (parseSetCookieHeaders hs) name
      | none => objGet (parseSetCookieHeaders hs) name) ∧
    (∀ hs, ((parseSetCookieHeaders hs).map Prod.fst).Nodup) := by
  refine ⟨rfl, ?_, nodup_keys_parseSetCookieHeaders⟩
  intro hs h name
  rw [parseSetCookieHeaders_append]
  cases cookieOfHeader h with
  | none => rfl
  | some c => exact objGet_objSet _ _ _ _

set_option maxRecDepth 1000000 in
/-- C15, at headers with attributes, with `=` inside the value, without `=`,
with `=` at the head, and with a name set twice. -/
theorem cookies_of_set_cookie_headers_witness :
    cookieOfHeader "sid=abc=def; Path=/; HttpOnly".toList =
      some ("sid".toList, "abc=def".toList) ∧
    cookieOfHeader "novalue; Path=/".toList = none ∧
    cookieOfHeader "=x".toList = none ∧
    parseSetCookieHeaders ["sid=abc=def; Path=/; HttpOnly".toList, "novalue; Path=/".toList,
      "=x".toList, "lang = en ; Expires=Wed".toList, "sid=second".toList] =
      [("sid".toList, "second".toList), ("lang".toList, "en".toList)] ∧
    objGet (parseSetCookieHeaders (["sid=abc=def; Path=/; HttpOnly".toList,
      "novalue; Path=/".toList] ++ ["sid=second".toList])) "sid".toList =
      some "second".toList :=
  ⟨by rfl, by rfl, by rfl, by rfl,
    (cookies_of_set_cookie_headers.2.1 ["sid=abc=def; Path=/; HttpOnly".toList,
      "novalue; Path=/".toList] "sid=second".toList "sid".toList).trans (by rfl)⟩

/-- C16. Normalising the normalised value again gives the same value, field by
field.  The surname is upper-cased by the runtime, of which two facts are
used: upper-casing an upper-cased text changes nothing, and upper-casing a
text without whitespace at its ends leaves none at its ends. -/
theorem normalize_idempotent (env : Env) (details : ApplicantDetails) (n : Norm)
    (hidem : ∀ s, env.upperCase (env.upperCase s) = env.upperCase s)
    (htrim : ∀ s, trim s = s → trim (env.upperCase s) = env.upperCase s)
    (h : normalize env details = .ok n) :
    normalize env n.toDetails = .ok n := by
  obtain ⟨ho, hf, hs, hc, ha, hd, hm, hy⟩ := normalize_ok env details n h
  have name : ∀ x t, trimName x = .ok t → trimName (.text t) = .ok t := by
    intro x t hx
    cases x with
    | missing =>
      simp only [trimName, Except.ok.injEq] at hx
      subst hx
      simp only [trimName, trim_trim]
    | text s =>
      simp only [trimName, Except.ok.injEq] at hx
      subst hx
      simp only [trimName, trim_trim]
    | other m => simp only [trimName, reduceCtorEq] at hx
  have hc2 : trim (replaceRuns isNonDigit [] n.certificateNumber) = n.certificateNumber := by
    have hdig : ∀ ch ∈ n.certificateNumber, isDigit ch = true := by
      rw [normalize_certificateNumber env details n h]
      exact fun ch hch => (List.mem_filter.mp hch).2
    have h2 : replaceRuns isNonDigit [] n.certificateNumber = n.certificateNumber :=
      replaceRunsAux_of_none _ _ _ _ (fun d hdm => by simp [isNonDigit, hdig d hdm])
    rw [h2]
    exact trim_of_no_space _ (fun d hdm => isWhiteSpace_of_isDigit d (hdig d hdm))
  have ha2 : env.upperCase (trim n.applicantSurname) = n.applicantSurname := by
    rw [ha, htrim _ (trim_trim _), hidem]
  have hd2 : padStart0 2 (trim n.dob.day) = n.dob.day := by
    rw [hd, trim_padStart0, padStart0_padStart0]
  have hm2 : padStart0 2 (trim n.dob.month) = n.dob.month := by
    rw [hm, trim_padStart0, padStart0_padStart0]
  have hy2 : trim n.dob.year = n.dob.year := by
    rw [hy, trim_trim]
  unfold normalize
  simp only [Norm.toDetails, name _ _ ho, name _ _ hf, name _ _ hs, orEmpty, Option.getD_some,
    Option.bind, hc2, ha2, hd2, hm2, hy2]

set_option maxRecDepth 1000000 in
/-- C16, at the day `5` and the surname `Müller-Straße` in the sample runtime:
the day becomes `05` and the surname `MÜLLER-STRASSE`, and they stay so. -/
theorem normalize_idempotent_witness :
    normalize sampleEnv strasseDetails = .ok strasseNorm ∧
    strasseNorm.dob.day = "05".toList ∧
    strasseNorm.applicantSurname = "MÜLLER-STRASSE".toList ∧
    normalize sampleEnv strasseNorm.toDetails = .ok strasseNorm :=
  ⟨by rfl, rfl, rfl,
    normalize_idempotent sampleEnv strasseDetails strasseNorm sampleUpperCase_idem
      sampleUpperCase_trimmed (by rfl)⟩

/-- C17. For an input made of strings the normalisation succeeds, and: the
three names of the requester are the inputs with leading and trailing
whitespace removed; the certificate number is the digits of the input in their
order; the surname of the applicant is the trimmed input upper-cased by the
runtime; day and month are the trimmed inputs with zeros put in front up to two
characters, so that one character `d` gives `0d` and two or more characters
are left as they are; the year is the trimmed input. -/
theorem normalized_fields (env : Env) (o f s c a dd mm yy : Str) :
    ∃ n, normalize env (stringDetails o f s c a dd mm yy) = .ok n ∧
    Trimmed o n.organisationName ∧
    Trimmed f n.requesterForename ∧
    Trimmed s n.requesterSurname ∧
    n.certificateNumber = c.filter isDigit ∧
    (∀ ch ∈ n.certificateNumber, isDigit ch = true) ∧
    (∃ t, Trimmed a t ∧ n.applicantSurname = env.upperCase t) ∧
    (∃ t, Trimmed dd t ∧
      n.dob.day = List.replicate (2 - jsLength t) '0' ++ t ∧
      (jsLength t = 1 → n.dob.day = '0' :: t) ∧
      (2 ≤ jsLength t → n.dob.day = t)) ∧
    (∃ t, Trimmed mm t ∧
      n.dob.month = List.replicate (2 - jsLength t) '0' ++ t ∧
      (jsLength t = 1 → n.dob.month = '0' :: t) ∧
      (2 ≤ jsLength t → n.dob.month = t)) ∧
    Trimmed yy n.dob.year := by
  have pad : ∀ x : Str, padStart0 2 (trim x) = List.replicate (2 - jsLength (trim x)) '0' ++
      trim x ∧ (jsLength (trim x) = 1 → padStart0 2 (trim x) = '0' :: trim x) ∧
      (2 ≤ jsLength (trim x) → padStart0 2 (trim x) = trim x) := by
    intro x
    refine ⟨rfl, ?_, ?_⟩
    · intro h
      simp [padStart0, h]
    · intro h
      have e : 2 - jsLength (trim x) = 0 := by omega
      simp [padStart0, e]
  have hn : normalize env (stringDetails o f s c a dd mm yy) =
      .ok { organisationName := trim o, requesterForename := trim f, requesterSurname := trim s
            certificateNumber := trim (replaceRuns isNonDigit [] c)
            applicantSurname := env.upperCase (trim a)
            dob := { day := padStart0 2 (trim dd), month := padStart0 2 (trim mm)
                     year := trim yy } } := rfl
  have hc := normalize_certificateNumber env _ _ hn
  refine ⟨_, hn, trimmed_trim o, trimmed_trim f, trimmed_trim s, hc, ?_,
    ⟨trim a, trimmed_trim a, rfl⟩,
    ⟨trim dd, trimmed_trim dd, pad dd⟩, ⟨trim mm, trimmed_trim mm, pad mm⟩, trimmed_trim yy⟩
  rw [hc]
  exact fun ch hch => (List.mem_filter.mp hch).2

set_option maxRecDepth 1000000 in
/-- C17, at an input with whitespace around every value and with a surname
that has letters outside ASCII, in the sample runtime. -/
theorem normalized_fields_witness :
    ∃ n, normalize sampleEnv (stringDetails "  Acme Care ".toList " Sam".toList "Lee\n".toList
        " 0019-1355 1408 ".toList " Müller-o'Neil ".toList " 5 ".toList "12".toList
        " 1990".toList) = .ok n ∧
      n.certificateNumber = "001913551408".toList ∧
      n.organisationName = "Acme Care".toList ∧
      n.requesterSurname = "Lee".toList ∧
      n.applicantSurname = "MÜLLER-O'NEIL".toList ∧
      n.dob.day = "05".toList ∧ n.dob.month = "12".toList ∧ n.dob.year = "1990".toList := by
  obtain ⟨n, hn, _, _, _, hc, _⟩ := normalized_fields sampleEnv "  Acme Care ".toList
    " Sam".toList "Lee\n".toList " 0019-1355 1408 ".toList " Müller-o'Neil ".toList
    " 5 ".toList "12".toList " 1990".toList
  have e : Except.ok n =
      (Except.ok
        { organisationName := "Acme Care".toList, requesterForename := "Sam".toList
          requesterSurname := "Lee".toList, certificateNumber := "001913551408".toList
          applicantSurname := "MÜLLER-O'NEIL".toList
          dob := { day := "05".toList, month := "12".toList, year := "1990".toList } } :
        Except Str Norm) := hn.symm.trans (by rfl)
  cases e
  exact ⟨_, hn, rfl, rfl, rfl, rfl, rfl, rfl, rfl⟩

/-! ## Statements on the forms and their submission -/

set_option maxRecDepth 1000000 in
/-- C18, the behaviour of the code: for a document whose first form has no
`method` attribute `extractForm` returns the method `GET`, not `POST`; the
fallback `form.method || 'POST'` of the orchestrator is then without effect,
and the step is handed to the transport as a `GET` request that carries the
form body. -/
theorem method_defaults_to_get :
    plainFormPage.forms.map Form.method = [none] ∧
    (extractForm landingEnv plainFormPage).map ExtractedForm.method = some "GET".toList ∧
    (submitOptions (extracted plainFormPage) []).method = some "GET".toList ∧
    ((performStatusCheck landingEnv (sampleDetails none)).1.log.getD 2 emptyRequest).method =
      some "GET".toList ∧
    ((performStatusCheck landingEnv (sampleDetails none)).1.log.getD 2 emptyRequest).body =
      some [("organisationName".toList, "Acme Care".toList),
            ("_eventId_submit".toList, "Continue".toList)] := by
  decide!

set_option maxRecDepth 1000000 in
/-- C19, refuted: the first request is redirected to `https://site/landing`,
the page there holds a form without action, the empty reference resolves to
the final URL, and yet the form is submitted to the URL first requested. -/
theorem first_form_without_action_goes_to_first_target :
    (fetched (fetchWithCookies landingEnv e2s1 getOptions { jar := [], log := [] }
      10)).response.url = "https://site/landing".toList ∧
    (extractForm landingEnv (landingEnv.load (fetched (fetchWithCookies landingEnv e2s1 getOptions
      { jar := [], log := [] } 10)).body)).map ExtractedForm.action = some [] ∧
    landingEnv.resolveUrl [] "https://site/landing".toList =
      some "https://site/landing".toList ∧
    ((performStatusCheck landingEnv (sampleDetails none)).1.log.map Request.url) =
      [e2s1, "https://site/landing".toList, e2s1] := by
  decide!

/-- C19, amended. Each submission is requested at `absoluteUrl` of the final
URL of the response that carried the form and of the action of the form, that
is, at the action resolved against that URL, or at the action as it stands
when it cannot be resolved; in step 1 an empty action is first replaced by the
first target URL, in steps 2 and 3 it is resolved as it is, which gives the
final URL of the response whenever the empty reference resolves to its
base. -/
theorem submission_targets (env : Env) :
    (∀ step1 form1 orgFields net1, ∃ req rest,
      (fetchWithCookies env (submission1 env step1 form1 orgFields).1
        (submission1 env step1 form1 orgFields).2 net1 10).1.log =
        net1.log ++ req :: rest ∧
      req.url = absoluteUrl env step1.response.url
        (if form1.action = [] then e2s1 else form1.action)) ∧
    (∀ step1Submit form2 certFields net2, ∃ req rest,
      (fetchWithCookies env (submission2 env step1Submit form2 certFields).1
        (submission2 env step1Submit form2 certFields).2 net2 10).1.log =
        net2.log ++ req :: rest ∧
      req.url = absoluteUrl env step1Submit.response.url form2.action ∧
      (form2.action = [] → env.resolveUrl [] step1Submit.response.url =
        some step1Submit.response.url → req.url = step1Submit.response.url)) ∧
    (∀ step2Submit form3 agree net3, ∃ req rest,
      (fetchWithCookies env (submission3 env step2Submit form3 agree).1
        (submission3 env step2Submit form3 agree).2 net3 10).1.log = net3.log ++ req :: rest ∧
      req.url = absoluteUrl env step2Submit.response.url form3.action ∧
      (form3.action = [] → env.resolveUrl [] step2Submit.response.url =
        some step2Submit.response.url → req.url = step2Submit.response.url)) ∧
    (∀ base rel, absoluteUrl env base rel =
      match env.resolveUrl rel base with
      | some url => url
      | none => rel) := by
  refine ⟨?_, ?_, ?_, ?_⟩
  · intro step1 form1 orgFields net1
    obtain ⟨rest, h⟩ := fetchLoop_log env 10 (submission1 env step1 form1 orgFields).1
      (submission1 env step1 form1 orgFields).2
      (submission1 env step1 form1 orgFields).2.referer net1
    refine ⟨_, rest, h, ?_⟩
    simp only [requestOf, submission1, orElse]
    cases hform : form1.action with
    | nil => rfl
    | cons a t => rfl
  · intro step1Submit form2 certFields net2
    obtain ⟨rest, h⟩ := fetchLoop_log env 10
      (submission2 env step1Submit form2 certFields).1
      (submission2 env step1Submit form2 certFields).2
      (submission2 env step1Submit form2 certFields).2.referer net2
    refine ⟨_, rest, h, rfl, ?_⟩
    intro ha hr
    simp only [requestOf, submission2, absoluteUrl, ha, hr, Option.getD_some]
  · intro step2Submit form3 agree net3
    obtain ⟨rest, h⟩ := fetchLoop_log env 10 (submission3 env step2Submit form3 agree).1
      (submission3 env step2Submit form3 agree).2 (submission3 env step2Submit form3 agree).2.referer net3
    refine ⟨_, rest, h, rfl, ?_⟩
    intro ha hr
    simp only [requestOf, submission3, absoluteUrl, ha, hr, Option.getD_some]
  · intro base rel
    unfold absoluteUrl
    cases env.resolveUrl rel base <;> rfl

/-- C19, amended, at a form without action found on a page whose final URL is
`https://site/landing`, in step 2: it is submitted to that URL. -/
theorem submission_targets_witness :
    ∃ req rest,
      (fetchWithCookies landingEnv
        (submission2 landingEnv
          { response := okResponse "https://site/landing" "plain", body := "plain".toList
            contentType := "text/html".toList }
          { action := [], method := "POST".toList, inputs := [] } []).1
        (submission2 landingEnv
          { response := okResponse "https://site/landing" "plain", body := "plain".toList
            contentType := "text/html".toList }
          { action := [], method := "POST".toList, inputs := [] } []).2
        { jar := [], log := [] } 10).1.log = [] ++ req :: rest ∧
      req.url = "https://site/landing".toList :=
  ((submission_targets landingEnv).2.1
    { response := okResponse "https://site/landing" "plain", body := "plain".toList
      contentType := "text/html".toList }
    { action := [], method := "POST".toList, inputs := [] } []
    { jar := [], log := [] }).imp fun _ h => h.imp fun _ h' => ⟨h'.1, h'.2.2 rfl rfl⟩

/-- C20. Both mappers decide every field by an ordered rule table, the first
rule that applies giving the value: the exact names come first, so that an
exact name wins over every keyword, and the keywords follow in their order,
each tested on the text of the label and on the lower-cased name.  The mapper
of the source and the mapper of the table read the labels through the same
selector and assign the decided value in the same way, so that they agree on
every page, also where a selector throws. -/
theorem mappers_follow_rule_tables (page : Page) (org : OrgFields) (cert : CertFields) :
    populateOrganisationFields page org =
      mapByRules organisationRules page org (formInputs page) ∧
    populateCertificateFields page cert =
      mapByRules certificateRules page cert (formInputsAndSelects page) ∧
    (∀ name labelText value,
      (Pattern.exact name, value) ∈ organisationRules →
      firstMatch organisationRules org name.toList labelText = some (value org)) ∧
    (∀ name labelText value,
      (Pattern.exact name, value) ∈ certificateRules →
      firstMatch certificateRules cert name.toList labelText = some (value cert)) :=
  ⟨populateOrganisationFields_eq page org, populateCertificateFields_eq page cert,
    firstMatch_exact_organisation org, firstMatch_exact_certificate cert⟩

set_option maxRecDepth 1000000 in
/-- C20, at a certificate page on which the field named `surname` has the
label `Applicant's surname as shown on Certificate`, a field is found by the
label `Certificate number` only, and a select has a name with the keywords
`day` and `month`: the exact name wins over the keyword `certificate`, and
the keyword `day` wins over `month`. -/
theorem mappers_follow_rule_tables_witness :
    populateCertificateFields labelledCertPage
      { certificateNumber := "001913551408".toList, applicantSurname := "DOE".toList
        dob := { day := "01".toList, month := "02".toList, year := "1990".toList } } =
      .ok [("surname".toList, "DOE".toList), ("field7".toList, "001913551408".toList),
       ("birthdayMonth".toList, "01".toList)] ∧
    firstMatch certificateRules
      { certificateNumber := "001913551408".toList, applicantSurname := "DOE".toList
        dob := { day := "01".toList, month := "02".toList, year := "1990".toList } }
      "surname".toList "applicant's surname as shown on certificate".toList =
      some "DOE".toList :=
  ⟨((mappers_follow_rule_tables labelledCertPage
    { organisationName := [], forename := [], surname := [] }
    { certificateNumber := "001913551408".toList, applicantSurname := "DOE".toList
      dob := { day := "01".toList, month := "02".toList, year := "1990".toList } }).2.1).trans
    (by rfl),
   (mappers_follow_rule_tables labelledCertPage
    { organisationName := [], forename := [], surname := [] }
    { certificateNumber := "001913551408".toList, applicantSurname := "DOE".toList
      dob := { day := "01".toList, month := "02".toList, year := "1990".toList } }).2.2.2
    "surname" "applicant's surname as shown on certificate".toList CertFields.applicantSurname
    (by simp [certificateRules])⟩

/-! ## Lemmas on the keys of the field maps -/

theorem mem_keys_objSet (o : Obj) (k v k' : Str) :
    k' ∈ (objSet o k v).map Prod.fst ↔ k' = k ∨ k' ∈ o.map Prod.fst := by
  rw [keys_objSet]
  split
  · rename_i h
    constructor
    · intro h'
      exact Or.inr h'
    · rintro (h' | h')
      · rw [h']
        exact h
      · exact h'
  · rw [List.mem_append, List.mem_singleton]
    exact Or.comm

theorem objHas_iff_mem_keys (o : Obj) (k : Str) : objHas o k = true ↔ k ∈ o.map Prod.fst := by
  unfold objHas
  simp only [List.any_eq_true, beq_iff_eq, List.mem_map]

theorem objGet_isSome_iff_mem_keys (o : Obj) (k : Str) :
    (objGet o k).isSome = true ↔ k ∈ o.map Prod.fst := by
  induction o with
  | nil => simp [objGet_nil]
  | cons e t ih =>
    obtain ⟨k1, v1⟩ := e
    rw [objGet_cons]
    by_cases h : k1 = k
    · simp [h]
    · rw [if_neg h, ih]
      simp only [List.map_cons, List.mem_cons]
      constructor
      · intro h'
        exact Or.inr h'
      · rintro (h' | h')
        · exact absurd h'.symm h
        · exact h'

theorem mem_keys_foldl {α : Type} (f : Obj → α → Obj) (P : α → Str → Prop)
    (hf : ∀ o a k, k ∈ (f o a).map Prod.fst → k ∈ o.map Prod.fst ∨ P a k)
    (l : List α) (o : Obj) (k : Str) (h : k ∈ (l.foldl f o).map Prod.fst) :
    k ∈ o.map Prod.fst ∨ ∃ a ∈ l, P a k := by
  induction l generalizing o with
  | nil => exact Or.inl h
  | cons a t ih =>
    rcases ih (f o a) h with h1 | ⟨b, hb, hP⟩
    · rcases hf o a k h1 with h2 | h2
      · exact Or.inl h2
      · exact Or.inr ⟨a, List.mem_cons_self a t, h2⟩
    · exact Or.inr ⟨b, List.mem_cons_of_mem a hb, hP⟩

theorem objGet_append (a b : Obj) (k : Str) :
    objGet (a ++ b) k =
      match objGet a k with
      | some v => some v
      | none => objGet b k := by
  induction a with
  | nil => rfl
  | cons e t ih =>
    obtain ⟨k1, v1⟩ := e
    rw [List.cons_append, objGet_cons, objGet_cons, ih]
    split <;> rfl

theorem objGet_middle (a b : Obj) (k v k' : Str) (h : k ∉ (a ++ b).map Prod.fst) :
    objGet (a ++ (k, v) :: b) k' = if k = k' then some v else objGet (a ++ b) k' := by
  rw [objGet_append, objGet_cons, objGet_append]
  by_cases hk : k = k'
  · subst hk
    have ha : objGet a k = none := by
      apply objGet_of_not_mem
      intro hm
      apply h
      rw [List.map_append]
      exact List.mem_append_left _ hm
    rw [ha, if_pos rfl]
  · simp only [if_neg hk]

/-- The lookup after a new property was inserted. -/
theorem objGet_insertProp (o : Obj) (k v k' : Str) (h : k ∉ o.map Prod.fst) :
    objGet (insertProp o k v) k' = if k = k' then some v else objGet o k' := by
  unfold insertProp
  split
  · rename_i n hn
    have hm := objGet_middle (o.takeWhile (precedesIndex n)) (o.dropWhile (precedesIndex n))
      k v k' (by rwa [List.takeWhile_append_dropWhile])
    rwa [List.takeWhile_append_dropWhile] at hm
  · have hm := objGet_middle o [] k v k' (by rwa [List.append_nil])
    rwa [List.append_nil] at hm

theorem keys_insertProp (o : Obj) (k v : Str) :
    ((insertProp o k v).map Prod.fst).Perm (k :: o.map Prod.fst) := by
  unfold insertProp
  split
  · rename_i n hn
    rw [List.map_append, List.map_cons]
    refine List.perm_middle.trans ?_
    rw [← List.map_append, List.takeWhile_append_dropWhile]
  · rw [List.map_append, List.map_cons, List.map_nil]
    exact List.perm_append_singleton k _

/-- The lookup after a property was defined. -/
theorem objGet_defineProp (o : Obj) (k v k' : Str) :
    objGet (defineProp o k v) k' = if k = k' then some v else objGet o k' := by
  unfold defineProp
  split
  · exact objGet_objSet o k v k'
  · rename_i h
    exact objGet_insertProp o k v k' (fun hm => h ((objHas_iff_mem_keys o k).2 hm))

theorem mem_keys_defineProp (o : Obj) (k v k' : Str) :
    k' ∈ (defineProp o k v).map Prod.fst ↔ k' = k ∨ k' ∈ o.map Prod.fst := by
  unfold defineProp
  split
  · exact mem_keys_objSet o k v k'
  · rw [(keys_insertProp o k v).mem_iff, List.mem_cons]

theorem nodup_keys_defineProp (o : Obj) (k v : Str) (h : (o.map Prod.fst).Nodup) :
    ((defineProp o k v).map Prod.fst).Nodup := by
  unfold defineProp
  split
  · exact nodup_keys_objSet o k v h
  · rename_i hk
    rw [(keys_insertProp o k v).nodup_iff, List.nodup_cons]
    exact ⟨fun hm => hk ((objHas_iff_mem_keys o k).2 hm), h⟩

theorem propSet_proto (o : Obj) (v : Str) : propSet o "__proto__".toList v = o := by
  unfold propSet
  rw [if_pos rfl]

theorem propSet_of_ne (o : Obj) (k v : Str) (h : k ≠ "__proto__".toList) :
    propSet o k v = defineProp o k v := by
  unfold propSet
  rw [if_neg h]

/-- The lookup after an assignment: the key `__proto__` sets nothing. -/
theorem objGet_propSet (o : Obj) (k v k' : Str) :
    objGet (propSet o k v) k' =
      if k = "__proto__".toList then objGet o k'
      else if k = k' then some v else objGet o k' := by
  by_cases h : k = "__proto__".toList
  · rw [if_pos h, h, propSet_proto]
  · rw [if_neg h, propSet_of_ne o k v h, objGet_defineProp]

theorem mem_keys_propSet (o : Obj) (k v k' : Str) :
    k' ∈ (propSet o k v).map Prod.fst ↔
      (k ≠ "__proto__".toList ∧ k' = k) ∨ k' ∈ o.map Prod.fst := by
  by_cases h : k = "__proto__".toList
  · rw [h, propSet_proto]
    constructor
    · exact fun h1 => Or.inr h1
    · rintro (⟨h1, -⟩ | h1)
      · exact absurd rfl h1
      · exact h1
  · rw [propSet_of_ne o k v h, mem_keys_defineProp]
    constructor
    · rintro (h1 | h1)
      · exact Or.inl ⟨h, h1⟩
      · exact Or.inr h1
    · rintro (⟨-, h1⟩ | h1)
      · exact Or.inl h1
      · exact Or.inr h1

theorem nodup_keys_propSet (o : Obj) (k v : Str) (h : (o.map Prod.fst).Nodup) :
    ((propSet o k v).map Prod.fst).Nodup := by
  by_cases hk : k = "__proto__".toList
  · rw [hk, propSet_proto]
    exact h
  · rw [propSet_of_ne o k v hk]
    exact nodup_keys_defineProp o k v h

/-- The lookup in `{ ...a, ...b }` when the keys of `b` are distinct: the value
of `b`, else that of `a`. -/
theorem objGet_spreadProps (a b : Obj) (k : Str) (hb : (b.map Prod.fst).Nodup) :
    objGet (spreadProps a b) k =
      match objGet b k with
      | some v => some v
      | none => objGet a k := by
  induction b generalizing a with
  | nil => rfl
  | cons e t ih =>
    obtain ⟨k1, v1⟩ := e
    simp only [List.map_cons, List.nodup_cons] at hb
    have step : spreadProps a ((k1, v1) :: t) = spreadProps (defineProp a k1 v1) t := rfl
    rw [step, ih (defineProp a k1 v1) hb.2, objGet_defineProp, objGet_cons]
    by_cases h : k1 = k
    · subst h
      have hnone : objGet t k1 = none := objGet_of_not_mem t k1 hb.1
      simp [hnone]
    · simp only [h, if_false]

theorem spreadProps_nil (a : Obj) : spreadProps a [] = a := rfl

theorem name_of_truthy (x : Option Str) (h : truthy x = true) : x = some (orEmpty x) := by
  cases x with
  | none => simp [truthy] at h
  | some s => rfl

theorem includes_eventId_submit : includes "_eventId_submit".toList "eventId".toList = true := by
  decide

/-- One step of the loop of `extractForm` assigns what the control
contributes. -/
theorem seedControl_eq (inputs : Obj) (el : Control) :
    seedControl inputs el =
      match contribution el with
      | none => inputs
      | some e => propSet inputs e.1 e.2 := by
  unfold seedControl contribution isCheckboxOrRadio isButtonOrSubmit
  cases hn : el.name with
  | none => simp [truthy]
  | some name =>
    by_cases he : name = []
    · simp [truthy, he]
    · have h1 : truthy (some name) = true := by
        cases name with
        | nil => exact absurd rfl he
        | cons a t => rfl
      have h2 : (includes name "eventId".toList || name == "_eventId_submit".toList) =
          includes name "eventId".toList := by
        by_cases h3 : name = "_eventId_submit".toList
        · rw [h3, includes_eventId_submit]
          rfl
        · have h4 : (name == "_eventId_submit".toList) = false := by simpa using h3
          rw [h4, Bool.or_false]
      simp only [h1, Bool.not_true, orEmpty, Option.getD_some, h2, if_neg he]
      simp only [Bool.false_eq_true, if_false]
      split
      · split <;> rfl
      · split
        · split <;> rfl
        · rfl

theorem foldl_seedControl (controls : List Control) (inputs : Obj) :
    controls.foldl seedControl inputs =
      (controls.filterMap contribution).foldl (fun o e => propSet o e.1 e.2) inputs := by
  induction controls generalizing inputs with
  | nil => rfl
  | cons el t ih =>
    rw [List.foldl_cons, ih, seedControl_eq]
    cases h : contribution el with
    | none => simp only [List.filterMap_cons, h]
    | some e => simp only [List.filterMap_cons, h, List.foldl_cons]

/-- The value of a key other than `__proto__` after a row of assignments is
that of the last assignment to the key, or the value before them. -/
theorem objGet_foldl_propSet (a b : Obj) (k : Str) (hk : k ≠ "__proto__".toList) :
    objGet (b.foldl (fun o e => propSet o e.1 e.2) a) k =
      match b.reverse.find? fun e => e.1 == k with
      | some e => some e.2
      | none => objGet a k := by
  induction b generalizing a with
  | nil => rfl
  | cons e t ih =>
    rw [List.foldl_cons, ih, List.reverse_cons, List.find?_append]
    cases h1 : t.reverse.find? fun e => e.1 == k with
    | some x => rfl
    | none =>
      by_cases h2 : e.1 = k
      · have h3 : e.1 ≠ "__proto__".toList := h2 ▸ hk
        have h4 : (e.1 == k) = true := by simpa using h2
        simp only [Option.none_or, objGet_propSet, find?_cons_ite, List.find?_nil, if_neg h3,
          if_pos h2, h4, if_true]
      · have h3 : (e.1 == k) = false := by simpa using h2
        simp only [Option.none_or, objGet_propSet, find?_cons_ite, List.find?_nil, if_neg h2,
          h3, Bool.false_eq_true, if_false, ite_self]

/-- A row of assignments never sets the key `__proto__`. -/
theorem proto_not_mem_foldl_propSet (a b : Obj)
    (h : "__proto__".toList ∉ a.map Prod.fst) :
    "__proto__".toList ∉ (b.foldl (fun o e => propSet o e.1 e.2) a).map Prod.fst := by
  induction b generalizing a with
  | nil => exact h
  | cons e t ih =>
    rw [List.foldl_cons]
    apply ih
    intro hm
    rcases (mem_keys_propSet a e.1 e.2 _).1 hm with ⟨h1, h2⟩ | h1
    · exact h1 h2.symm
    · exact h h1

theorem nodup_keys_foldl_propSet (a b : Obj) (h : (a.map Prod.fst).Nodup) :
    ((b.foldl (fun o e => propSet o e.1 e.2) a).map Prod.fst).Nodup :=
  nodup_keys_foldl _ b a (fun o e ho => nodup_keys_propSet o e.1 e.2 ho) h

theorem name_of_contribution (el : Control) (e : Str × Str) (h : contribution el = some e) :
    el.name = some e.1 := by
  unfold contribution at h
  cases hn : el.name with
  | none => simp [hn] at h
  | some name =>
    simp only [hn] at h
    split_ifs at h <;> cases h <;> rfl

theorem mem_keys_seeding (controls : List Control) (k : Str)
    (h : k ∈ (controls.foldl seedControl []).map Prod.fst) :
    ∃ el ∈ controls, el.name = some k := by
  rw [foldl_seedControl] at h
  rcases mem_keys_foldl (fun o (e : Str × Str) => propSet o e.1 e.2) (fun e k => k = e.1)
    (fun o e k hk => by
      rcases (mem_keys_propSet o e.1 e.2 k).1 hk with h1 | h1
      · exact Or.inr h1.2
      · exact Or.inl h1) _ [] k h with h1 | ⟨e, he, hk⟩
  · simp at h1
  · obtain ⟨el, hel, hc⟩ := List.mem_filterMap.1 he
    exact ⟨el, hel, hk ▸ name_of_contribution el e hc⟩

/-! ## The form extractor -/

/-- C22. `extractForm` returns `null` exactly when the document has no form.
Otherwise what it returns is read from the first form only: the result is the
same as on a page that has nothing but that form, its action and method are
those of that form, and every field of the map is the name of a control of
that form. -/
theorem extractForm_reads_first_form_only (env : Env) (page : Page) :
    (extractForm env page = none ↔ page.forms = []) ∧
    ∀ form rest, page.forms = form :: rest →
      extractForm env page = extractForm env (pageOfForms [form]) ∧
      ∃ ef, extractForm env page = some ef ∧ ef.action = orEmpty form.action ∧
        ef.method = env.upperCase (orElse (orEmpty form.method) "GET".toList) ∧
        ∀ k, objHas ef.inputs k = true → ∃ el ∈ form.controls, el.name = some k := by
  constructor
  · unfold extractForm
    cases page.forms with
    | nil => simp
    | cons form rest => simp
  · intro form rest h
    unfold extractForm pageOfForms
    simp only [h]
    refine ⟨trivial, _, rfl, rfl, rfl, ?_⟩
    intro k hk
    exact mem_keys_seeding form.controls k ((objHas_iff_mem_keys _ k).1 hk)

/-- C22, on a page with the organisation form followed by a search form: the
result is that of the organisation form alone. -/
theorem extractForm_reads_first_form_only_witness :
    extractForm sampleEnv twoFormPage = extractForm sampleEnv (pageOfForms [organisationForm]) :=
  ((extractForm_reads_first_form_only sampleEnv twoFormPage).2 organisationForm [searchForm]
    rfl).1

/-- C23, as far as the code goes. For every name but `__proto__` the field map
of `extractForm` gives what the reference seeding of the controls of the first
form gives: the value contributed by the last control that contributes a field
of that name.  The name `__proto__` is never a field of the map, whatever the
controls contribute, because the assignment `inputs[name] = value` sets
nothing for it. -/
theorem extractForm_seeds_by_reference (env : Env) (page : Page) (form : Form)
    (rest : List Form) (h : page.forms = form :: rest) :
    ∃ ef, extractForm env page = some ef ∧
      (∀ k, k ≠ "__proto__".toList →
        objGet ef.inputs k = referenceSeeding form.controls k) ∧
      objGet ef.inputs "__proto__".toList = none ∧
      (ef.inputs.map Prod.fst).Nodup := by
  unfold extractForm
  simp only [h]
  refine ⟨_, rfl, ?_, ?_, ?_⟩
  · intro k hk
    simp only [foldl_seedControl, objGet_foldl_propSet _ _ k hk, referenceSeeding, objGet_nil]
    cases ((form.controls.filterMap contribution).reverse.find? fun e => e.1 == k) <;> rfl
  · apply objGet_of_not_mem
    simp only [foldl_seedControl]
    exact proto_not_mem_foldl_propSet [] _ (by simp)
  · simp only [foldl_seedControl]
    exact nodup_keys_foldl_propSet [] _ List.nodup_nil

set_option maxRecDepth 1000000 in
/-- C23, on a form with controls of every kind, where the code follows the
reference (the nameless field, the unchecked checkbox and the button whose name
lacks `eventId` are left out, the radio button without a value gives `on`, the
button without a value gives `Continue`, the select gives the empty string and
the later of two fields of one name wins), and on a form with a field named
`__proto__`, where it does not: the reference seeds the field with `x`, the
map of the code has no such field. -/
theorem extractForm_seeds_by_reference_witness :
    (∃ ef, extractForm sampleEnv mixedPage = some ef ∧
      ef.inputs = [("news".toList, "yes".toList), ("colour".toList, "on".toList),
        ("_eventId_submit".toList, "Continue".toList), ("title".toList, []),
        ("token".toList, "second".toList)] ∧
      objGet ef.inputs "token".toList = referenceSeeding mixedForm.controls "token".toList) ∧
    (∃ ef, extractForm sampleEnv protoPage = some ef ∧
      ef.inputs = [("token".toList, "t".toList)] ∧
      objGet ef.inputs "__proto__".toList = none ∧
      referenceSeeding protoForm.controls "__proto__".toList = some "x".toList) := by
  constructor
  · obtain ⟨ef, h1, h2, -, -⟩ := extractForm_seeds_by_reference sampleEnv mixedPage mixedForm []
      rfl
    have e : some ef = some (extracted mixedPage) := h1.symm.trans (by rfl)
    cases e
    exact ⟨_, h1, by rfl, h2 "token".toList (by decide)⟩
  · obtain ⟨ef, h1, -, h3, -⟩ := extractForm_seeds_by_reference sampleEnv protoPage protoForm []
      rfl
    have e : some ef = some (extracted protoPage) := h1.symm.trans (by rfl)
    cases e
    exact ⟨_, h1, by rfl, h3, by rfl⟩

/-! ## Lemmas on the field mappers and the payloads -/

theorem firstMatch_eq_none {α : Type} (rules : List (Pattern × (α → Str))) (fields : α)
    (name labelText : Str) :
    firstMatch rules fields name labelText = none ↔
      ∀ rule ∈ rules, rule.1.applies name labelText = false := by
  unfold firstMatch
  simp only [Option.map_eq_none', List.find?_eq_none, Bool.not_eq_true]

/-- What holds of the object a loop starts with, and is kept by every step
that succeeds, holds of the object the loop returns. -/
theorem eachM_invariant {α : Type} (f : Obj → α → Except Str Obj) (I : Obj → Prop)
    (l : List α) (o r : Obj) (h : eachM f o l = .ok r)
    (hf : ∀ o a o', a ∈ l → I o → f o a = .ok o' → I o') (h0 : I o) : I r := by
  induction l generalizing o with
  | nil =>
    unfold eachM at h
    cases h
    exact h0
  | cons a t ih =>
    unfold eachM at h
    split at h
    · rename_i o' ho'
      exact ih o' h (fun o1 b o2 hb => hf o1 b o2 (List.mem_cons_of_mem a hb))
        (hf o a o' (List.mem_cons_self a t) h0 ho')
    · cases h

/-- A loop whose callback succeeds at every element succeeds. -/
theorem eachM_total {α : Type} (f : Obj → α → Except Str Obj) (l : List α) (o : Obj)
    (hf : ∀ o a, a ∈ l → ∃ o', f o a = .ok o') : ∃ r, eachM f o l = .ok r := by
  induction l generalizing o with
  | nil => exact ⟨o, rfl⟩
  | cons a t ih =>
    obtain ⟨o', ho'⟩ := hf o a (List.mem_cons_self a t)
    obtain ⟨r, hr⟩ := ih o' (fun o1 b hb => hf o1 b (List.mem_cons_of_mem a hb))
    refine ⟨r, ?_⟩
    unfold eachM
    simp only [ho']
    exact hr

theorem objGet_eachM_const {α : Type} (f : Obj → α → Except Str Obj) (P : α → Bool)
    (k v : Str) (l : List α) (acc r : Obj) (h : eachM f acc l = .ok r)
    (h1 : ∀ acc a o', a ∈ l → P a = true → f acc a = .ok o' → objGet o' k = some v)
    (h2 : ∀ acc a o', P a = false → f acc a = .ok o' → objGet o' k = objGet acc k) :
    objGet r k = if l.any P then some v else objGet acc k := by
  induction l generalizing acc with
  | nil =>
    unfold eachM at h
    cases h
    rfl
  | cons a t ih =>
    unfold eachM at h
    split at h
    · rename_i o' ho'
      rw [ih o' h (fun acc x o2 hx => h1 acc x o2 (List.mem_cons_of_mem a hx)), List.any_cons]
      cases hP : P a
      · rw [h2 acc a o' hP ho', Bool.false_or]
      · rw [h1 acc a o' (List.mem_cons_self a t) hP ho', Bool.true_or]
        simp
    · cases h

/-- One step of a mapper by rules that succeeds: a control without a name
changes nothing, and for a control with a name the label was read and the
decided value assigned. -/
theorem mapStep_ok {α : Type} (rules : List (Pattern × (α → Str))) (page : Page) (fields : α)
    (result : Obj) (el : Control) (o' : Obj)
    (h : (if !truthy el.name then Except.ok result
      else
        match labelTextOf page el.id with
        | .error e => .error e
        | .ok labelText =>
          .ok (setDecided result (orEmpty el.name)
            (firstMatch rules fields (orEmpty el.name) labelText))) =
      (.ok o' : Except Str Obj)) :
    (truthy el.name = false ∧ o' = result) ∨
    (truthy el.name = true ∧ ∃ label, labelTextOf page el.id = .ok label ∧
      o' = setDecided result (orEmpty el.name)
        (firstMatch rules fields (orEmpty el.name) label)) := by
  cases ht : truthy el.name
  · simp only [ht, Bool.not_false, if_true, Except.ok.injEq] at h
    exact Or.inl ⟨rfl, h.symm⟩
  · simp only [ht, Bool.not_true, Bool.false_eq_true, if_false] at h
    cases hl : labelTextOf page el.id with
    | error e => simp only [hl, reduceCtorEq] at h
    | ok label =>
      simp only [hl, Except.ok.injEq] at h
      exact Or.inr ⟨rfl, label, rfl, h.symm⟩

theorem mem_keys_setDecided (result : Obj) (name : Str) (x : Option Str) (k : Str)
    (h : k ∈ (setDecided result name x).map Prod.fst) :
    (name ≠ "__proto__".toList ∧ k = name ∧ x.isSome = true) ∨ k ∈ result.map Prod.fst := by
  cases x with
  | none => exact Or.inr h
  | some v =>
    rcases (mem_keys_propSet result name v k).1 h with ⟨h1, h2⟩ | h1
    · exact Or.inl ⟨h1, h2, rfl⟩
    · exact Or.inr h1

theorem nodup_keys_setDecided (result : Obj) (name : Str) (x : Option Str)
    (h : (result.map Prod.fst).Nodup) : ((setDecided result name x).map Prod.fst).Nodup := by
  cases x with
  | none => exact h
  | some v => exact nodup_keys_propSet result name v h

/-- Every key of the overrides of a mapper by rules is the name, other than
`__proto__`, of a control on which a rule applies. -/
theorem mem_keys_mapByRules {α : Type} (rules : List (Pattern × (α → Str))) (page : Page)
    (fields : α) (controls : List Control) (r : Obj)
    (h : mapByRules rules page fields controls = .ok r) (k : Str)
    (hk : k ∈ r.map Prod.fst) :
    ∃ el ∈ controls, el.name = some k ∧ k ≠ "__proto__".toList ∧
      ∃ label, labelTextOf page el.id = .ok label ∧
        (firstMatch rules fields k label).isSome = true := by
  unfold mapByRules at h
  refine eachM_invariant _ (fun o => ∀ k ∈ o.map Prod.fst,
      ∃ el ∈ controls, el.name = some k ∧ k ≠ "__proto__".toList ∧
        ∃ label, labelTextOf page el.id = .ok label ∧
          (firstMatch rules fields k label).isSome = true) controls [] r h ?_ ?_ k hk
  · intro o el o' hel hI ho' k hk
    rcases mapStep_ok rules page fields o el o' ho' with ⟨-, h2⟩ | ⟨ht, label, hl, h2⟩
    · rw [h2] at hk
      exact hI k hk
    · rw [h2] at hk
      rcases mem_keys_setDecided _ _ _ k hk with ⟨h3, h4, h5⟩ | h3
      · refine ⟨el, hel, ?_, h4 ▸ h3, label, hl, ?_⟩
        · rw [h4]
          exact name_of_truthy el.name ht
        · rw [h4]
          exact h5
      · exact hI k h3
  · intro k hk
    simp at hk

theorem nodup_keys_mapByRules {α : Type} (rules : List (Pattern × (α → Str))) (page : Page)
    (fields : α) (controls : List Control) (r : Obj)
    (h : mapByRules rules page fields controls = .ok r) : (r.map Prod.fst).Nodup := by
  unfold mapByRules at h
  refine eachM_invariant _ (fun o => (o.map Prod.fst).Nodup) controls [] r h ?_ List.nodup_nil
  intro o el o' _ hI ho'
  rcases mapStep_ok rules page fields o el o' ho' with ⟨-, h2⟩ | ⟨-, label, -, h2⟩
  · rw [h2]
    exact hI
  · rw [h2]
    exact nodup_keys_setDecided _ _ _ hI

/-- A name that no inspected control bears with a rule that applies is not
mapped. -/
theorem objGet_mapByRules_none {α : Type} (rules : List (Pattern × (α → Str))) (page : Page)
    (fields : α) (controls : List Control) (r : Obj)
    (h : mapByRules rules page fields controls = .ok r) (k : Str)
    (hno : ∀ el ∈ controls, el.name = some k → ∀ label, labelTextOf page el.id = .ok label →
      ∀ rule ∈ rules, rule.1.applies k label = false) :
    objGet r k = none := by
  apply objGet_of_not_mem
  intro hk
  obtain ⟨el, hel, hn, -, label, hl, hm⟩ := mem_keys_mapByRules rules page fields controls r h k hk
  rw [(firstMatch_eq_none rules fields k _).2 (hno el hel hn label hl)] at hm
  exact absurd hm (by simp)

/-- A name that every inspected control bearing it maps to the same value has
that value among the overrides, as soon as one control bears it. -/
theorem objGet_mapByRules_const {α : Type} (rules : List (Pattern × (α → Str))) (page : Page)
    (fields : α) (controls : List Control) (r : Obj)
    (h : mapByRules rules page fields controls = .ok r) (k v : Str) (hk : k ≠ [])
    (hp : k ≠ "__proto__".toList)
    (hall : ∀ el ∈ controls, el.name = some k → ∀ label, labelTextOf page el.id = .ok label →
      firstMatch rules fields k label = some v)
    (hex : ∃ el ∈ controls, el.name = some k) :
    objGet r k = some v := by
  unfold mapByRules at h
  rw [objGet_eachM_const _ (fun el => el.name == some k) k v controls [] r h]
  · have hany : controls.any (fun el => el.name == some k) = true := by
      obtain ⟨el, hel, hn⟩ := hex
      rw [List.any_eq_true]
      exact ⟨el, hel, by simp [hn]⟩
    rw [hany]
    rfl
  · intro acc el o' hel hP ho'
    have hn : el.name = some k := by simpa using hP
    have ho : orEmpty el.name = k := by rw [hn]; rfl
    rcases mapStep_ok rules page fields acc el o' ho' with ⟨ht, -⟩ | ⟨-, label, hl, h2⟩
    · rw [hn] at ht
      cases k with
      | nil => exact absurd rfl hk
      | cons a b => cases ht
    · rw [h2, ho, hall el hel hn label hl]
      simp only [setDecided, objGet_propSet, if_neg hp, if_true]
  · intro acc el o' hP ho'
    have hn : ¬ el.name = some k := by simpa using hP
    rcases mapStep_ok rules page fields acc el o' ho' with ⟨-, h2⟩ | ⟨ht, label, -, h2⟩
    · rw [h2]
    · rw [h2]
      cases firstMatch rules fields (orEmpty el.name) label with
      | none => rfl
      | some w =>
        simp only [setDecided, objGet_propSet]
        have hne : ¬ orEmpty el.name = k := by
          intro he
          apply hn
          rw [name_of_truthy el.name ht, he]
        simp only [if_neg hne, ite_self]

/-- A mapper by rules succeeds on a page whose label selectors evaluate. -/
theorem mapByRules_total {α : Type} (rules : List (Pattern × (α → Str))) (page : Page)
    (fields : α) (controls : List Control)
    (hl : ∀ el ∈ controls, ∃ label, labelTextOf page el.id = .ok label) :
    ∃ r, mapByRules rules page fields controls = .ok r := by
  unfold mapByRules
  apply eachM_total
  intro o el hel
  obtain ⟨label, hlabel⟩ := hl el hel
  cases ht : truthy el.name
  · exact ⟨o, by simp only [ht, Bool.not_false, if_true]⟩
  · exact ⟨setDecided o (orEmpty el.name) (firstMatch rules fields (orEmpty el.name) label),
      by simp only [ht, Bool.not_true, Bool.false_eq_true, if_false, hlabel]⟩

theorem objGet_withSubmitEvent (inputs : Obj) (k : Str) :
    objGet (withSubmitEvent inputs) k =
      if k = submitEvent then some ((objGet inputs k).getD "Continue".toList)
      else objGet inputs k := by
  unfold withSubmitEvent
  by_cases hk : k = submitEvent
  · rw [if_pos hk, hk]
    by_cases hh : objHas inputs submitEvent = true
    · have h1 : objHas inputs "_eventId_submit".toList = true := hh
      simp only [h1, Bool.not_true, Bool.false_eq_true, if_false]
      have h2 := (objGet_isSome_iff_mem_keys inputs submitEvent).2
        ((objHas_iff_mem_keys inputs submitEvent).1 hh)
      cases h3 : objGet inputs submitEvent with
      | none => rw [h3] at h2; exact absurd h2 (by simp)
      | some v => rfl
    · have h1 : objHas inputs "_eventId_submit".toList = false := by simpa using hh
      simp only [h1, Bool.not_false, if_true]
      have h2 : objGet inputs submitEvent = none := by
        apply objGet_of_not_mem
        intro hm
        exact hh ((objHas_iff_mem_keys inputs submitEvent).2 hm)
      rw [h2, objGet_objSet]
      simp [submitEvent]
  · rw [if_neg hk]
    split
    · rw [objGet_objSet, if_neg]
      intro h
      exact hk h.symm
    · rfl

theorem body_submitOptions (form : ExtractedForm) (payload : Obj) :
    (submitOptions form payload).body = some payload := rfl

theorem payloadOf_submission1 (env : Env) (step : Fetched) (form : ExtractedForm)
    (overrides : Obj) :
    payloadOf (submission1 env step form overrides) =
      spreadProps (withSubmitEvent form.inputs) overrides := rfl

theorem payloadOf_submission2 (env : Env) (step : Fetched) (form : ExtractedForm)
    (overrides : Obj) :
    payloadOf (submission2 env step form overrides) =
      spreadProps (withSubmitEvent form.inputs) overrides := rfl

theorem payloadOf_submission3 (env : Env) (step : Fetched) (form : ExtractedForm)
    (overrides : Obj) :
    payloadOf (submission3 env step form overrides) =
      spreadProps (withSubmitEvent form.inputs) overrides := rfl

theorem nodup_keys_populateOrganisationFields (page : Page) (org : OrgFields) (r : Obj)
    (h : populateOrganisationFields page org = .ok r) : (r.map Prod.fst).Nodup := by
  rw [populateOrganisationFields_eq] at h
  exact nodup_keys_mapByRules _ _ _ _ r h

theorem nodup_keys_populateCertificateFields (page : Page) (cert : CertFields) (r : Obj)
    (h : populateCertificateFields page cert = .ok r) : (r.map Prod.fst).Nodup := by
  rw [populateCertificateFields_eq] at h
  exact nodup_keys_mapByRules _ _ _ _ r h

/-- A filter whose callback succeeds keeps elements of the list on which the
callback gave `true`. -/
theorem filterEach_mem {α : Type} (p : α → Except Str Bool) (l r : List α)
    (h : filterEach p l = .ok r) : ∀ a ∈ r, a ∈ l ∧ p a = .ok true := by
  induction l generalizing r with
  | nil =>
    unfold filterEach at h
    cases h
    intro a ha
    cases ha
  | cons b t ih =>
    unfold filterEach at h
    split at h
    · cases h
    · rename_i keep hkeep
      split at h
      · cases h
      · rename_i rest hrest
        simp only [Except.ok.injEq] at h
        intro a ha
        cases keep
        · simp only [Bool.false_eq_true, if_false] at h
          rw [← h] at ha
          exact ⟨List.mem_cons_of_mem b (ih rest hrest a ha).1, (ih rest hrest a ha).2⟩
        · simp only [if_true] at h
          rw [← h] at ha
          rcases List.mem_cons.1 ha with ha | ha
          · rw [ha]
            exact ⟨List.mem_cons_self b t, hkeep⟩
          · exact ⟨List.mem_cons_of_mem b (ih rest hrest a ha).1, (ih rest hrest a ha).2⟩

/-- A filter whose callback succeeds at every element succeeds. -/
theorem filterEach_total {α : Type} (p : α → Except Str Bool) (l : List α)
    (h : ∀ a ∈ l, ∃ b, p a = .ok b) : ∃ r, filterEach p l = .ok r := by
  induction l with
  | nil => exact ⟨[], rfl⟩
  | cons a t ih =>
    obtain ⟨b, hb⟩ := h a (List.mem_cons_self a t)
    obtain ⟨r, hr⟩ := ih (fun x hx => h x (List.mem_cons_of_mem a hx))
    refine ⟨if b then a :: r else r, ?_⟩
    unfold filterEach
    simp only [hb, hr]

/-- The first element that a filter keeps is the first on which its callback
gives `true`. -/
theorem filterEach_first {α : Type} (p : α → Except Str Bool) (pre : List α) (el : α)
    (post : List α) (hpre : ∀ x ∈ pre, p x = .ok false) (hel : p el = .ok true)
    (hpost : ∀ x ∈ post, ∃ b, p x = .ok b) :
    ∃ rest, filterEach p (pre ++ el :: post) = .ok (el :: rest) := by
  induction pre with
  | nil =>
    obtain ⟨r, hr⟩ := filterEach_total p post hpost
    refine ⟨r, ?_⟩
    rw [List.nil_append]
    unfold filterEach
    simp only [hel, hr, if_true]
  | cons a t ih =>
    obtain ⟨r, hr⟩ := ih (fun x hx => hpre x (List.mem_cons_of_mem a hx))
    refine ⟨r, ?_⟩
    rw [List.cons_append]
    unfold filterEach
    simp only [hpre a (List.mem_cons_self a t), hr, Bool.false_eq_true, if_false]

/-- A filter on whose elements the callback gives `false` keeps nothing. -/
theorem filterEach_none {α : Type} (p : α → Except Str Bool) (l : List α)
    (h : ∀ x ∈ l, p x = .ok false) : filterEach p l = .ok [] := by
  induction l with
  | nil => rfl
  | cons a t ih =>
    unfold filterEach
    simp only [h a (List.mem_cons_self a t), ih (fun x hx => h x (List.mem_cons_of_mem a hx)),
      Bool.false_eq_true, if_false]

/-- The callback of the declaration step, in terms of the label. -/
theorem declarationLabel_eq_ok (page : Page) (el : Control) (b : Bool) :
    declarationLabel page el = .ok b ↔
      ∃ label, labelTextOf page el.id = .ok label ∧
        (includes label "agree".toList || includes label "legal".toList) = b := by
  unfold declarationLabel
  cases labelTextOf page el.id with
  | error e => simp
  | ok label => simp

theorem propSet_nil (k v : Str) :
    propSet [] k v = if k = "__proto__".toList then [] else [(k, v)] := by
  unfold propSet defineProp insertProp
  split
  · rfl
  · have h : objHas [] k = false := rfl
    simp only [h, Bool.false_eq_true, if_false]
    cases arrayIndex k <;> rfl

/-- What the declaration step returns once its filter has run. -/
theorem agreeLegalDeclaration_of_filter (page : Page) (kept : List Control)
    (h : filterEach (declarationLabel page) (formCheckboxes page) = .ok kept) :
    agreeLegalDeclaration page =
      .ok (match kept with
        | [] => []
        | checkbox :: _ =>
          if truthy checkbox.name then
            propSet [] (orEmpty checkbox.name) (checkbox.val.getD "on".toList)
          else []) := by
  unfold agreeLegalDeclaration
  unfold formCheckboxes at h
  rw [h]
  cases kept <;> rfl

/-- The declaration step succeeds only if its filter has run. -/
theorem filter_of_agreeLegalDeclaration (page : Page) (r : Obj)
    (h : agreeLegalDeclaration page = .ok r) :
    ∃ kept, filterEach (declarationLabel page) (formCheckboxes page) = .ok kept := by
  cases hf : filterEach (declarationLabel page) (formCheckboxes page) with
  | ok kept => exact ⟨kept, rfl⟩
  | error e =>
    unfold agreeLegalDeclaration at h
    unfold formCheckboxes at hf
    rw [hf] at h
    cases h

theorem length_agreeLegalDeclaration (page : Page) (r : Obj)
    (h : agreeLegalDeclaration page = .ok r) : r.length ≤ 1 := by
  obtain ⟨kept, hf⟩ := filter_of_agreeLegalDeclaration page r h
  rw [agreeLegalDeclaration_of_filter page kept hf] at h
  simp only [Except.ok.injEq] at h
  rw [← h]
  cases kept with
  | nil => simp
  | cons c t =>
    simp only
    split
    · rw [propSet_nil]
      split <;> simp
    · simp

theorem nodup_keys_agreeLegalDeclaration (page : Page) (r : Obj)
    (h : agreeLegalDeclaration page = .ok r) : (r.map Prod.fst).Nodup := by
  have hl := length_agreeLegalDeclaration page r h
  cases r with
  | nil => simp
  | cons a t =>
    cases t with
    | nil => simp
    | cons b u => simp at hl

theorem mem_formControls (page : Page) (el : Control) (h : el ∈ formControls page) :
    ∃ form ∈ page.forms, el ∈ form.controls := by
  unfold formControls at h
  obtain ⟨l, hl, hel⟩ := List.mem_flatten.1 h
  obtain ⟨form, hform, rfl⟩ := List.mem_map.1 hl
  exact ⟨form, hform, hel⟩

/-- The value of a key of a payload: the override, or else the value of the
form's fields with the submit event. -/
theorem objGet_payload (inputs overrides : Obj) (k : Str)
    (h : (overrides.map Prod.fst).Nodup) :
    objGet (spreadProps (withSubmitEvent inputs) overrides) k =
      match objGet overrides k with
      | some v => some v
      | none => objGet (withSubmitEvent inputs) k :=
  objGet_spreadProps _ _ k h

/-! ## The payloads -/

set_option maxRecDepth 1000000 in
/-- C21 fails as stated: in a group of two radio buttons named `searchType`
the checked one, labelled `Individual`, seeds the field, and neither its name
nor its label has a keyword; the other one, labelled `Organisation`, makes the
mapper write the organisation name into the field of that name. -/
theorem sibling_control_overrides_seeded_field :
    extractForm (pageEnv radioGroupPage) radioGroupPage = some (extracted radioGroupPage) ∧
    objGet (extracted radioGroupPage).inputs "searchType".toList = some "individual".toList ∧
    labelTextOf radioGroupPage (some "st-ind".toList) = .ok "individual".toList ∧
    (∀ rule ∈ organisationRules,
      rule.1.applies "searchType".toList "individual".toList = false) ∧
    (populateOrganisationFields radioGroupPage (orgFieldsOf sampleNorm)).toOption.map
      (fun overrides => objGet (payloadOf (submission1 (pageEnv radioGroupPage) pageFetched
        (extracted radioGroupPage) overrides)) "searchType".toList) =
      some (some "Acme Care".toList) := by
  refine ⟨by rfl, by rfl, by rfl, by decide, by rfl⟩

/-- C21, amended. In the payloads of steps 1 and 2, built with the overrides
that the step's mapper returned, a seeded field keeps its seeded value when no
control that the mapper inspects (the inputs, in step 2 also the selects, of
the forms of the page) bears its name together with a rule that applies, by
the name or by the label of that control; a field that the mapper maps carries
the mapper's value. -/
theorem payload_keeps_unmapped_fields (env : Env) (org : OrgFields) (cert : CertFields)
    (step : Fetched) (form : ExtractedForm) (k : Str) :
    (∀ overrides v,
      populateOrganisationFields (env.load step.body) org = .ok overrides →
      objGet form.inputs k = some v →
      (∀ el ∈ formInputs (env.load step.body), el.name = some k →
        ∀ label, labelTextOf (env.load step.body) el.id = .ok label →
        ∀ rule ∈ organisationRules, rule.1.applies k label = false) →
      objGet (payloadOf (submission1 env step form overrides)) k = some v) ∧
    (∀ overrides w,
      populateOrganisationFields (env.load step.body) org = .ok overrides →
      objGet overrides k = some w →
      objGet (payloadOf (submission1 env step form overrides)) k = some w) ∧
    (∀ overrides v,
      populateCertificateFields (env.load step.body) cert = .ok overrides →
      objGet form.inputs k = some v →
      (∀ el ∈ formInputsAndSelects (env.load step.body), el.name = some k →
        ∀ label, labelTextOf (env.load step.body) el.id = .ok label →
        ∀ rule ∈ certificateRules, rule.1.applies k label = false) →
      objGet (payloadOf (submission2 env step form overrides)) k = some v) ∧
    (∀ overrides w,
      populateCertificateFields (env.load step.body) cert = .ok overrides →
      objGet overrides k = some w →
      objGet (payloadOf (submission2 env step form overrides)) k = some w) := by
  have hkeep : ∀ v, objGet form.inputs k = some v →
      objGet (withSubmitEvent form.inputs) k = some v := by
    intro v hv
    rw [objGet_withSubmitEvent, hv]
    split <;> rfl
  refine ⟨?_, ?_, ?_, ?_⟩
  · intro overrides v ho hv hno
    rw [payloadOf_submission1,
      objGet_payload _ _ k (nodup_keys_populateOrganisationFields _ _ _ ho)]
    rw [populateOrganisationFields_eq] at ho
    rw [objGet_mapByRules_none _ _ _ _ _ ho k hno]
    exact hkeep v hv
  · intro overrides w ho hw
    rw [payloadOf_submission1,
      objGet_payload _ _ k (nodup_keys_populateOrganisationFields _ _ _ ho), hw]
  · intro overrides v ho hv hno
    rw [payloadOf_submission2,
      objGet_payload _ _ k (nodup_keys_populateCertificateFields _ _ _ ho)]
    rw [populateCertificateFields_eq] at ho
    rw [objGet_mapByRules_none _ _ _ _ _ ho k hno]
    exact hkeep v hv
  · intro overrides w ho hw
    rw [payloadOf_submission2,
      objGet_payload _ _ k (nodup_keys_populateCertificateFields _ _ _ ho), hw]

set_option maxRecDepth 1000000 in
/-- C21, amended, on the organisation form with a hidden token: the token is
sent with its value in the document. -/
theorem payload_keeps_unmapped_fields_witness :
    populateOrganisationFields twoFormPage (orgFieldsOf sampleNorm) =
      .ok [("organisationName".toList, "Acme Care".toList), ("forename".toList, "Sam".toList),
        ("surname".toList, "Lee".toList), ("q".toList, "Acme Care".toList)] ∧
    objGet (payloadOf (submission1 (pageEnv twoFormPage) pageFetched (extracted twoFormPage)
      [("organisationName".toList, "Acme Care".toList), ("forename".toList, "Sam".toList),
        ("surname".toList, "Lee".toList), ("q".toList, "Acme Care".toList)]))
      "_flowExecutionKey".toList = some "e2s1".toList :=
  ⟨by rfl,
    (payload_keeps_unmapped_fields (pageEnv twoFormPage) (orgFieldsOf sampleNorm)
      (certFieldsOf sampleNorm) pageFetched (extracted twoFormPage)
      "_flowExecutionKey".toList).1 _ "e2s1".toList (by rfl) (by rfl) (by
        intro el hel hn label hl
        have hmem : el ∈ [hiddenInput "_flowExecutionKey" "e2s1", textInput "organisationName",
            textInput "forename", textInput "surname",
            { tag := "input".toList, name := some "q".toList, id := some "q".toList
              typeAttr := some "search".toList, val := none, checked := false }] := hel
        simp only [List.mem_cons, List.mem_singleton, List.mem_nil_iff, or_false] at hmem
        rcases hmem with he | he | he | he | he <;> subst he
        · have hlabel : [] = label := Except.ok.inj hl
          subst hlabel
          decide
        all_goals exact absurd hn (by decide))⟩

set_option maxRecDepth 1000000 in
/-- C24 fails as stated: on a declaration page whose first labelled checkbox
has no name and whose second labelled checkbox has one, no override is
returned, although a labelled checkbox with a name exists.  Nor is one
returned for a labelled checkbox named `__proto__`, and on a page with a
further checkbox whose id has a double quote the step throws. -/
theorem nameless_first_checkbox_gives_no_override :
    agreeLegalDeclaration namelessFirstPage = .ok [] ∧
    ((formCheckboxes namelessFirstPage).filter fun el =>
      (declarationLabel namelessFirstPage el).toOption == some true &&
        truthy el.name).map Control.name =
      [some "hasAgreedTermsAndConditions".toList] ∧
    agreeLegalDeclaration protoDeclarationPage = .ok [] ∧
    agreeLegalDeclaration quotedDeclarationPage =
      .error ("Unmatched selector: ".toList ++ ['n', doubleQuote]) := by
  refine ⟨by rfl, by rfl, by rfl, by rfl⟩

/-- C24, amended. `agreeLegalDeclaration` returns at most one override.  On a
page on which the label selector of every checkbox evaluates, it is decided by
the first checkbox, in document order, whose label contains `agree` or
`legal`: its name with its value, or `on`, when that checkbox has a name other
than `__proto__`, and nothing when it has no name.  When no checkbox has such a
label the result is empty and the payload of step 3 is the fields of the form
with the submit event. -/
theorem declaration_override_of_first_labelled_checkbox (page : Page) :
    (∀ agree, agreeLegalDeclaration page = .ok agree → agree.length ≤ 1) ∧
    (∀ pre el post, formCheckboxes page = pre ++ el :: post →
      (∀ x ∈ pre, ∃ label, labelTextOf page x.id = .ok label ∧
        (includes label "agree".toList || includes label "legal".toList) = false) →
      (∃ label, labelTextOf page el.id = .ok label ∧
        (includes label "agree".toList || includes label "legal".toList) = true) →
      (∀ x ∈ post, ∃ label, labelTextOf page x.id = .ok label) →
      el.name ≠ some "__proto__".toList →
      agreeLegalDeclaration page =
        .ok (if truthy el.name then [(orEmpty el.name, el.val.getD "on".toList)] else [])) ∧
    ((∀ el ∈ formCheckboxes page, ∃ label, labelTextOf page el.id = .ok label ∧
        (includes label "agree".toList || includes label "legal".toList) = false) →
      agreeLegalDeclaration page = .ok [] ∧
      ∀ env step form, env.load step.body = page →
        payloadOf (submission3 env step form []) = withSubmitEvent form.inputs) := by
  refine ⟨length_agreeLegalDeclaration page, ?_, ?_⟩
  · intro pre el post hsplit hpre hel hpost hproto
    obtain ⟨rest, hf⟩ := filterEach_first (declarationLabel page) pre el post
      (fun x hx => (declarationLabel_eq_ok page x false).2 (hpre x hx))
      ((declarationLabel_eq_ok page el true).2 hel)
      (fun x hx => by
        obtain ⟨label, hl⟩ := hpost x hx
        exact ⟨_, (declarationLabel_eq_ok page x _).2 ⟨label, hl, rfl⟩⟩)
    rw [← hsplit] at hf
    rw [agreeLegalDeclaration_of_filter page _ hf]
    simp only
    cases ht : truthy el.name
    · rfl
    · have hne : orEmpty el.name ≠ "__proto__".toList := by
        intro he
        apply hproto
        rw [name_of_truthy el.name ht, he]
      simp only [if_true, propSet_nil, if_neg hne]
  · intro hnone
    have hf := filterEach_none (declarationLabel page) (formCheckboxes page)
      (fun x hx => (declarationLabel_eq_ok page x false).2 (hnone x hx))
    refine ⟨agreeLegalDeclaration_of_filter page _ hf, ?_⟩
    intro env step form _
    rfl

set_option maxRecDepth 1000000 in
/-- C24, amended, on the sample declaration page: the checkbox is sent as
ticked with its value. -/
theorem declaration_override_of_first_labelled_checkbox_witness :
    agreeLegalDeclaration declarationPage =
      .ok [("hasAgreedTermsAndConditions".toList, "true".toList)] :=
  ((declaration_override_of_first_labelled_checkbox declarationPage).2.1 []
    { tag := "input".toList, name := some "hasAgreedTermsAndConditions".toList
      id := some "agree".toList, typeAttr := some "checkbox".toList
      val := some "true".toList, checked := false } [] (by rfl)
    (by intro x hx; cases hx)
    ⟨"i agree to the legal declaration".toList, by rfl, by decide⟩
    (by intro x hx; cases hx) (by decide)).trans (by rfl)

set_option maxRecDepth 1000000 in
/-- C25 fails as stated: the submit control of the form is named
`_eventId_submit`, has the value `Next` and a label that names the
organisation; the form seeds `Next`, the payload carries the organisation
name. -/
theorem labelled_submit_control_is_overridden :
    extractForm (pageEnv labelledSubmitPage) labelledSubmitPage =
      some (extracted labelledSubmitPage) ∧
    objGet (extracted labelledSubmitPage).inputs submitEvent = some "Next".toList ∧
    (populateOrganisationFields labelledSubmitPage (orgFieldsOf sampleNorm)).toOption.map
      (fun overrides => objGet (payloadOf (submission1 (pageEnv labelledSubmitPage) pageFetched
        (extracted labelledSubmitPage) overrides)) submitEvent) =
      some (some "Acme Care".toList) := by
  refine ⟨by rfl, by rfl, by rfl⟩

/-- C25, amended. The payload of each of the three steps, built with the
overrides that the step's mapper returned, contains the key `_eventId_submit`.
Unless the overrides of the step themselves have that key, its value is the
one the form seeded, or `Continue` when the form seeded none; when the
overrides have the key, their value is sent. -/
theorem submit_event_in_every_payload (env : Env) (norm : Norm) (step : Fetched)
    (form : ExtractedForm) (payload overrides : Obj)
    (h : (populateOrganisationFields (env.load step.body) (orgFieldsOf norm) = .ok overrides ∧
        payload = payloadOf (submission1 env step form overrides)) ∨
      (populateCertificateFields (env.load step.body) (certFieldsOf norm) = .ok overrides ∧
        payload = payloadOf (submission2 env step form overrides)) ∨
      (agreeLegalDeclaration (env.load step.body) = .ok overrides ∧
        payload = payloadOf (submission3 env step form overrides))) :
    (objGet payload submitEvent).isSome = true ∧
    (objGet overrides submitEvent = none →
      objGet payload submitEvent =
        some ((objGet form.inputs submitEvent).getD "Continue".toList)) ∧
    (∀ v, objGet overrides submitEvent = some v → objGet payload submitEvent = some v) := by
  have key : ∀ o : Obj, (o.map Prod.fst).Nodup →
      (objGet (spreadProps (withSubmitEvent form.inputs) o) submitEvent).isSome = true ∧
      (objGet o submitEvent = none →
        objGet (spreadProps (withSubmitEvent form.inputs) o) submitEvent =
          some ((objGet form.inputs submitEvent).getD "Continue".toList)) ∧
      (∀ v, objGet o submitEvent = some v →
        objGet (spreadProps (withSubmitEvent form.inputs) o) submitEvent = some v) := by
    intro o ho
    rw [objGet_payload _ _ _ ho, objGet_withSubmitEvent, if_pos rfl]
    cases objGet o submitEvent with
    | none => exact ⟨rfl, fun _ => rfl, fun v hv => Option.noConfusion hv⟩
    | some w => exact ⟨rfl, fun hv => Option.noConfusion hv, fun v hv => hv⟩
  rcases h with ⟨ho, hp⟩ | ⟨ho, hp⟩ | ⟨ho, hp⟩
  · rw [hp, payloadOf_submission1]
    exact key _ (nodup_keys_populateOrganisationFields _ _ _ ho)
  · rw [hp, payloadOf_submission2]
    exact key _ (nodup_keys_populateCertificateFields _ _ _ ho)
  · rw [hp, payloadOf_submission3]
    exact key _ (nodup_keys_agreeLegalDeclaration _ _ ho)

set_option maxRecDepth 1000000 in
/-- C25, amended, on the sample organisation page, whose form has no submit
control: the payload carries `Continue`. -/
theorem submit_event_in_every_payload_witness :
    objGet (payloadOf (submission1 (pageEnv orgPage) pageFetched (extracted orgPage)
      [("organisationName".toList, "Acme Care".toList), ("forename".toList, "Sam".toList),
        ("surname".toList, "Lee".toList)]))
      submitEvent = some "Continue".toList :=
  ((submit_event_in_every_payload (pageEnv orgPage) sampleNorm pageFetched (extracted orgPage)
    _ _ (Or.inl ⟨by rfl, rfl⟩)).2.1 (by rfl)).trans (by rfl)

set_option maxRecDepth 1000000 in
/-- C28 fails as stated: on a page with the organisation form followed by a
search form, the field `q` of the search form, whose label names an
organisation, is among the overrides and is sent with the organisation form,
which has no control of that name. -/
theorem payload_has_field_of_another_form :
    extractForm (pageEnv twoFormPage) twoFormPage = some (extracted twoFormPage) ∧
    twoFormPage.forms.head? = some organisationForm ∧
    (∀ el ∈ organisationForm.controls, el.name ≠ some "q".toList) ∧
    (populateOrganisationFields twoFormPage (orgFieldsOf sampleNorm)).toOption.map
      (fun overrides => objHas overrides "q".toList) = some true ∧
    (populateOrganisationFields twoFormPage (orgFieldsOf sampleNorm)).toOption.map
      (fun overrides => objGet (payloadOf (submission1 (pageEnv twoFormPage) pageFetched
        (extracted twoFormPage) overrides)) "q".toList) = some (some "Acme Care".toList) := by
  refine ⟨by rfl, by rfl, by decide, by rfl, by rfl⟩

/-- C28, amended. Every key of the overrides that one of the three mappers
returns is the name of a control inside some form of the page, an input for
the organisation mapper and the declaration, an input or a select for the
certificate mapper; the form need not be the first one. -/
theorem override_keys_name_controls_of_some_form (page : Page) (org : OrgFields)
    (cert : CertFields) (k : Str) :
    (∀ overrides, populateOrganisationFields page org = .ok overrides →
      objHas overrides k = true →
      ∃ form ∈ page.forms, ∃ el ∈ form.controls,
        el.tag = "input".toList ∧ el.name = some k) ∧
    (∀ overrides, populateCertificateFields page cert = .ok overrides →
      objHas overrides k = true →
      ∃ form ∈ page.forms, ∃ el ∈ form.controls,
        (el.tag = "input".toList ∨ el.tag = "select".toList) ∧ el.name = some k) ∧
    (∀ overrides, agreeLegalDeclaration page = .ok overrides →
      objHas overrides k = true →
      ∃ form ∈ page.forms, ∃ el ∈ form.controls,
        el.tag = "input".toList ∧ el.name = some k) := by
  refine ⟨?_, ?_, ?_⟩
  · intro overrides ho h
    rw [objHas_iff_mem_keys] at h
    rw [populateOrganisationFields_eq] at ho
    obtain ⟨el, hel, hn, -⟩ := mem_keys_mapByRules _ _ _ _ _ ho k h
    obtain ⟨hc, ht⟩ := List.mem_filter.1 hel
    obtain ⟨form, hform, hin⟩ := mem_formControls page el hc
    exact ⟨form, hform, el, hin, by simpa using ht, hn⟩
  · intro overrides ho h
    rw [objHas_iff_mem_keys] at h
    rw [populateCertificateFields_eq] at ho
    obtain ⟨el, hel, hn, -⟩ := mem_keys_mapByRules _ _ _ _ _ ho k h
    obtain ⟨hc, ht⟩ := List.mem_filter.1 hel
    obtain ⟨form, hform, hin⟩ := mem_formControls page el hc
    exact ⟨form, hform, el, hin, by simpa using ht, hn⟩
  · intro overrides ho h
    obtain ⟨kept, hf⟩ := filter_of_agreeLegalDeclaration page overrides ho
    rw [agreeLegalDeclaration_of_filter page kept hf] at ho
    simp only [Except.ok.injEq] at ho
    cases kept with
    | nil =>
      simp only at ho
      rw [← ho] at h
      exact absurd h (by simp [objHas])
    | cons el rest =>
      simp only at ho
      obtain ⟨hmem, -⟩ := filterEach_mem _ _ _ hf el (List.mem_cons_self el rest)
      obtain ⟨hc, ht⟩ := List.mem_filter.1 hmem
      obtain ⟨form, hform, hin⟩ := mem_formControls page el hc
      by_cases hname : truthy el.name = true
      · rw [if_pos hname, propSet_nil] at ho
        by_cases hp : orEmpty el.name = "__proto__".toList
        · rw [if_pos hp] at ho
          rw [← ho] at h
          exact absurd h (by simp [objHas])
        · rw [if_neg hp] at ho
          rw [← ho] at h
          simp only [objHas, List.any_cons, List.any_nil, Bool.or_false, beq_iff_eq] at h
          refine ⟨form, hform, el, hin, ?_, ?_⟩
          · simp only [Bool.and_eq_true, beq_iff_eq] at ht
            exact ht.1
          · rw [← h]
            exact name_of_truthy el.name hname
      · rw [if_neg hname] at ho
        rw [← ho] at h
        exact absurd h (by simp [objHas])

set_option maxRecDepth 1000000 in
/-- C28, amended, on the page with two forms: the override `q` is the name of
a control of one of the forms. -/
theorem override_keys_name_controls_of_some_form_witness :
    ∃ form ∈ twoFormPage.forms, ∃ el ∈ form.controls,
      el.tag = "input".toList ∧ el.name = some "q".toList :=
  (override_keys_name_controls_of_some_form twoFormPage (orgFieldsOf sampleNorm)
    (certFieldsOf sampleNorm) "q".toList).1
    [("organisationName".toList, "Acme Care".toList), ("forename".toList, "Sam".toList),
      ("surname".toList, "Lee".toList), ("q".toList, "Acme Care".toList)] (by rfl) (by rfl)

/-! ## Lemmas on the date of birth and on the steps -/

theorem trim_of_all_whitespace (s : Str) (h : ∀ c ∈ s, isWhiteSpace c = true) : trim s = [] := by
  have h1 : trimStart s = [] := by
    unfold trimStart
    rw [List.dropWhile_eq_nil_iff]
    exact h
  unfold trim
  rw [h1]
  rfl

theorem padStart0_of_long (s : Str) (h : 2 ≤ jsLength s) : padStart0 2 s = s := by
  unfold padStart0
  rw [Nat.sub_eq_zero_of_le h]
  rfl

/-- A hop that resolves does so with a response that is no redirect. -/
theorem fetchLoop_ok_status (env : Env) (remaining : Nat) (url : Str) (options : Options)
    (referer : Option Str) (net net' : Net) (f : Fetched)
    (h : fetchLoop env remaining url options referer net = (net', .ok f)) :
    isRedirectStatus f.response.status = false := by
  induction remaining generalizing url options referer net with
  | zero =>
    cases hf : env.fetch (net.log ++ [requestOf env url options referer net.jar]) with
    | error e =>
      rw [fetchLoop_transport env 0 url options referer net e hf] at h
      simp only [Prod.mk.injEq, reduceCtorEq, and_false] at h
    | ok response =>
      cases hs : isRedirectStatus response.status
      · rw [fetchLoop_final env 0 url options referer net response hf hs] at h
        simp only [Prod.mk.injEq, Except.ok.injEq] at h
        rw [← h.2]
        exact hs
      · rw [fetchLoop_exceeded env url options referer net response hf hs] at h
        simp only [Prod.mk.injEq, reduceCtorEq, and_false] at h
  | succ r ih =>
    cases hf : env.fetch (net.log ++ [requestOf env url options referer net.jar]) with
    | error e =>
      rw [fetchLoop_transport env (r + 1) url options referer net e hf] at h
      simp only [Prod.mk.injEq, reduceCtorEq, and_false] at h
    | ok response =>
      cases hs : isRedirectStatus response.status
      · rw [fetchLoop_final env (r + 1) url options referer net response hf hs] at h
        simp only [Prod.mk.injEq, Except.ok.injEq] at h
        rw [← h.2]
        exact hs
      · cases hl : truthy response.location
        · rw [fetchLoop_no_location env r url options referer net response hf hs hl] at h
          simp only [Prod.mk.injEq, reduceCtorEq, and_false] at h
        · rw [fetchLoop_redirect env r url options referer net response hf hs hl] at h
          exact ih _ _ _ _ h

theorem fetchWithCookies_ok_status (env : Env) (url : Str) (options : Options) (net net' : Net)
    (n : Nat) (f : Fetched) (h : fetchWithCookies env url options net n = (net', .ok f)) :
    isRedirectStatus (stepOf url f).status = false :=
  fetchLoop_ok_status env n url options options.referer net net' f h

theorem classify_steps (details : ApplicantDetails) (steps : List FlowStep)
    (finalHtml finalUrl : Str) (page : Page) :
    (classify details steps finalHtml finalUrl page).steps = steps := by
  unfold classify siteError
  simp only
  split_ifs <;> rfl

/-! ## The date of birth and the steps -/

/-- C29. A day (month) of birth that is missing, empty or made of whitespace
only normalises to `00`, and a trimmed value of more than two characters is
kept in full; the normalised value is what the certificate mapper writes into
the field `dayOfBirth` (`monthOfBirth`) of a page that has such a field. -/
theorem blank_day_and_month_normalise_to_00 (env : Env) (details : ApplicantDetails)
    (n : Norm) (hn : normalize env details = .ok n) :
    ((∀ c ∈ orEmpty (details.dob.bind Dob.day), isWhiteSpace c = true) →
      n.dob.day = "00".toList) ∧
    ((∀ c ∈ orEmpty (details.dob.bind Dob.month), isWhiteSpace c = true) →
      n.dob.month = "00".toList) ∧
    (2 < jsLength (trim (orEmpty (details.dob.bind Dob.day))) →
      n.dob.day = trim (orEmpty (details.dob.bind Dob.day))) ∧
    (2 < jsLength (trim (orEmpty (details.dob.bind Dob.month))) →
      n.dob.month = trim (orEmpty (details.dob.bind Dob.month))) ∧
    (∀ page certFields, populateCertificateFields page (certFieldsOf n) = .ok certFields →
      (∃ el ∈ formInputsAndSelects page, el.name = some "dayOfBirth".toList) →
      objGet certFields "dayOfBirth".toList = some n.dob.day) ∧
    (∀ page certFields, populateCertificateFields page (certFieldsOf n) = .ok certFields →
      (∃ el ∈ formInputsAndSelects page, el.name = some "monthOfBirth".toList) →
      objGet certFields "monthOfBirth".toList = some n.dob.month) := by
  obtain ⟨-, -, -, -, -, hd, hm, -⟩ := normalize_ok env details n hn
  refine ⟨?_, ?_, ?_, ?_, ?_, ?_⟩
  · intro h
    rw [hd, trim_of_all_whitespace _ h]
    rfl
  · intro h
    rw [hm, trim_of_all_whitespace _ h]
    rfl
  · intro h
    rw [hd]
    exact padStart0_of_long _ (Nat.le_of_lt h)
  · intro h
    rw [hm]
    exact padStart0_of_long _ (Nat.le_of_lt h)
  · intro page certFields hc hex
    rw [populateCertificateFields_eq] at hc
    apply objGet_mapByRules_const _ _ _ _ _ hc _ _ (by decide) (by decide) _ hex
    intro el _ _ label _
    rw [firstMatch_certificateRules]
    rfl
  · intro page certFields hc hex
    rw [populateCertificateFields_eq] at hc
    apply objGet_mapByRules_const _ _ _ _ _ hc _ _ (by decide) (by decide) _ hex
    intro el _ _ label _
    rw [firstMatch_certificateRules]
    rfl

set_option maxRecDepth 1000000 in
/-- C29, at an input without a day of birth and with a blank month of birth,
on the sample certificate page: the mapper writes `00` into both fields. -/
theorem blank_day_and_month_normalise_to_00_witness :
    normalize sampleEnv blankDobDetails = .ok blankDobNorm ∧
    blankDobNorm.dob.day = "00".toList ∧
    blankDobNorm.dob.month = "00".toList ∧
    populateCertificateFields certPage (certFieldsOf blankDobNorm) = .ok blankDobFields ∧
    objGet blankDobFields "dayOfBirth".toList = some "00".toList :=
  ⟨by rfl,
   (blank_day_and_month_normalise_to_00 sampleEnv blankDobDetails blankDobNorm (by rfl)).1
     (by decide),
   (blank_day_and_month_normalise_to_00 sampleEnv blankDobDetails blankDobNorm (by rfl)).2.1
     (by decide),
   by rfl,
   (blank_day_and_month_normalise_to_00 sampleEnv blankDobDetails blankDobNorm
      (by rfl)).2.2.2.2.1 certPage blankDobFields (by rfl)
      ⟨textInput "dayOfBirth",
        List.mem_cons_of_mem _ (List.mem_cons_of_mem _ (List.mem_cons_self _ _)),
        rfl⟩⟩

/-- C30. The steps of a result are the entries of the calls made, in their
order: the initial GET of the first target, then the three submissions, as
far as the flow went; each entry has the URL the call was made with and the
status of the response the call resolved to, which is never a redirect
status.  There are between one and four entries, and a result with fewer than
four is the navigation failure, so that a result with `ok = true`, or with an
error of the classifier, has exactly four. -/
theorem steps_record_the_calls (env : Env) (details : ApplicantDetails) (net : Net)
    (r : FlowResult) (h : performStatusCheck env details = (net, .ok r)) :
    (1 ≤ r.steps.length ∧ r.steps.length ≤ 4) ∧
    (∀ s ∈ r.steps, isRedirectStatus s.status = false) ∧
    (r.steps.length = 4 ∨ r = navigationFailure r.steps) ∧
    (r.ok = true → r.steps.length = 4) ∧
    ∃ norm net1 step1,
      normalize env details = .ok norm ∧
      fetchWithCookies env e2s1 getOptions { jar := [], log := [] } 10 = (net1, .ok step1) ∧
      (r.steps = [stepOf e2s1 step1] ∨
       ∃ form1 orgFields net2 step2,
        extractForm env (env.load step1.body) = some form1 ∧
        populateOrganisationFields (env.load step1.body) (orgFieldsOf norm) = .ok orgFields ∧
        fetchWithCookies env (submission1 env step1 form1 orgFields).1
          (submission1 env step1 form1 orgFields).2 net1 10 = (net2, .ok step2) ∧
        (r.steps = [stepOf e2s1 step1,
            stepOf (submission1 env step1 form1 orgFields).1 step2] ∨
         ∃ form2 certFields net3 step3,
          extractForm env (env.load step2.body) = some form2 ∧
          populateCertificateFields (env.load step2.body) (certFieldsOf norm) =
            .ok certFields ∧
          fetchWithCookies env (submission2 env step2 form2 certFields).1
            (submission2 env step2 form2 certFields).2 net2 10 = (net3, .ok step3) ∧
          (r.steps = [stepOf e2s1 step1,
              stepOf (submission1 env step1 form1 orgFields).1 step2,
              stepOf (submission2 env step2 form2 certFields).1 step3] ∨
           ∃ form3 agree net4 step4,
            extractForm env (env.load step3.body) = some form3 ∧
            agreeLegalDeclaration (env.load step3.body) = .ok agree ∧
            fetchWithCookies env (submission3 env step3 form3 agree).1
              (submission3 env step3 form3 agree).2 net3 10 = (net4, .ok step4) ∧
            r.steps = [stepOf e2s1 step1,
              stepOf (submission1 env step1 form1 orgFields).1 step2,
              stepOf (submission2 env step2 form2 certFields).1 step3,
              stepOf (submission3 env step3 form3 agree).1 step4]))) := by
  rcases performStatusCheck_trace env details with
    ⟨e, hn, hp⟩ | ⟨norm, hn, ⟨net1, e, h1, hp⟩ | ⟨net1, step1, h1, ⟨hf1, hp⟩ |
    ⟨form1, hf1, ⟨e, hm1, hp⟩ | ⟨orgFields, hm1, ⟨net2, e, h2, hp⟩ |
    ⟨net2, step1Submit, h2, ⟨hf2, hp⟩ | ⟨form2, hf2, ⟨e, hm2, hp⟩ |
    ⟨certFields, hm2, ⟨net3, e, h3, hp⟩ | ⟨net3, step2Submit, h3, ⟨hf3, hp⟩ |
    ⟨form3, hf3, ⟨e, hm3, hp⟩ | ⟨agree, hm3, ⟨net4, e, h4, hp⟩ |
    ⟨net4, step3Submit, h4, hp⟩⟩⟩⟩⟩⟩⟩⟩⟩⟩⟩
  all_goals rw [hp] at h
  all_goals simp only [Prod.mk.injEq, Except.ok.injEq, reduceCtorEq, and_false] at h
  all_goals obtain ⟨-, rfl⟩ := h
  · have s1 := fetchWithCookies_ok_status _ _ _ _ _ _ _ h1
    refine ⟨by simp [navigationFailure], ?_, Or.inr rfl, ?_, norm, net1, step1, hn, h1,
      Or.inl rfl⟩
    · intro s hs
      simp only [navigationFailure, List.mem_singleton] at hs
      rw [hs]
      exact s1
    · intro hok
      simp [navigationFailure] at hok
  · have s1 := fetchWithCookies_ok_status _ _ _ _ _ _ _ h1
    have s2 := fetchWithCookies_ok_status _ _ _ _ _ _ _ h2
    refine ⟨by simp [navigationFailure], ?_, Or.inr rfl, ?_, norm, net1, step1, hn, h1,
      Or.inr ⟨form1, orgFields, net2, step1Submit, hf1, hm1, h2, Or.inl rfl⟩⟩
    · intro s hs
      simp only [navigationFailure, List.mem_cons, List.mem_singleton, List.mem_nil_iff,
        or_false] at hs
      rcases hs with hs | hs <;> rw [hs]
      · exact s1
      · exact s2
    · intro hok
      simp [navigationFailure] at hok
  · have s1 := fetchWithCookies_ok_status _ _ _ _ _ _ _ h1
    have s2 := fetchWithCookies_ok_status _ _ _ _ _ _ _ h2
    have s3 := fetchWithCookies_ok_status _ _ _ _ _ _ _ h3
    refine ⟨by simp [navigationFailure], ?_, Or.inr rfl, ?_, norm, net1, step1, hn, h1,
      Or.inr ⟨form1, orgFields, net2, step1Submit, hf1, hm1, h2,
        Or.inr ⟨form2, certFields, net3, step2Submit, hf2, hm2, h3, Or.inl rfl⟩⟩⟩
    · intro s hs
      simp only [navigationFailure, List.mem_cons, List.mem_singleton, List.mem_nil_iff,
        or_false] at hs
      rcases hs with hs | hs | hs <;> rw [hs]
      · exact s1
      · exact s2
      · exact s3
    · intro hok
      simp [navigationFailure] at hok
  · have s1 := fetchWithCookies_ok_status _ _ _ _ _ _ _ h1
    have s2 := fetchWithCookies_ok_status _ _ _ _ _ _ _ h2
    have s3 := fetchWithCookies_ok_status _ _ _ _ _ _ _ h3
    have s4 := fetchWithCookies_ok_status _ _ _ _ _ _ _ h4
    simp only [classify_steps]
    refine ⟨by simp, ?_, Or.inl rfl, fun _ => rfl, norm, net1, step1, hn, h1,
      Or.inr ⟨form1, orgFields, net2, step1Submit, hf1, hm1, h2,
        Or.inr ⟨form2, certFields, net3, step2Submit, hf2, hm2, h3,
          Or.inr ⟨form3, agree, net4, step3Submit, hf3, hm3, h4, rfl⟩⟩⟩⟩
    intro s hs
    simp only [List.mem_cons, List.mem_singleton, List.mem_nil_iff, or_false] at hs
    rcases hs with hs | hs | hs | hs <;> rw [hs]
    · exact s1
    · exact s2
    · exact s3
    · exact s4

set_option maxRecDepth 1000000 in
/-- C30, at the sample session: four entries, each with the status 200. -/
theorem steps_record_the_calls_witness :
    (resolved (performStatusCheck sampleEnv (sampleDetails none))).steps.length = 4 ∧
    ∀ s ∈ (resolved (performStatusCheck sampleEnv (sampleDetails none))).steps,
      isRedirectStatus s.status = false :=
  ⟨(steps_record_the_calls sampleEnv (sampleDetails none)
      (performStatusCheck sampleEnv (sampleDetails none)).1
      (resolved (performStatusCheck sampleEnv (sampleDetails none)))
      (resolved_of_no_rejection _ (by decide!))).2.2.2.1 (by decide!),
   (steps_record_the_calls sampleEnv (sampleDetails none)
      (performStatusCheck sampleEnv (sampleDetails none)).1
      (resolved (performStatusCheck sampleEnv (sampleDetails none)))
      (resolved_of_no_rejection _ (by decide!))).2.1⟩

/-! ## Lemmas on the pattern of the certificate number -/

theorem run_times (ci : Bool) (p : Char → Bool) (n : Nat) (s : Str) :
    Re.run ci (Re.times p n) s =
      if n ≤ s.length ∧ (s.take n).all p then [(s.drop n, [])] else [] := by
  induction n generalizing s with
  | zero => simp [Re.times, Re.run]
  | succ n ih =>
    cases s with
    | nil => simp [Re.times, Re.run]
    | cons d t =>
      simp only [Re.times, Re.run]
      by_cases hd : p d = true
      · simp only [hd, if_true, List.flatMap_cons, List.flatMap_nil, List.append_nil, ih,
          List.length_cons, Nat.add_le_add_iff_right, List.take_succ_cons, List.all_cons,
          Bool.true_and, List.drop_succ_cons]
        split <;> simp
      · have hd' : p d = false := by simpa using hd
        simp [hd']

theorem run_grp_times (ci : Bool) (p : Char → Bool) (n : Nat) (s : Str) :
    Re.run ci (Re.grp (Re.times p n)) s =
      if n ≤ s.length ∧ (s.take n).all p then [(s.drop n, [s.take n])] else [] := by
  simp only [Re.run, run_times]
  split
  · rename_i h
    have : s.length - (s.drop n).length = n := by
      rw [List.length_drop]
      omega
    simp only [List.map_cons, List.map_nil, this]
  · rfl

theorem run_seq (ci : Bool) (a b : Re) (s : Str) :
    Re.run ci (Re.seq a b) s =
      (Re.run ci a s).flatMap fun x => (Re.run ci b x.1).map fun y => (y.1, x.2 ++ y.2) := by
  rw [Re.run]

/-- After a greedy run of a class, a pattern that matches at no character of
the class is tried where the run ends. -/
theorem run_star_then (ci : Bool) (p : Char → Bool) (X : Re) (s : Str)
    (hX : ∀ c t, p c = true → Re.run ci X (c :: t) = []) :
    Re.run ci (Re.seq (Re.star p) X) s = Re.run ci X (s.dropWhile p) := by
  have hmap : ∀ t, (Re.run ci X t).map (fun y => (y.1, ([] : List Str) ++ y.2)) =
      Re.run ci X t := by
    intro t
    simp
  induction s with
  | nil => simp [Re.run, Re.starRun]
  | cons c t ih =>
    by_cases hc : p c = true
    · have ih' := ih
      simp only [Re.run, List.flatMap_map] at ih'
      simp only [Re.run, Re.starRun, hc, if_true, List.map_append, List.flatMap_append,
        List.flatMap_map, List.map_cons, List.map_nil, List.flatMap_cons, List.flatMap_nil,
        List.append_nil, hX c t hc, List.dropWhile_cons_of_pos hc]
      simpa using ih'
    · have hc' : p c = false := by simpa using hc
      simp [Re.run, Re.starRun, hc', List.dropWhile]

theorem prefixCI_iff (s : Str) :
    ("Certificate Number".toList.map (Re.canon true)).isPrefixOf (s.map (Re.canon true)) =
      (toUpperCase "Certificate Number".toList).isPrefixOf (toUpperCase s) := by
  have h : Re.canon true = upperChar := by
    funext c
    simp [Re.canon]
  rw [h]
  rfl

theorem run_reNumber (s : Str) :
    Re.run true reNumber s =
      match numberHere s with
      | some n => [((((s.drop 18).dropWhile isWhiteSpace)).drop 12, [n])]
      | none => [] := by
  unfold reNumber numberHere
  rw [run_seq, run_lit, prefixCI_iff]
  split
  · have h18 : "Certificate Number".length = 18 := by decide
    have hstar := run_star_then true isWhiteSpace (Re.grp (Re.times isDigit 12)) (s.drop 18)
      (fun c t hc => by
        rw [run_grp_times]
        rw [if_neg]
        rintro ⟨-, h2⟩
        simp only [List.take_succ_cons, List.all_cons, Bool.and_eq_true] at h2
        have := isWhiteSpace_of_isDigit c h2.1
        rw [hc] at this
        exact Bool.noConfusion this)
    simp only [List.flatMap_cons, List.flatMap_nil, List.append_nil, h18, hstar,
      run_grp_times, List.nil_append]
    split <;> simp
  · simp

theorem matchHere_reNumber (s : Str) :
    (Re.matchHere true reNumber s).map (fun m => group m 1) = numberHere s := by
  unfold Re.matchHere
  rw [run_reNumber]
  cases numberHere s with
  | none => rfl
  | some n => rfl

/-- The leftmost match: the pattern matches at some position and at none
before it. -/
theorem exec_eq_some_iff (ci : Bool) (r : Re) (s : Str) (m : Str × List Str) :
    Re.exec ci r s = some m ↔
      ∃ pre rest, s = pre ++ rest ∧ Re.matchHere ci r rest = some m ∧
        ∀ k, k < pre.length → Re.matchHere ci r (s.drop k) = none := by
  induction s with
  | nil =>
    rw [Re.exec]
    constructor
    · intro h
      exact ⟨[], [], rfl, h, fun k hk => by simp at hk⟩
    · rintro ⟨pre, rest, hs, hm, -⟩
      have : rest = [] := by
        cases pre with
        | nil => exact hs.symm
        | cons a b => simp at hs
      rw [this] at hm
      exact hm
  | cons c t ih =>
    cases hm0 : Re.matchHere ci r (c :: t) with
    | some m0 =>
      have he : Re.exec ci r (c :: t) = some m0 := by
        rw [Re.exec]
        simp only [hm0]
      rw [he]
      constructor
      · intro h
        exact ⟨[], c :: t, rfl, h ▸ hm0, fun k hk => by simp at hk⟩
      · rintro ⟨pre, rest, hs, hm, hnone⟩
        cases pre with
        | nil =>
          simp only [List.nil_append] at hs
          rw [← hs, hm0] at hm
          exact hm
        | cons a b =>
          have := hnone 0 (by simp)
          simp only [List.drop_zero] at this
          rw [hm0] at this
          exact Option.noConfusion this
    | none =>
      rw [exec_cons_of_none ci r c t hm0, ih]
      constructor
      · rintro ⟨pre, rest, hs, hm, hnone⟩
        refine ⟨c :: pre, rest, by rw [hs]; rfl, hm, ?_⟩
        intro k hk
        cases k with
        | zero => exact hm0
        | succ j =>
          simp only [List.drop_succ_cons]
          exact hnone j (by simpa using hk)
      · rintro ⟨pre, rest, hs, hm, hnone⟩
        cases pre with
        | nil =>
          simp only [List.nil_append] at hs
          rw [← hs, hm0] at hm
          exact Option.noConfusion hm
        | cons a b =>
          simp only [List.cons_append, List.cons.injEq] at hs
          refine ⟨b, rest, hs.2, hm, ?_⟩
          intro k hk
          have := hnone (k + 1) (by simpa using hk)
          simpa using this

theorem dropWhile_append_of_all (p : Char → Bool) (a b : Str) (ha : ∀ c ∈ a, p c = true) :
    (a ++ b).dropWhile p = b.dropWhile p := by
  induction a with
  | nil => rfl
  | cons c t ih =>
    rw [List.cons_append, List.dropWhile_cons_of_pos (ha c (List.mem_cons_self c t))]
    exact ih (fun x hx => ha x (List.mem_cons_of_mem c hx))

theorem takeWhile_append_dropWhile_all (p : Char → Bool) (s : Str) :
    ∀ c ∈ s.takeWhile p, p c = true := by
  intro c hc
  exact (List.mem_takeWhile_imp hc)

/-- The captured digits in the words of the specification. -/
theorem numberHere_eq_some_iff (s n : Str) : numberHere s = some n ↔ NumberAt s n := by
  unfold numberHere NumberAt
  constructor
  · intro h
    split at h
    · rename_i hp
      simp only at h
      split at h
      · rename_i hc
        simp only [Option.some.injEq] at h
        refine ⟨s.take 18, (s.drop 18).takeWhile isWhiteSpace,
          ((s.drop 18).dropWhile isWhiteSpace).drop 12, ?_, ?_, ?_, ?_, ?_⟩
        · rw [← h, List.append_assoc, List.append_assoc, List.take_append_drop,
            List.takeWhile_append_dropWhile, List.take_append_drop]
        · have h1 := List.isPrefixOf_iff_prefix.1 hp
          obtain ⟨t, ht⟩ := h1
          have hl : (toUpperCase "Certificate Number".toList).length = 18 := by decide
          have h2 : (toUpperCase s).take 18 = toUpperCase "Certificate Number".toList := by
            rw [← ht, ← hl, List.take_left']
            rfl
          rw [← h2]
          unfold toUpperCase
          rw [List.map_take]
        · exact takeWhile_append_dropWhile_all _ _
        · rw [← h, List.length_take]
          omega
        · intro c hcn
          rw [← h] at hcn
          exact (List.all_eq_true.1 hc.2) c hcn
      · exact Option.noConfusion h
    · exact Option.noConfusion h
  · rintro ⟨words, spaces, post, hs, hw, hsp, hlen, hdig⟩
    have hwl : words.length = 18 := by
      have := congrArg List.length hw
      simp only [toUpperCase, List.length_map] at this
      rw [this]
      decide
    have hpre : (toUpperCase "Certificate Number".toList).isPrefixOf (toUpperCase s) = true := by
      rw [List.isPrefixOf_iff_prefix, hs, ← hw]
      unfold toUpperCase
      simp only [List.map_append, List.append_assoc]
      exact List.prefix_append _ _
    have hdrop : s.drop 18 = spaces ++ (n ++ post) := by
      rw [hs, List.append_assoc, List.append_assoc, ← hwl, List.drop_left']
      rfl
    have hrest : (s.drop 18).dropWhile isWhiteSpace = n ++ post := by
      rw [hdrop, dropWhile_append_of_all _ _ _ hsp]
      cases n with
      | nil => simp at hlen
      | cons d t =>
        have hd := isWhiteSpace_of_isDigit d (hdig d (List.mem_cons_self d t))
        rw [List.cons_append, List.dropWhile_cons_of_neg (by simp [hd])]
    rw [if_pos hpre]
    simp only [hrest]
    have htake : (n ++ post).take 12 = n := by
      rw [← hlen, List.take_left']
      rfl
    rw [htake, if_pos]
    refine ⟨by rw [List.length_append]; omega, ?_⟩
    rw [List.all_eq_true]
    exact hdig

theorem numberHere_eq_none_iff (s : Str) : numberHere s = none ↔ ∀ n, ¬ NumberAt s n := by
  constructor
  · intro h n hn
    rw [← numberHere_eq_some_iff, h] at hn
    exact Option.noConfusion hn
  · intro h
    cases hn : numberHere s with
    | none => rfl
    | some n => exact absurd ((numberHere_eq_some_iff s n).1 hn) (h n)

theorem matchHere_reNumber_none (s : Str) :
    Re.matchHere true reNumber s = none ↔ numberHere s = none := by
  rw [← matchHere_reNumber]
  cases Re.matchHere true reNumber s <;> simp

theorem certificateNumber_eq (combined : Str) :
    (structuredOf combined).certificateNumber =
      (Re.exec true reNumber combined).map fun m => group m 1 := rfl

/-! ## Lemmas on whitespace and words -/

theorem trimEnd_nil : trimEnd [] = [] := rfl

theorem trimEnd_cons_space (w : Char) (t : Str) (hw : isWhiteSpace w = true) :
    trimEnd (w :: t) = if trimEnd t = [] then [] else w :: trimEnd t := by
  unfold trimEnd
  rw [List.reverse_cons, List.dropWhile_append]
  cases h : t.reverse.dropWhile isWhiteSpace with
  | nil => simp [List.dropWhile, hw]
  | cons a r => simp

theorem trimEnd_cons_word (a : Char) (t : Str) (ha : isWhiteSpace a = false) :
    trimEnd (a :: t) = a :: trimEnd t := by
  simp [trimEnd, dropWhile_append_singleton _ _ _ ha]

theorem collapse_true_dropWhile (s : Str) :
    replaceRunsAux isWhiteSpace [' '] true s =
      replaceRunsAux isWhiteSpace [' '] true (s.dropWhile isWhiteSpace) := by
  induction s with
  | nil => rfl
  | cons c t ih =>
    by_cases hc : isWhiteSpace c = true
    · rw [List.dropWhile_cons_of_pos hc, ← ih]
      simp [replaceRunsAux, hc]
    · rw [List.dropWhile_cons_of_neg hc]

theorem trimStart_collapse (b : Bool) (s : Str) :
    trimStart (replaceRunsAux isWhiteSpace [' '] b s) =
      replaceRunsAux isWhiteSpace [' '] true (s.dropWhile isWhiteSpace) := by
  induction s generalizing b with
  | nil => rfl
  | cons c t ih =>
    by_cases hc : isWhiteSpace c = true
    · rw [List.dropWhile_cons_of_pos hc, ← ih true]
      cases b
      · simp only [replaceRunsAux, hc, if_true, Bool.false_eq_true, if_false, trimStart,
          List.singleton_append]
        rw [List.dropWhile_cons_of_pos (by decide)]
      · simp only [replaceRunsAux, hc, if_true, List.nil_append]
    · have hc' : isWhiteSpace c = false := by simpa using hc
      rw [List.dropWhile_cons_of_neg hc]
      simp only [replaceRunsAux, hc', Bool.false_eq_true, if_false, trimStart]
      rw [List.dropWhile_cons_of_neg hc]

theorem wordsOf_nil : wordsOf [] = [] := rfl

theorem wordsOf_singleton (c : Char) :
    wordsOf [c] = if isWhiteSpace c then [] else [[c]] := rfl

theorem wordsOf_cons_cons (c d : Char) (t : Str) :
    wordsOf (c :: d :: t) =
      if isWhiteSpace c then wordsOf (d :: t)
      else if isWhiteSpace d then [c] :: wordsOf (d :: t)
      else
        match wordsOf (d :: t) with
        | w :: rest => (c :: w) :: rest
        | [] => [[c]] := rfl

theorem wordsOf_cons_space (c : Char) (t : Str) (hc : isWhiteSpace c = true) :
    wordsOf (c :: t) = wordsOf t := by
  cases t with
  | nil => rw [wordsOf_singleton, if_pos hc, wordsOf_nil]
  | cons d t' => rw [wordsOf_cons_cons, if_pos hc]

theorem wordsOf_dropWhile (s : Str) : wordsOf (s.dropWhile isWhiteSpace) = wordsOf s := by
  induction s with
  | nil => rfl
  | cons c t ih =>
    by_cases hc : isWhiteSpace c = true
    · rw [List.dropWhile_cons_of_pos hc, ih, wordsOf_cons_space c t hc]
    · rw [List.dropWhile_cons_of_neg hc]

theorem head_wordsOf_ne_nil (s : Str) (w : Str) (rest : List Str) (h : wordsOf s = w :: rest) :
    w ≠ [] := by
  induction s generalizing w rest with
  | nil => exact List.noConfusion h
  | cons c t ih =>
    by_cases hc : isWhiteSpace c = true
    · rw [wordsOf_cons_space c t hc] at h
      exact ih w rest h
    · cases t with
      | nil =>
        rw [wordsOf_singleton, if_neg hc] at h
        simp only [List.cons.injEq] at h
        rw [← h.1]
        exact List.cons_ne_nil _ _
      | cons d t' =>
        rw [wordsOf_cons_cons, if_neg hc] at h
        split at h
        · simp only [List.cons.injEq] at h
          rw [← h.1]
          exact List.cons_ne_nil _ _
        · split at h
          · simp only [List.cons.injEq] at h
            rw [← h.1]
            exact List.cons_ne_nil _ _
          · simp only [List.cons.injEq] at h
            rw [← h.1]
            exact List.cons_ne_nil _ _

theorem join_cons_cons (sep : Str) (c : Char) (w : Str) (rest : List Str) :
    join sep ((c :: w) :: rest) = c :: join sep (w :: rest) := by
  cases rest with
  | nil => rfl
  | cons b r => rfl

theorem join_wordsOf_eq_nil (s : Str) : join [' '] (wordsOf s) = [] ↔ wordsOf s = [] := by
  constructor
  · intro h
    cases hw : wordsOf s with
    | nil => rfl
    | cons w rest =>
      have hne := head_wordsOf_ne_nil s w rest hw
      rw [hw] at h
      cases w with
      | nil => exact absurd rfl hne
      | cons a b =>
        rw [join_cons_cons] at h
        exact List.noConfusion h
  · intro h
    rw [h]
    rfl

/-- The collapsed text without its trailing whitespace is the words joined by
single blanks, after a blank when the text starts with whitespace. -/
theorem trimEnd_collapse (s : Str) :
    trimEnd (replaceRunsAux isWhiteSpace [' '] true s) = join [' '] (wordsOf s) ∧
    trimEnd (replaceRunsAux isWhiteSpace [' '] false s) =
      if (s.head?.map isWhiteSpace = some true) ∧ wordsOf s ≠ [] then
        ' ' :: join [' '] (wordsOf s)
      else join [' '] (wordsOf s) := by
  induction s with
  | nil => exact ⟨rfl, rfl⟩
  | cons c t ih =>
    obtain ⟨ih1, ih2⟩ := ih
    by_cases hc : isWhiteSpace c = true
    · have e1 : replaceRunsAux isWhiteSpace [' '] true (c :: t) =
          replaceRunsAux isWhiteSpace [' '] true t := by
        simp [replaceRunsAux, hc]
      have e2 : replaceRunsAux isWhiteSpace [' '] false (c :: t) =
          ' ' :: replaceRunsAux isWhiteSpace [' '] true t := by
        simp [replaceRunsAux, hc]
      rw [e1, e2, wordsOf_cons_space c t hc, ih1,
        trimEnd_cons_space ' ' _ (by decide), ih1]
      refine ⟨rfl, ?_⟩
      simp only [List.head?_cons, Option.map_some', hc, true_and, join_wordsOf_eq_nil]
      by_cases hw : wordsOf t = []
      · simp [hw, join]
      · simp [hw]
    · have hc' : isWhiteSpace c = false := by simpa using hc
      have e : ∀ b, replaceRunsAux isWhiteSpace [' '] b (c :: t) =
          c :: replaceRunsAux isWhiteSpace [' '] false t := by
        intro b
        simp [replaceRunsAux, hc']
      have key : c :: trimEnd (replaceRunsAux isWhiteSpace [' '] false t) =
          join [' '] (wordsOf (c :: t)) := by
        rw [ih2]
        cases t with
        | nil => simp [wordsOf_singleton, wordsOf_nil, hc', join]
        | cons d t' =>
          by_cases hd : isWhiteSpace d = true
          · have hwd : wordsOf (c :: d :: t') = [c] :: wordsOf (d :: t') := by
              rw [wordsOf_cons_cons, if_neg hc, if_pos hd]
            rw [hwd]
            cases hw : wordsOf (d :: t') with
            | nil => simp [join]
            | cons w rest => simp [hd, join]
          · have hwd : wordsOf (c :: d :: t') =
                match wordsOf (d :: t') with
                | w :: rest => (c :: w) :: rest
                | [] => [[c]] := by
              rw [wordsOf_cons_cons, if_neg hc, if_neg hd]
            rw [hwd]
            have hd' : isWhiteSpace d = false := by simpa using hd
            cases hw : wordsOf (d :: t') with
            | nil => simp [hd', join]
            | cons w rest =>
              simp only [List.head?_cons, Option.map_some', hd', Option.some.injEq,
                Bool.false_eq_true, false_and, if_false]
              rw [join_cons_cons]
      rw [e true, e false, trimEnd_cons_word c _ hc', key]
      refine ⟨rfl, ?_⟩
      simp [hc']

/-- The text that the classifier reads of an element: the words of the text
of the element, joined by single blanks. -/
theorem trim_collapse (s : Str) :
    trim (replaceRuns isWhiteSpace [' '] s) = join [' '] (wordsOf s) := by
  unfold trim replaceRuns
  rw [trimStart_collapse, (trimEnd_collapse _).1, wordsOf_dropWhile]

theorem combinedText_eq (page : Page) :
    combinedText page =
      join [' '] (wordsOf page.main) ++ ' ' :: join [' '] (wordsOf page.body) := by
  unfold combinedText
  simp only [trim_collapse]

theorem exec_isSome_of_matchHere (ci : Bool) (r : Re) (pre rest : Str)
    (h : (Re.matchHere ci r rest).isSome = true) : (Re.exec ci r (pre ++ rest)).isSome = true := by
  induction pre with
  | nil =>
    cases hm : Re.matchHere ci r rest with
    | none => rw [hm] at h; exact Bool.noConfusion h
    | some m => rw [List.nil_append, exec_of_matchHere ci r rest m hm]; rfl
  | cons c t ih =>
    cases hm : Re.matchHere ci r (c :: (t ++ rest)) with
    | none => rw [List.cons_append, exec_cons_of_none ci r c _ hm]; exact ih
    | some m => rw [List.cons_append, exec_of_matchHere ci r _ m hm]; rfl

/-! ## The certificate number and the layout of the result page -/

set_option maxRecDepth 1000000 in
/-- C26 fails as stated: after `Certificate Number` a run of fourteen digits
produces a certificate number, the first twelve digits of the run. -/
theorem longer_digit_run_gives_first_twelve :
    (structuredOf "Certificate Number 00191355140899".toList).certificateNumber =
      some "001913551408".toList := by
  rfl

/-- C26, amended. `structured.certificateNumber` is defined exactly when the
text has an occurrence of `Certificate Number`, in any case of the letters,
followed by whitespace or none and then by at least twelve digits; its value
is the first twelve digits after the leftmost such occurrence, so that of a
longer run of digits its first twelve are taken. -/
theorem certificate_number_is_first_twelve_digits (combined : Str) :
    (∀ n, (structuredOf combined).certificateNumber = some n ↔
      ∃ pre rest, combined = pre ++ rest ∧ NumberAt rest n ∧
        ∀ k, k < pre.length → ∀ n', ¬ NumberAt (combined.drop k) n') ∧
    ((structuredOf combined).certificateNumber.isSome = true ↔
      ∃ pre rest n, combined = pre ++ rest ∧ NumberAt rest n) := by
  have first : ∀ n, (structuredOf combined).certificateNumber = some n ↔
      ∃ pre rest, combined = pre ++ rest ∧ NumberAt rest n ∧
        ∀ k, k < pre.length → ∀ n', ¬ NumberAt (combined.drop k) n' := by
    intro n
    rw [certificateNumber_eq]
    constructor
    · intro h
      cases he : Re.exec true reNumber combined with
      | none => rw [he] at h; exact Option.noConfusion h
      | some m =>
        rw [he] at h
        simp only [Option.map_some', Option.some.injEq] at h
        obtain ⟨pre, rest, hs, hm, hnone⟩ := (exec_eq_some_iff true reNumber combined m).1 he
        refine ⟨pre, rest, hs, ?_, ?_⟩
        · rw [← numberHere_eq_some_iff, ← matchHere_reNumber, hm, ← h]
          rfl
        · intro k hk
          exact (numberHere_eq_none_iff _).1 ((matchHere_reNumber_none _).1 (hnone k hk))
    · rintro ⟨pre, rest, hs, hn, hnone⟩
      have h1 := (numberHere_eq_some_iff rest n).2 hn
      rw [← matchHere_reNumber] at h1
      cases hm : Re.matchHere true reNumber rest with
      | none => rw [hm] at h1; exact Option.noConfusion h1
      | some m =>
        rw [hm] at h1
        have he : Re.exec true reNumber combined = some m :=
          (exec_eq_some_iff true reNumber combined m).2 ⟨pre, rest, hs, hm, fun k hk =>
            (matchHere_reNumber_none _).2 ((numberHere_eq_none_iff _).2 (hnone k hk))⟩
        rw [he]
        exact h1
  refine ⟨first, ?_⟩
  constructor
  · intro h
    cases hc : (structuredOf combined).certificateNumber with
    | none => rw [hc] at h; exact Bool.noConfusion h
    | some n =>
      obtain ⟨pre, rest, hs, hn, -⟩ := (first n).1 hc
      exact ⟨pre, rest, n, hs, hn⟩
  · rintro ⟨pre, rest, n, hs, hn⟩
    rw [certificateNumber_eq, Option.isSome_map', hs]
    apply exec_isSome_of_matchHere
    have h1 := (numberHere_eq_some_iff rest n).2 hn
    rw [← matchHere_reNumber] at h1
    cases hm : Re.matchHere true reNumber rest with
    | none => rw [hm] at h1; exact Option.noConfusion h1
    | some m => rfl

set_option maxRecDepth 1000000 in
/-- C26, amended, at a text with a run of fourteen digits: the number found
is made of the twelve digits that follow an occurrence of the words. -/
theorem certificate_number_is_first_twelve_digits_witness :
    ∃ pre rest, "Certificate Number 00191355140899".toList = pre ++ rest ∧
      NumberAt rest "001913551408".toList ∧
      ∀ k, k < pre.length → ∀ n,
        ¬ NumberAt ("Certificate Number 00191355140899".toList.drop k) n :=
  ((certificate_number_is_first_twelve_digits "Certificate Number 00191355140899".toList).1
    "001913551408".toList).1 (by rfl)

/-- C27. Two final pages with the same title and heading whose main texts and
body texts have the same words, that is, differ only in the whitespace between
the words and at the ends, are classified alike: the same `ok`, the same
`error`, the same `structured`. -/
theorem classification_ignores_layout (details : ApplicantDetails) (steps : List FlowStep)
    (html1 url1 html2 url2 : Str) (page1 page2 : Page)
    (htitle : page1.title = page2.title) (hheading : page1.heading = page2.heading)
    (hmain : wordsOf page1.main = wordsOf page2.main)
    (hbody : wordsOf page1.body = wordsOf page2.body) :
    (classify details steps html1 url1 page1).ok = (classify details steps html2 url2 page2).ok ∧
    (classify details steps html1 url1 page1).error =
      (classify details steps html2 url2 page2).error ∧
    (classify details steps html1 url1 page1).structured =
      (classify details steps html2 url2 page2).structured := by
  have hc : combinedText page1 = combinedText page2 := by
    rw [combinedText_eq, combinedText_eq, hmain, hbody]
  have hl : looksLikeSuccessPage page1 = looksLikeSuccessPage page2 := by
    rw [looksLikeSuccessPage_eq, looksLikeSuccessPage_eq, htitle, hheading]
  unfold classify siteError
  simp only [hc, hl]
  split_ifs <;> exact ⟨rfl, rfl, rfl⟩

set_option maxRecDepth 1000000 in
/-- C27, at the sample result page and the same text laid out on one line
between blanks: both are classified as a success. -/
theorem classification_ignores_layout_witness :
    (classify (sampleDetails none) [] "a".toList [] resultPage).ok = true ∧
    (classify (sampleDetails none) [] "a".toList [] resultPage).ok =
      (classify (sampleDetails none) [] "b".toList [] flatResultPage).ok ∧
    (classify (sampleDetails none) [] "a".toList [] resultPage).structured =
      (classify (sampleDetails none) [] "b".toList [] flatResultPage).structured :=
  ⟨by rfl,
   (classification_ignores_layout (sampleDetails none) [] "a".toList [] "b".toList []
      resultPage flatResultPage rfl rfl (by rfl) (by rfl)).1,
   (classification_ignores_layout (sampleDetails none) [] "a".toList [] "b".toList []
      resultPage flatResultPage rfl rfl (by rfl) (by rfl)).2.2⟩

end DbsCheck
